import Mathlib

/-!
Verification of the `getopt`/`getopt_long` command-line scanner found in
`src/tools/oesign/getopt_long.c` (a NetBSD-derived implementation).

The development shallowly embeds the C source:

* the argument vector is a total map `Nat → α` (the C `char **nargv`;
  entries are `Option (List Char)` in the scanner model, `none` playing the
  role of the terminating null pointer of `argv`);
* the in-place cycle-following rotation `permute_args` and its helper `gcd`
  are translated loop-by-loop, with the C `while`/`for` loops rendered as
  structurally recursive functions on an explicit iteration count;
* machine integers are modelled by `Nat`/`Int`; every subtraction site is
  only exercised, in the theorems below, on the domains where the C values
  are non-negative, so `Nat` truncation coincides with the C semantics.
-/

/-! ## The C `gcd` helper (lines 128-141)

The C loop `c = a % b; while (c != 0) { a = b; b = c; c = a % b; }` divides
by `b` on entry; the `b = 0` case is undefined behaviour in C and is mapped
to the junk value `0` here (the theorems about call sites show it is never
reached).  The loop strictly decreases `b`, so a fuel of `b + 1` always
suffices; using fuel keeps the definition structurally recursive and hence
kernel-computable. -/

def gcdGo : Nat → Nat → Nat → Nat
  | 0, _, _ => 0
  | fuel + 1, a, b =>
    if b = 0 then 0
    else
      let c := a % b
      if c = 0 then b else gcdGo fuel b c

/-- The C `gcd(a, b)` (lines 128-141). -/
def gcd_c (a b : Nat) : Nat := gcdGo (b + 1) a b

/-! ## `permute_args` (lines 148-182) -/

/-- The three-line pointer swap `swap = nargv[pos]; nargv[pos] = nargv[cstart];
nargv[cstart] = swap;` (lines 177-179), acting on the array-as-function. -/
def swap2 {α : Type} (a : Nat → α) (i j : Nat) : Nat → α :=
  fun k => if k = i then a j else if k = j then a i else a k

/-- The `pos` update of the inner loop (lines 173-176): `pos -= nnonopts`
when `pos >= panonopt_end`, else `pos += nopts`. -/
def paStep (panonopt_end nnonopts nopts pos : Nat) : Nat :=
  if panonopt_end ≤ pos then pos - nnonopts else pos + nopts

/-- The inner `for (j = 0; j < cyclelen; j++)` loop of `permute_args`
(lines 171-180): first argument is the remaining iteration count, second the
current `pos`.  Each iteration steps `pos` via `paStep` and swaps slot `pos`
with slot `cstart`. -/
def cycleGo {α : Type} (panonopt_end nnonopts nopts cstart : Nat) :
    Nat → Nat → (Nat → α) → (Nat → α)
  | 0, _, a => a
  | j + 1, pos, a =>
    let pos' := paStep panonopt_end nnonopts nopts pos
    cycleGo panonopt_end nnonopts nopts cstart j pos' (swap2 a pos' cstart)

/-- The outer `for (i = 0; i < ncycle; i++)` loop of `permute_args`
(lines 167-181): `outerGo … i` performs the cycles `0, …, i-1` in the order
of the C loop; cycle `i` starts at `cstart = panonopt_end + i` with
`pos = cstart`. -/
def outerGo {α : Type} (panonopt_end nnonopts nopts cyclelen : Nat) :
    Nat → (Nat → α) → (Nat → α)
  | 0, a => a
  | i + 1, a =>
    cycleGo panonopt_end nnonopts nopts (panonopt_end + i) cyclelen
      (panonopt_end + i)
      (outerGo panonopt_end nnonopts nopts cyclelen i a)

/-- The C `permute_args(panonopt_start, panonopt_end, opt_end, nargv)`
(lines 148-182): `nnonopts = panonopt_end - panonopt_start`,
`nopts = opt_end - panonopt_end`, `ncycle = gcd(nnonopts, nopts)`,
`cyclelen = (opt_end - panonopt_start) / ncycle`, followed by the double
loop of swaps. -/
def permute_args {α : Type} (panonopt_start panonopt_end opt_end : Nat)
    (nargv : Nat → α) : Nat → α :=
  let nnonopts := panonopt_end - panonopt_start
  let nopts := opt_end - panonopt_end
  let ncycle := gcd_c nnonopts nopts
  let cyclelen := (opt_end - panonopt_start) / ncycle
  outerGo panonopt_end nnonopts nopts cyclelen ncycle nargv

example : gcd_c 12 18 = 6 := by decide
example : gcd_c 5 1 = 1 := by decide
example : gcd_c 4 6 = 2 := by decide

-- rotate [operands = 1,2][options = 3,4,5] at window [1,6): options first
example : (fun k => permute_args 1 3 6 (fun n => n) k) 1 = 3 := by decide
example : (fun k => permute_args 1 3 6 (fun n => n) k) 2 = 4 := by decide
example : (fun k => permute_args 1 3 6 (fun n => n) k) 3 = 5 := by decide
example : (fun k => permute_args 1 3 6 (fun n => n) k) 4 = 1 := by decide
example : (fun k => permute_args 1 3 6 (fun n => n) k) 5 = 2 := by decide
example : (fun k => permute_args 1 3 6 (fun n => n) k) 0 = 0 := by decide
example : (fun k => permute_args 1 3 6 (fun n => n) k) 6 = 6 := by decide
example : (fun k => permute_args 2 4 6 (fun n => n) k) 2 = 4 := by decide
example : (fun k => permute_args 2 4 6 (fun n => n) k) 3 = 5 := by decide
example : (fun k => permute_args 2 4 6 (fun n => n) k) 4 = 2 := by decide
example : (fun k => permute_args 2 4 6 (fun n => n) k) 5 = 3 := by decide

/-! ## Correctness of the permutation engine -/

theorem gcdGo_eq_gcd : ∀ (f a b : Nat), 0 < b → b ≤ f → gcdGo f a b = Nat.gcd b a := by
  intro f
  induction f with
  | zero => intro a b hb hf; omega
  | succ f ih =>
    intro a b hb hf
    simp only [gcdGo]
    rw [if_neg (by omega)]
    show (if a % b = 0 then b else gcdGo f b (a % b)) = Nat.gcd b a
    by_cases hc : a % b = 0
    · rw [if_pos hc, Nat.gcd_rec, hc, Nat.gcd_zero_left]
    · rw [if_neg hc, ih b (a % b) (Nat.pos_of_ne_zero hc)
        (by have := Nat.mod_lt a hb; omega)]
      rw [Nat.gcd_rec b a]

theorem gcd_c_eq (a b : Nat) (hb : 0 < b) : gcd_c a b = Nat.gcd a b := by
  rw [gcd_c, gcdGo_eq_gcd (b + 1) a b hb (by omega), Nat.gcd_comm]

theorem paStep_mod (ps pe oe pos : Nat) (h1 : ps < pe) (h2 : pe < oe)
    (hlo : ps ≤ pos) (hhi : pos < oe) :
    paStep pe (pe - ps) (oe - pe) pos
      = ps + ((pos - ps + (oe - pe)) % (oe - ps)) := by
  unfold paStep
  by_cases h : pe ≤ pos
  · rw [if_pos h]
    have hge : oe - ps ≤ pos - ps + (oe - pe) := by omega
    have hlt : pos - ps + (oe - pe) - (oe - ps) < oe - ps := by omega
    rw [Nat.mod_eq_sub_mod hge, Nat.mod_eq_of_lt hlt]
    omega
  · rw [if_neg h]
    rw [Nat.mod_eq_of_lt (by omega)]
    omega

/-- The trajectory of `pos` inside one cycle: `qIter ps pe oe c j` is the
value of `pos` after `j` applications of the inner-loop update starting from
`cstart = c`. -/
def qIter (ps pe oe c : Nat) (j : Nat) : Nat :=
  (paStep pe (pe - ps) (oe - pe))^[j] c

theorem qIter_zero (ps pe oe c : Nat) : qIter ps pe oe c 0 = c := rfl

theorem qIter_succ (ps pe oe c j : Nat) :
    qIter ps pe oe c (j + 1) = paStep pe (pe - ps) (oe - pe) (qIter ps pe oe c j) :=
  Function.iterate_succ_apply' _ _ _

theorem qIter_mod (ps pe oe c : Nat) (h1 : ps < pe) (h2 : pe < oe)
    (hc1 : ps ≤ c) (hc2 : c < oe) :
    ∀ j, qIter ps pe oe c j = ps + ((c - ps + j * (oe - pe)) % (oe - ps)) := by
  intro j
  induction j with
  | zero =>
    rw [qIter_zero, Nat.mul_comm, Nat.mul_zero, Nat.add_zero,
      Nat.mod_eq_of_lt (by omega)]
    omega
  | succ j ih =>
    have hlo : ps ≤ qIter ps pe oe c j := by
      rw [ih]; omega
    have hhi : qIter ps pe oe c j < oe := by
      rw [ih]
      have := Nat.mod_lt (c - ps + j * (oe - pe)) (y := oe - ps) (by omega)
      omega
    rw [qIter_succ, paStep_mod ps pe oe _ h1 h2 hlo hhi, ih]
    have hmod : ((c - ps + j * (oe - pe)) % (oe - ps) + (oe - pe)) % (oe - ps)
        = (c - ps + j * (oe - pe) + (oe - pe)) % (oe - ps) :=
      Nat.ModEq.add_right _ (Nat.mod_modEq _ _)
    have e1 : ps + ((c - ps + j * (oe - pe)) % (oe - ps)) - ps + (oe - pe)
        = (c - ps + j * (oe - pe)) % (oe - ps) + (oe - pe) := by omega
    rw [e1, hmod]
    congr 2
    ring

theorem qIter_lo (ps pe oe c : Nat) (h1 : ps < pe) (h2 : pe < oe)
    (hc1 : ps ≤ c) (hc2 : c < oe) (j : Nat) : ps ≤ qIter ps pe oe c j := by
  rw [qIter_mod ps pe oe c h1 h2 hc1 hc2]; omega

theorem qIter_hi (ps pe oe c : Nat) (h1 : ps < pe) (h2 : pe < oe)
    (hc1 : ps ≤ c) (hc2 : c < oe) (j : Nat) : qIter ps pe oe c j < oe := by
  rw [qIter_mod ps pe oe c h1 h2 hc1 hc2]
  have := Nat.mod_lt (c - ps + j * (oe - pe)) (y := oe - ps) (by omega)
  omega

theorem gcd_window (ps pe oe : Nat) (h1 : ps < pe) (h2 : pe < oe) :
    Nat.gcd (oe - ps) (oe - pe) = Nat.gcd (pe - ps) (oe - pe) := by
  have e : oe - ps = (pe - ps) + (oe - pe) := by omega
  rw [e, Nat.gcd_add_self_left]

/-- `cyclelen` as computed by `permute_args` for valid block boundaries. -/
def cycLen (ps pe oe : Nat) : Nat :=
  (oe - ps) / Nat.gcd (pe - ps) (oe - pe)

theorem qIter_close (ps pe oe c : Nat) (h1 : ps < pe) (h2 : pe < oe)
    (hc1 : ps ≤ c) (hc2 : c < oe) :
    qIter ps pe oe c (cycLen ps pe oe) = c := by
  show qIter ps pe oe c ((oe - ps) / Nat.gcd (pe - ps) (oe - pe)) = c
  set g := Nat.gcd (pe - ps) (oe - pe) with hg
  have hgno : g ∣ (oe - pe) := Nat.gcd_dvd_right _ _
  have hgn : g ∣ (oe - ps) := by
    have := Nat.gcd_dvd_left (pe - ps) (oe - pe)
    have e : oe - ps = (pe - ps) + (oe - pe) := by omega
    rw [e]; exact Nat.dvd_add this hgno
  have hdvd : (oe - ps) ∣ ((oe - ps) / g) * (oe - pe) := by
    obtain ⟨k, hk⟩ := hgno
    refine ⟨k, ?_⟩
    rw [hk, ← Nat.mul_assoc, Nat.div_mul_cancel hgn]
  rw [qIter_mod ps pe oe c h1 h2 hc1 hc2]
  obtain ⟨k, hk⟩ := hdvd
  rw [hk, Nat.add_mul_mod_self_left, Nat.mod_eq_of_lt (by omega)]
  omega

theorem qIter_inj (ps pe oe c : Nat) (h1 : ps < pe) (h2 : pe < oe)
    (hc1 : ps ≤ c) (hc2 : c < oe) (i j : Nat)
    (hi : i < cycLen ps pe oe)
    (hj : j < cycLen ps pe oe)
    (heq : qIter ps pe oe c i = qIter ps pe oe c j) : i = j := by
  unfold cycLen at hi hj
  have hn : 0 < oe - ps := by omega
  rw [qIter_mod ps pe oe c h1 h2 hc1 hc2, qIter_mod ps pe oe c h1 h2 hc1 hc2] at heq
  have hmeq : (c - ps + i * (oe - pe)) % (oe - ps)
      = (c - ps + j * (oe - pe)) % (oe - ps) := by omega
  have h3 : i * (oe - pe) ≡ j * (oe - pe) [MOD oe - ps] :=
    Nat.ModEq.add_left_cancel' (c - ps) hmeq
  have h4 := Nat.ModEq.cancel_right_div_gcd hn h3
  rw [gcd_window ps pe oe h1 h2] at h4
  exact by
    have h5 : i % ((oe - ps) / Nat.gcd (pe - ps) (oe - pe))
        = j % ((oe - ps) / Nat.gcd (pe - ps) (oe - pe)) := h4
    rw [Nat.mod_eq_of_lt hi, Nat.mod_eq_of_lt hj] at h5
    exact h5

theorem qIter_class (ps pe oe c : Nat) (h1 : ps < pe) (h2 : pe < oe)
    (hc1 : ps ≤ c) (hc2 : c < oe) (j : Nat) :
    (qIter ps pe oe c j - ps) % Nat.gcd (pe - ps) (oe - pe)
      = (c - ps) % Nat.gcd (pe - ps) (oe - pe) := by
  set g := Nat.gcd (pe - ps) (oe - pe) with hg
  have hgno : g ∣ (oe - pe) := Nat.gcd_dvd_right _ _
  have hgn : g ∣ (oe - ps) := by
    have := Nat.gcd_dvd_left (pe - ps) (oe - pe)
    have e : oe - ps = (pe - ps) + (oe - pe) := by omega
    rw [e]; exact Nat.dvd_add this hgno
  rw [qIter_mod ps pe oe c h1 h2 hc1 hc2]
  have e1 : ps + ((c - ps + j * (oe - pe)) % (oe - ps)) - ps
      = (c - ps + j * (oe - pe)) % (oe - ps) := by omega
  rw [e1, Nat.mod_mod_of_dvd _ hgn]
  obtain ⟨k, hk⟩ := hgno
  have e2 : c - ps + j * (oe - pe) = c - ps + (j * k) * g := by rw [hk]; ring
  rw [e2, Nat.add_mul_mod_self_right]

theorem cycleGo_succ {α : Type} (pe nn no c k pos : Nat) (a : Nat → α) :
    cycleGo pe nn no c (k + 1) pos a
      = cycleGo pe nn no c k (paStep pe nn no pos)
          (swap2 a (paStep pe nn no pos) c) := rfl

theorem cycleGo_snoc {α : Type} (ps pe oe c : Nat) :
    ∀ (k m : Nat) (a : Nat → α),
    cycleGo pe (pe - ps) (oe - pe) c (k + 1) (qIter ps pe oe c m) a
      = swap2 (cycleGo pe (pe - ps) (oe - pe) c k (qIter ps pe oe c m) a)
          (qIter ps pe oe c (m + k + 1)) c := by
  intro k
  induction k with
  | zero =>
    intro m a
    rw [cycleGo_succ, ← qIter_succ]
    rfl
  | succ k ih =>
    intro m a
    conv_lhs => rw [cycleGo_succ, ← qIter_succ]
    rw [ih (m + 1) (swap2 a (qIter ps pe oe c (m + 1)) c)]
    conv_rhs => rw [cycleGo_succ, ← qIter_succ]
    rw [show m + 1 + k + 1 = m + (k + 1) + 1 from by omega]

theorem permGcd_pos (ps pe oe : Nat) (h1 : ps < pe) :
    0 < Nat.gcd (pe - ps) (oe - pe) :=
  Nat.gcd_pos_of_pos_left _ (by omega)

theorem permGcd_dvd_no (ps pe oe : Nat) :
    Nat.gcd (pe - ps) (oe - pe) ∣ (oe - pe) := Nat.gcd_dvd_right _ _

theorem permGcd_dvd_n (ps pe oe : Nat) (h1 : ps < pe) (h2 : pe < oe) :
    Nat.gcd (pe - ps) (oe - pe) ∣ (oe - ps) := by
  have e : oe - ps = (pe - ps) + (oe - pe) := by omega
  rw [e]
  exact Nat.dvd_add (Nat.gcd_dvd_left _ _) (Nat.gcd_dvd_right _ _)

theorem cycLen_pos (ps pe oe : Nat) (h1 : ps < pe) (h2 : pe < oe) :
    0 < cycLen ps pe oe :=
  Nat.div_pos
    (Nat.le_of_dvd (by omega) (permGcd_dvd_n ps pe oe h1 h2))
    (permGcd_pos ps pe oe h1)

theorem swap2_self {α : Type} (a : Nat → α) (c : Nat) : swap2 a c c = a := by
  funext k
  unfold swap2
  by_cases h : k = c
  · rw [if_pos h, h]
  · rw [if_neg h, if_neg h]

theorem cycle_inv {α : Type} (ps pe oe c : Nat) (h1 : ps < pe) (h2 : pe < oe)
    (hc1 : ps ≤ c) (hc2 : c < oe) :
    ∀ j, j < cycLen ps pe oe → ∀ (a : Nat → α),
      (∀ i, 1 ≤ i → i ≤ j →
        cycleGo pe (pe - ps) (oe - pe) c j c a (qIter ps pe oe c i)
          = a (qIter ps pe oe c (i - 1))) ∧
      (cycleGo pe (pe - ps) (oe - pe) c j c a c = a (qIter ps pe oe c j)) ∧
      (∀ x, (∀ i, i ≤ j → x ≠ qIter ps pe oe c i) →
        cycleGo pe (pe - ps) (oe - pe) c j c a x = a x) := by
  have hLpos := cycLen_pos ps pe oe h1 h2
  intro j
  induction j with
  | zero =>
    intro _ a
    refine ⟨fun i h1i h2i => by omega, rfl, fun x _ => rfl⟩
  | succ j ih =>
    intro hj a
    obtain ⟨ihA, ihB, ihC⟩ := ih (by omega) a
    have hsnoc := cycleGo_snoc ps pe oe c j 0 a
    rw [qIter_zero, Nat.zero_add] at hsnoc
    have hinj := qIter_inj ps pe oe c h1 h2 hc1 hc2
    have hne0 : qIter ps pe oe c (j + 1) ≠ c := by
      intro h
      have h0 : qIter ps pe oe c (j + 1) = qIter ps pe oe c 0 := by
        rw [qIter_zero]; exact h
      have := hinj (j + 1) 0 hj (by omega) h0
      omega
    refine ⟨?_, ?_, ?_⟩
    · intro i h1i h2i
      rw [hsnoc]
      by_cases hij : i = j + 1
      · subst hij
        unfold swap2
        rw [if_pos rfl, ihB]
        congr 1
      · have hii : qIter ps pe oe c i ≠ qIter ps pe oe c (j + 1) := by
          intro h
          exact hij (hinj i (j + 1) (by omega) hj h)
        have hic : qIter ps pe oe c i ≠ c := by
          intro h
          have h0 : qIter ps pe oe c i = qIter ps pe oe c 0 := by
            rw [qIter_zero]; exact h
          have := hinj i 0 (by omega) (by omega) h0
          omega
        unfold swap2
        rw [if_neg hii, if_neg hic]
        exact ihA i h1i (by omega)
    · rw [hsnoc]
      unfold swap2
      rw [if_neg (fun h => hne0 h.symm), if_pos rfl]
      refine ihC _ (fun i hij h => ?_)
      have := hinj (j + 1) i hj (by omega) h
      omega
    · intro x hx
      rw [hsnoc]
      unfold swap2
      rw [if_neg (hx (j + 1) (by omega)),
        if_neg (by have := hx 0 (by omega); rw [qIter_zero] at this; exact this)]
      exact ihC x (fun i hij => hx i (by omega))

/-- The inverse of the inner-loop step on the window `[ps, oe)`: the final
position of the element that ends up at `x` after the rotation. -/
def rotBack (ps pe oe x : Nat) : Nat :=
  if x < ps + (oe - pe) then x + (pe - ps) else x - (oe - pe)

theorem rotBack_paStep (ps pe oe x : Nat) (h1 : ps < pe) (h2 : pe < oe)
    (hx1 : ps ≤ x) (hx2 : x < oe) :
    rotBack ps pe oe (paStep pe (pe - ps) (oe - pe) x) = x := by
  unfold rotBack paStep
  split_ifs <;> omega

theorem rotBack_lo (ps pe oe x : Nat) (h1 : ps < pe) (h2 : pe < oe)
    (hx1 : ps ≤ x) (hx2 : x < oe) : ps ≤ rotBack ps pe oe x := by
  unfold rotBack; split_ifs <;> omega

theorem rotBack_hi (ps pe oe x : Nat) (h1 : ps < pe) (h2 : pe < oe)
    (hx1 : ps ≤ x) (hx2 : x < oe) : rotBack ps pe oe x < oe := by
  unfold rotBack; split_ifs <;> omega

theorem rotBack_qIter_succ (ps pe oe c : Nat) (h1 : ps < pe) (h2 : pe < oe)
    (hc1 : ps ≤ c) (hc2 : c < oe) (j : Nat) :
    rotBack ps pe oe (qIter ps pe oe c (j + 1)) = qIter ps pe oe c j := by
  rw [qIter_succ]
  exact rotBack_paStep ps pe oe _ h1 h2
    (qIter_lo ps pe oe c h1 h2 hc1 hc2 j) (qIter_hi ps pe oe c h1 h2 hc1 hc2 j)

theorem rotBack_cstart (ps pe oe c : Nat) (h1 : ps < pe) (h2 : pe < oe)
    (hc1 : ps ≤ c) (hc2 : c < oe) :
    rotBack ps pe oe c = qIter ps pe oe c (cycLen ps pe oe - 1) := by
  have hL : cycLen ps pe oe = (cycLen ps pe oe - 1) + 1 := by
    have := cycLen_pos ps pe oe h1 h2; omega
  conv_lhs => rw [← qIter_close ps pe oe c h1 h2 hc1 hc2, hL]
  exact rotBack_qIter_succ ps pe oe c h1 h2 hc1 hc2 _

/-- The set of positions visited by the cycle starting at `c`. -/
def orbitF (ps pe oe c : Nat) : Finset Nat :=
  (Finset.range (cycLen ps pe oe)).image (qIter ps pe oe c)

theorem mem_orbitF (ps pe oe c x : Nat) :
    x ∈ orbitF ps pe oe c ↔ ∃ j, j < cycLen ps pe oe ∧ qIter ps pe oe c j = x := by
  unfold orbitF
  rw [Finset.mem_image]
  constructor
  · rintro ⟨j, hj, hx⟩
    exact ⟨j, Finset.mem_range.mp hj, hx⟩
  · rintro ⟨j, hj, hx⟩
    exact ⟨j, Finset.mem_range.mpr hj, hx⟩

theorem orbitF_subset (ps pe oe c : Nat) (h1 : ps < pe) (h2 : pe < oe)
    (hc1 : ps ≤ c) (hc2 : c < oe) :
    orbitF ps pe oe c ⊆ Finset.Ico ps oe := by
  intro x hx
  obtain ⟨j, _, hj⟩ := (mem_orbitF ps pe oe c x).mp hx
  rw [Finset.mem_Ico, ← hj]
  exact ⟨qIter_lo ps pe oe c h1 h2 hc1 hc2 j, qIter_hi ps pe oe c h1 h2 hc1 hc2 j⟩

theorem orbitF_card (ps pe oe c : Nat) (h1 : ps < pe) (h2 : pe < oe)
    (hc1 : ps ≤ c) (hc2 : c < oe) :
    (orbitF ps pe oe c).card = cycLen ps pe oe := by
  unfold orbitF
  rw [Finset.card_image_of_injOn, Finset.card_range]
  intro i hi j hj hij
  exact qIter_inj ps pe oe c h1 h2 hc1 hc2 i j
    (Finset.mem_coe.mp hi |> Finset.mem_range.mp)
    (Finset.mem_coe.mp hj |> Finset.mem_range.mp) hij

theorem orbitF_rotBack (ps pe oe c x : Nat) (h1 : ps < pe) (h2 : pe < oe)
    (hc1 : ps ≤ c) (hc2 : c < oe) (hx : x ∈ orbitF ps pe oe c) :
    rotBack ps pe oe x ∈ orbitF ps pe oe c := by
  obtain ⟨j, hjL, hj⟩ := (mem_orbitF ps pe oe c x).mp hx
  rw [mem_orbitF]
  match j, hj with
  | 0, hj =>
    refine ⟨cycLen ps pe oe - 1, by have := cycLen_pos ps pe oe h1 h2; omega, ?_⟩
    rw [← hj, qIter_zero, rotBack_cstart ps pe oe c h1 h2 hc1 hc2]
  | j + 1, hj =>
    exact ⟨j, by omega, by rw [← hj, rotBack_qIter_succ ps pe oe c h1 h2 hc1 hc2]⟩

theorem orbitF_class (ps pe oe c x : Nat) (h1 : ps < pe) (h2 : pe < oe)
    (hc1 : ps ≤ c) (hc2 : c < oe) (hx : x ∈ orbitF ps pe oe c) :
    (x - ps) % Nat.gcd (pe - ps) (oe - pe)
      = (c - ps) % Nat.gcd (pe - ps) (oe - pe) := by
  obtain ⟨j, _, hj⟩ := (mem_orbitF ps pe oe c x).mp hx
  rw [← hj]
  exact qIter_class ps pe oe c h1 h2 hc1 hc2 j

theorem cycle_spec {α : Type} (ps pe oe c : Nat) (h1 : ps < pe) (h2 : pe < oe)
    (hc1 : pe ≤ c) (hc2 : c < oe) (a : Nat → α) :
    (∀ x, x ∈ orbitF ps pe oe c →
      cycleGo pe (pe - ps) (oe - pe) c (cycLen ps pe oe) c a x
        = a (rotBack ps pe oe x)) ∧
    (∀ x, x ∉ orbitF ps pe oe c →
      cycleGo pe (pe - ps) (oe - pe) c (cycLen ps pe oe) c a x = a x) := by
  have hc1' : ps ≤ c := by omega
  have hLpos := cycLen_pos ps pe oe h1 h2
  have hL : cycLen ps pe oe = (cycLen ps pe oe - 1) + 1 := by omega
  have hsn := cycleGo_snoc ps pe oe c (cycLen ps pe oe - 1) 0 a
  rw [qIter_zero, Nat.zero_add, ← hL, qIter_close ps pe oe c h1 h2 hc1' hc2,
    swap2_self] at hsn
  obtain ⟨iA, iB, iC⟩ :=
    cycle_inv ps pe oe c h1 h2 hc1' hc2 (cycLen ps pe oe - 1) (by omega) a
  constructor
  · intro x hx
    obtain ⟨j, hjL, hj⟩ := (mem_orbitF ps pe oe c x).mp hx
    rw [hsn, ← hj]
    match j, hjL, hj with
    | 0, hjL, hj =>
      rw [qIter_zero, iB, rotBack_cstart ps pe oe c h1 h2 hc1' hc2]
    | j + 1, hjL, hj =>
      rw [iA (j + 1) (by omega) (by omega),
        rotBack_qIter_succ ps pe oe c h1 h2 hc1' hc2]
      congr 1
  · intro x hx
    rw [hsn]
    refine iC x (fun i hi hxi => ?_)
    exact hx ((mem_orbitF ps pe oe c x).mpr ⟨i, by omega, hxi.symm⟩)

theorem orbitF_disjoint (ps pe oe : Nat) (h1 : ps < pe) (h2 : pe < oe)
    (i j : Nat) (hi : i < Nat.gcd (pe - ps) (oe - pe))
    (hj : j < Nat.gcd (pe - ps) (oe - pe)) (hij : i ≠ j) :
    Disjoint (orbitF ps pe oe (pe + i)) (orbitF ps pe oe (pe + j)) := by
  have hno : Nat.gcd (pe - ps) (oe - pe) ≤ oe - pe :=
    Nat.le_of_dvd (by omega) (permGcd_dvd_no ps pe oe)
  rw [Finset.disjoint_left]
  intro x hxi hxj
  have hci : (x - ps) % Nat.gcd (pe - ps) (oe - pe)
      = (pe + i - ps) % Nat.gcd (pe - ps) (oe - pe) :=
    orbitF_class ps pe oe (pe + i) x h1 h2 (by omega) (by omega) hxi
  have hcj : (x - ps) % Nat.gcd (pe - ps) (oe - pe)
      = (pe + j - ps) % Nat.gcd (pe - ps) (oe - pe) :=
    orbitF_class ps pe oe (pe + j) x h1 h2 (by omega) (by omega) hxj
  have hm : (pe - ps + i) % Nat.gcd (pe - ps) (oe - pe)
      = (pe - ps + j) % Nat.gcd (pe - ps) (oe - pe) := by
    have e1 : pe + i - ps = pe - ps + i := by omega
    have e2 : pe + j - ps = pe - ps + j := by omega
    rw [e1] at hci; rw [e2] at hcj
    omega
  have him : i % Nat.gcd (pe - ps) (oe - pe) = j % Nat.gcd (pe - ps) (oe - pe) :=
    Nat.ModEq.add_left_cancel' (pe - ps) hm
  rw [Nat.mod_eq_of_lt hi, Nat.mod_eq_of_lt hj] at him
  exact hij him

theorem orbitF_cover (ps pe oe : Nat) (h1 : ps < pe) (h2 : pe < oe) :
    (Finset.range (Nat.gcd (pe - ps) (oe - pe))).biUnion
        (fun i => orbitF ps pe oe (pe + i))
      = Finset.Ico ps oe := by
  have hno : Nat.gcd (pe - ps) (oe - pe) ≤ oe - pe :=
    Nat.le_of_dvd (by omega) (permGcd_dvd_no ps pe oe)
  refine Finset.eq_of_subset_of_card_le ?_ ?_
  · intro x hx
    rw [Finset.mem_biUnion] at hx
    obtain ⟨i, hi, hxi⟩ := hx
    rw [Finset.mem_range] at hi
    exact orbitF_subset ps pe oe (pe + i) h1 h2 (by omega) (by omega) hxi
  · rw [Finset.card_biUnion]
    · have hcard : ∀ i ∈ Finset.range (Nat.gcd (pe - ps) (oe - pe)),
          (orbitF ps pe oe (pe + i)).card = cycLen ps pe oe := by
        intro i hi
        rw [Finset.mem_range] at hi
        exact orbitF_card ps pe oe (pe + i) h1 h2 (by omega) (by omega)
      rw [Finset.sum_congr rfl hcard, Finset.sum_const, Finset.card_range,
        Nat.card_Ico, smul_eq_mul]
      unfold cycLen
      rw [Nat.mul_div_cancel' (permGcd_dvd_n ps pe oe h1 h2)]
    · intro i hi j hj hij
      rw [Finset.mem_range] at hi hj
      exact orbitF_disjoint ps pe oe h1 h2 i j hi hj hij

theorem outer_spec {α : Type} (ps pe oe : Nat) (h1 : ps < pe) (h2 : pe < oe)
    (a : Nat → α) :
    ∀ k, k ≤ Nat.gcd (pe - ps) (oe - pe) →
      (∀ x, x ∈ (Finset.range k).biUnion (fun i => orbitF ps pe oe (pe + i)) →
        outerGo pe (pe - ps) (oe - pe) (cycLen ps pe oe) k a x
          = a (rotBack ps pe oe x)) ∧
      (∀ x, x ∉ (Finset.range k).biUnion (fun i => orbitF ps pe oe (pe + i)) →
        outerGo pe (pe - ps) (oe - pe) (cycLen ps pe oe) k a x = a x) := by
  have hno : Nat.gcd (pe - ps) (oe - pe) ≤ oe - pe :=
    Nat.le_of_dvd (by omega) (permGcd_dvd_no ps pe oe)
  intro k
  induction k with
  | zero =>
    intro _
    constructor
    · intro x hx
      rw [Finset.range_zero, Finset.biUnion_empty] at hx
      exact absurd hx (Finset.not_mem_empty x)
    · intro x _; rfl
  | succ k ih =>
    intro hk
    obtain ⟨oA, oB⟩ := ih (by omega)
    have hck1 : pe ≤ pe + k := by omega
    have hck2 : pe + k < oe := by omega
    obtain ⟨cA, cB⟩ := cycle_spec ps pe oe (pe + k) h1 h2 hck1 hck2
      (outerGo pe (pe - ps) (oe - pe) (cycLen ps pe oe) k a)
    have hstep : outerGo pe (pe - ps) (oe - pe) (cycLen ps pe oe) (k + 1) a
        = cycleGo pe (pe - ps) (oe - pe) (pe + k) (cycLen ps pe oe) (pe + k)
            (outerGo pe (pe - ps) (oe - pe) (cycLen ps pe oe) k a) := rfl
    constructor
    · intro x hx
      rw [Finset.mem_biUnion] at hx
      obtain ⟨i, hi, hxi⟩ := hx
      rw [Finset.mem_range] at hi
      by_cases hxk : x ∈ orbitF ps pe oe (pe + k)
      · rw [hstep, cA x hxk]
        have hrb : rotBack ps pe oe x ∈ orbitF ps pe oe (pe + k) :=
          orbitF_rotBack ps pe oe (pe + k) x h1 h2 (by omega) (by omega) hxk
        refine oB _ (fun hmem => ?_)
        rw [Finset.mem_biUnion] at hmem
        obtain ⟨i', hi', hxi'⟩ := hmem
        rw [Finset.mem_range] at hi'
        have hd := orbitF_disjoint ps pe oe h1 h2 i' k (by omega) (by omega)
          (by omega)
        rw [Finset.disjoint_left] at hd
        exact hd hxi' hrb
      · have hik : i ≠ k := fun h => hxk (h ▸ hxi)
        rw [hstep, cB x hxk]
        refine oA x ?_
        rw [Finset.mem_biUnion]
        exact ⟨i, Finset.mem_range.mpr (by omega), hxi⟩
    · intro x hx
      have hxk : x ∉ orbitF ps pe oe (pe + k) := fun h => by
        refine hx ?_
        rw [Finset.mem_biUnion]
        exact ⟨k, Finset.mem_range.mpr (by omega), h⟩
      rw [hstep, cB x hxk]
      refine oB x (fun h => ?_)
      rw [Finset.mem_biUnion] at h
      obtain ⟨i, hi, hxi⟩ := h
      rw [Finset.mem_range] at hi
      refine hx ?_
      rw [Finset.mem_biUnion]
      exact ⟨i, Finset.mem_range.mpr (by omega), hxi⟩

theorem permute_args_eq_outer {α : Type} (ps pe oe : Nat) (h2 : pe < oe)
    (a : Nat → α) :
    permute_args ps pe oe a
      = outerGo pe (pe - ps) (oe - pe) (cycLen ps pe oe)
          (Nat.gcd (pe - ps) (oe - pe)) a := by
  unfold permute_args cycLen
  show outerGo pe (pe - ps) (oe - pe) ((oe - ps) / gcd_c (pe - ps) (oe - pe))
      (gcd_c (pe - ps) (oe - pe)) a
    = outerGo pe (pe - ps) (oe - pe) ((oe - ps) / Nat.gcd (pe - ps) (oe - pe))
      (Nat.gcd (pe - ps) (oe - pe)) a
  rw [gcd_c_eq _ _ (by omega)]

theorem permute_args_spec {α : Type} (ps pe oe : Nat) (h1 : ps < pe)
    (h2 : pe < oe) (a : Nat → α) :
    (∀ x, ps ≤ x → x < oe →
      permute_args ps pe oe a x = a (rotBack ps pe oe x)) ∧
    (∀ x, x < ps ∨ oe ≤ x → permute_args ps pe oe a x = a x) := by
  rw [permute_args_eq_outer ps pe oe h2 a]
  obtain ⟨oA, oB⟩ := outer_spec ps pe oe h1 h2 a
    (Nat.gcd (pe - ps) (oe - pe)) (le_refl _)
  constructor
  · intro x hx1 hx2
    refine oA x ?_
    rw [orbitF_cover ps pe oe h1 h2, Finset.mem_Ico]
    exact ⟨hx1, hx2⟩
  · intro x hx
    refine oB x ?_
    rw [orbitF_cover ps pe oe h1 h2, Finset.mem_Ico]
    omega

/-- C1: for all indices `0 ≤ panonopt_start ≤ panonopt_end ≤ opt_end` with
both blocks non-empty, `permute_args` reorders the vector in place so that
the elements formerly in `[panonopt_end, opt_end)` (the options) come first,
followed by the elements formerly in `[panonopt_start, panonopt_end)` (the
operands), each sub-block keeping its original internal order, all other
positions unchanged; the cycle count it uses equals
`gcd(len(operands), len(options))`. -/
theorem C1_permute_rotation {α : Type} (panonopt_start panonopt_end opt_end : Nat)
    (h1 : panonopt_start < panonopt_end) (h2 : panonopt_end < opt_end)
    (nargv : Nat → α) :
    (∀ t, t < opt_end - panonopt_end →
      permute_args panonopt_start panonopt_end opt_end nargv (panonopt_start + t)
        = nargv (panonopt_end + t)) ∧
    (∀ t, t < panonopt_end - panonopt_start →
      permute_args panonopt_start panonopt_end opt_end nargv
          (panonopt_start + (opt_end - panonopt_end) + t)
        = nargv (panonopt_start + t)) ∧
    (∀ k, k < panonopt_start ∨ opt_end ≤ k →
      permute_args panonopt_start panonopt_end opt_end nargv k = nargv k) ∧
    gcd_c (panonopt_end - panonopt_start) (opt_end - panonopt_end)
      = Nat.gcd (panonopt_end - panonopt_start) (opt_end - panonopt_end) := by
  obtain ⟨hA, hB⟩ :=
    permute_args_spec panonopt_start panonopt_end opt_end h1 h2 nargv
  refine ⟨?_, ?_, hB, gcd_c_eq _ _ (by omega)⟩
  · intro t ht
    rw [hA (panonopt_start + t) (by omega) (by omega)]
    unfold rotBack
    rw [if_pos (by omega)]
    congr 1
    omega
  · intro t ht
    rw [hA (panonopt_start + (opt_end - panonopt_end) + t) (by omega) (by omega)]
    unfold rotBack
    rw [if_neg (by omega)]
    congr 1
    omega

/-- Witness for C1: concrete instance with operands block `[1, 2)` and
options block `[2, 4)` on the identity vector. -/
theorem C1_permute_rotation_witness :
    (1 : Nat) < 2 ∧ (2 : Nat) < 4 ∧
    ((∀ t, t < 4 - 2 →
        permute_args 1 2 4 (fun n : Nat => n) (1 + t) = (fun n : Nat => n) (2 + t)) ∧
      (∀ t, t < 2 - 1 →
        permute_args 1 2 4 (fun n : Nat => n) (1 + (4 - 2) + t)
          = (fun n : Nat => n) (1 + t)) ∧
      (∀ k, k < 1 ∨ 4 ≤ k →
        permute_args 1 2 4 (fun n : Nat => n) k = (fun n : Nat => n) k) ∧
      gcd_c (2 - 1) (4 - 2) = Nat.gcd (2 - 1) (4 - 2)) :=
  ⟨by decide, by decide,
    C1_permute_rotation 1 2 4 (by decide) (by decide) (fun n : Nat => n)⟩

/-! ## The scanner model

The remaining functions of the file (`getopt_internal`, `getopt_long`) are
stateful: they mutate the globals `optind`, `optopt`, `optarg`, `optreset`,
`place`, `nonopt_start`, `nonopt_end`, the argument vector, and (for long
options with a flag pointer) a caller-owned `int`.  The model threads all of
this through an explicit state record:

* strings are `List Char` (no embedded NUL);
* `place` is the suffix of the current token still to be scanned (the C
  `place` pointer into `nargv[optind]`);
* `nonopt_start`/`nonopt_end` use `Option Nat` for the C `-1` sentinel;
* `argv` is `Nat → Option (List Char)`, with `none` for the null pointer
  that terminates a real `argv` (the code reads `nargv[optind]` one slot
  past the last argument in the long-option required-argument path);
* `flags` is the memory seen through long-option `flag` pointers, keyed by
  an abstract address;
* `ptrace` is a ghost field recording the arguments of every
  `permute_args` invocation, used only to state theorems about call sites;
* error printing (`warnx`/`PRINT_ERROR`, lines 53-54 and 105-123) affects
  no scanner state and no return value and is not modelled;
* `IS_POSIXLY_CORRECT` (the `POSIXLY_CORRECT` environment lookup) is the
  boolean parameter `posix`. -/

abbrev Str := List Char

/-- Scanner state: the file-scope globals of `getopt_long.c`. -/
structure GState where
  optind : Nat
  optopt : Int
  optarg : Option Str
  optreset : Bool
  place : Str
  nonopt_start : Option Nat
  nonopt_end : Option Nat
  argv : Nat → Option Str
  flags : Nat → Int
  ptrace : List (Nat × Nat × Nat)

/-- `IGNORE_FIRST` (line 52): the option spec starts with `-` or `+`. -/
def ignoreFirst (options : Str) : Bool :=
  options.head? == some '-' || options.head? == some '+'

/-- `IN_ORDER` (line 62). -/
def inOrderMode (options : Str) (posix : Bool) : Bool :=
  !posix && options.head? == some '-'

/-- `PERMUTE` (line 61). -/
def permuteMode (options : Str) (posix : Bool) : Bool :=
  !posix && !(ignoreFirst options)

/-- `BADCH` (line 65): the `?` error return. -/
def BADCH : Int := Int.ofNat '?'.toNat

/-- `BADARG` (lines 66-68): `:` when the spec leads with `:` (possibly after
`-`/`+`), else `?`. -/
def BADARGv (options : Str) : Int :=
  if (ignoreFirst options && options.tail.head? == some ':')
      || options.head? == some ':' then Int.ofNat ':'.toNat
  else BADCH

/-- `strchr(s, c)` for a non-NUL `c`: the suffix of `s` starting at the
first occurrence of `c`, or `none`. -/
def strchr' : Str → Char → Option Str
  | [], _ => none
  | c :: s, x => if c = x then some (c :: s) else strchr' s x

/-- The non-option test of line 230:
`(*(place = nargv[optind]) != '-') || (place[1] == '\0')`. -/
def nonOptTok (t : Str) : Bool :=
  t.head? != some '-' || t.tail.isEmpty

/-- A `permute_args` invocation on the state: swaps the blocks inside
`argv` and records the call in the ghost trace. -/
def doPermute (s : GState) (a b oe : Nat) : GState :=
  { s with argv := permute_args a b oe s.argv, ptrace := s.ptrace ++ [(a, b, oe)] }

/-- The option-character processing of `getopt_internal` (lines 273-345),
entered with `place` at the candidate option character. -/
def processChar (nargc : Nat) (options : Str) (s : GState) : Int × GState :=
  let optchar : Char := s.place.head?.getD '\x00'
  let s := { s with place := s.place.tail }
  let oli? := strchr' (options.drop (if ignoreFirst options then 1 else 0)) optchar
  if optchar = ':' ∨ oli? = none then
    -- option letter unknown or ':' (lines 273-283)
    let s := if s.place.isEmpty then { s with optind := s.optind + 1 } else s
    (BADCH, { s with optopt := Int.ofNat optchar.toNat })
  else
    let oli := oli?.getD []
    if optchar = 'W' ∧ oli.tail.head? = some ';' then
      -- -W long-option escape (lines 284-309)
      if !s.place.isEmpty then (-2, s)
      else if nargc ≤ s.optind + 1 then
        (BADARGv options,
          { s with optind := s.optind + 1, place := [],
                   optopt := Int.ofNat 'W'.toNat })
      else
        (-2, { s with optind := s.optind + 1,
                      place := (s.argv (s.optind + 1)).getD [] })
    else if oli.tail.head? ≠ some ':' then
      -- does not take an argument (lines 310-315)
      let s := if s.place.isEmpty then { s with optind := s.optind + 1 } else s
      (Int.ofNat optchar.toNat, s)
    else
      -- takes a (possibly optional) argument (lines 316-342)
      if !s.place.isEmpty then
        -- inline argument, no white space
        (Int.ofNat optchar.toNat,
          { s with optarg := some s.place, place := [], optind := s.optind + 1 })
      else if oli.tail.tail.head? ≠ some ':' then
        -- argument not optional: consume the next slot
        if nargc ≤ s.optind + 1 then
          (BADARGv options,
            { s with optarg := none, optind := s.optind + 1, place := [],
                     optopt := Int.ofNat optchar.toNat })
        else
          (Int.ofNat optchar.toNat,
            { s with optarg := s.argv (s.optind + 1), place := [],
                     optind := s.optind + 2 })
      else
        -- optional argument with nothing inline: optarg stays NULL
        (Int.ofNat optchar.toNat,
          { s with optarg := none, place := [], optind := s.optind + 1 })

/-- The `start:` scanning loop of `getopt_internal` (lines 204-272).  The
`goto start` after skipping a non-option (line 262) is the recursive call;
each such iteration strictly increases `optind`, which is `< nargc` when it
happens, so a fuel of `nargc + 1` never runs out. -/
def scanFuel (nargc : Nat) (options : Str) (posix : Bool) :
    Nat → GState → Int × GState
  | 0, s => (-1, s)
  | fuel + 1, s =>
    if s.optreset ∨ s.place.isEmpty then
      let s := { s with optreset := false }
      if nargc ≤ s.optind then
        -- end of argument vector (lines 209-229)
        let s := { s with place := [] }
        match s.nonopt_end, s.nonopt_start with
        | some b, a? =>
          -- (the protocol never reaches `a? = none` here; the C code would
          -- pass the `-1` sentinel to permute_args in that case)
          let a := a?.getD 0
          let s := doPermute s a b s.optind
          (-1, { s with optind := s.optind - (b - a),
                        nonopt_start := none, nonopt_end := none })
        | none, some a =>
          (-1, { s with optind := a,
                        nonopt_start := none, nonopt_end := none })
        | none, none =>
          (-1, { s with nonopt_start := none, nonopt_end := none })
      else
        let tok := (s.argv s.optind).getD []
        if nonOptTok tok then
          -- found non-option (lines 230-263)
          let s := { s with place := [] }
          if inOrderMode options posix then
            (1, { s with optarg := s.argv s.optind, optind := s.optind + 1 })
          else if !(permuteMode options posix) then
            (-1, s)
          else
            let s :=
              if s.nonopt_start = none then
                { s with nonopt_start := some s.optind }
              else if s.nonopt_end ≠ none then
                let a := s.nonopt_start.getD 0
                let b := s.nonopt_end.getD 0
                let s := doPermute s a b s.optind
                { s with nonopt_start := some (s.optind - (b - a)),
                         nonopt_end := none }
              else s
            scanFuel nargc options posix fuel { s with optind := s.optind + 1 }
        else
          -- an option token: `-x…` with at least one character after `-`
          let s :=
            if s.nonopt_start ≠ none ∧ s.nonopt_end = none then
              { s with nonopt_end := some s.optind }
            else s
          let s := { s with place := tok.tail }
          if s.place.head? = some '-' then
            -- found "--" (lines 266-271)
            (-2, { s with place := s.place.tail })
          else
            processChar nargc options s
    else
      processChar nargc options s

/-- `getopt_internal(nargc, nargv, options)` (lines 189-345), with the
environment lookup abstracted into `posix`. -/
def getopt_internal (nargc : Nat) (options : Str) (posix : Bool)
    (s : GState) : Int × GState :=
  let s := { s with optarg := none }
  let s := if s.optind = 0 then { s with optind := 1 } else s
  let s := if s.optreset then
    { s with nonopt_start := none, nonopt_end := none } else s
  scanFuel nargc options posix (nargc + 1) s

/-! ## Long options -/

/-- Modelled from the spec: `getopt.h` (not part of the source tree)
declares the argument-arity constants; the spec's arities
none/required/optional carry the standard POSIX values 0/1/2. -/
def no_argument : Int := 0

/-- Modelled from the spec: see `no_argument`. -/
def required_argument : Int := 1

/-- Modelled from the spec: see `no_argument`. -/
def optional_argument : Int := 2

/-- `struct option`: name, argument arity, optional write-back flag pointer
(modelled as an abstract address into `GState.flags`), and value. -/
structure option_t where
  name : Str
  has_arg : Int
  flag : Option Nat
  val : Int
  deriving DecidableEq

/-- The `--option=arg` split (lines 438-447): length of the name part and,
when a `=` is present, the text after the first `=`. -/
def splitEq (s : Str) : Nat × Option Str :=
  let pre := s.takeWhile (fun c => c ≠ '=')
  if pre.length = s.length then (s.length, none)
  else (pre.length, some (s.drop (pre.length + 1)))

/-- `IDENTICAL_INTERPRETATION` (lines 396-399). -/
def identOpt (x y : option_t) : Prop :=
  x.has_arg = y.has_arg ∧ x.flag = y.flag ∧ x.val = y.val

instance identOpt.decidable (x y : option_t) : Decidable (identOpt x y) :=
  inferInstanceAs (Decidable (x.has_arg = y.has_arg ∧ x.flag = y.flag ∧ x.val = y.val))

/-- The matching loop of `getopt_long` (lines 449-469): scans the table in
order carrying the current index, the first match (index and entry) and the
ambiguity flag; an exact match breaks with `ambiguous = 0`. -/
def matchGo (text : Str) (len : Nat) :
    Nat → List option_t → Option (Nat × option_t) → Bool →
      Option (Nat × option_t) × Bool
  | _, [], m, amb => (m, amb)
  | i, e :: rest, m, amb =>
    if !(List.isPrefixOf (text.take len) e.name) then
      matchGo text len (i + 1) rest m amb
    else if e.name.length = len then
      (some (i, e), false)
    else
      match m with
      | none => matchGo text len (i + 1) rest (some (i, e)) amb
      | some (mi, me) =>
        if identOpt e me then matchGo text len (i + 1) rest (some (mi, me)) amb
        else matchGo text len (i + 1) rest (some (mi, me)) true

/-- The long-option matcher started the way `getopt_long` starts it. -/
def matchLong (tbl : List option_t) (text : Str) (len : Nat) :
    Option (Nat × option_t) × Bool :=
  matchGo text len 0 tbl none false

/-- The `retval == -2` block of `getopt_long` (lines 407-541): resolution of
a long option (or of the bare `--` terminator).  The third component is what
gets written through the caller's `idx` pointer (`none` when `idx` is null
or nothing is written). -/
def parse_long (nargc : Nat) (options : Str) (long_options : List option_t)
    (hasIdx : Bool) (s : GState) : Int × GState × Option Nat :=
  let current_argv := s.place
  let s := { s with optind := s.optind + 1, place := [] }
  if current_argv.isEmpty then
    -- bare "--" (lines 420-437)
    match s.nonopt_end, s.nonopt_start with
    | some b, a? =>
      let a := a?.getD 0
      let s := doPermute s a b s.optind
      (-1, { s with optind := s.optind - (b - a),
                    nonopt_start := none, nonopt_end := none }, none)
    | none, _ =>
      (-1, { s with nonopt_start := none, nonopt_end := none }, none)
  else
    let current_argv_len := (splitEq current_argv).1
    let has_equal := (splitEq current_argv).2
    match matchLong long_options current_argv current_argv_len with
    | (_, true) =>
      -- ambiguous abbreviation (lines 470-477)
      (BADCH, { s with optopt := 0 }, none)
    | (none, false) =>
      -- unknown option (lines 522-529)
      (BADCH, { s with optopt := 0 }, none)
    | (some (mi, e), false) =>
      if e.has_arg = no_argument ∧ has_equal ≠ none then
        -- argument supplied to a no-argument option (lines 481-490)
        (BADARGv options,
          { s with optopt := if e.flag = none then e.val else 0 }, none)
      else
        let s :=
          if e.has_arg = required_argument ∨ e.has_arg = optional_argument then
            if has_equal ≠ none then { s with optarg := has_equal }
            else if e.has_arg = required_argument then
              -- optional argument does not use the next nargv entry
              { s with optarg := s.argv s.optind, optind := s.optind + 1 }
            else s
          else s
        if e.has_arg = required_argument ∧ s.optarg = none then
          -- missing argument (lines 505-520)
          (BADARGv options,
            { s with optopt := if e.flag = none then e.val else 0,
                     optind := s.optind - 1 }, none)
        else
          match e.flag with
          | some f =>
            (0, { s with flags := Function.update s.flags f e.val },
              if hasIdx then some mi else none)
          | none =>
            (e.val, s, if hasIdx then some mi else none)

/-- `getopt_long(nargc, nargv, options, long_options, idx)` (lines 387-544);
`hasIdx` says whether the caller passed a non-null `idx`. -/
def getopt_long (nargc : Nat) (options : Str) (posix : Bool)
    (long_options : List option_t) (hasIdx : Bool) (s : GState) :
    Int × GState × Option Nat :=
  let r := getopt_internal nargc options posix s
  if r.1 = -2 then parse_long nargc options long_options hasIdx r.2
  else (r.1, r.2, none)

/-- The initial values of the globals (lines 38-42 and 77-80). -/
def initState (argv : Nat → Option Str) : GState :=
  { optind := 1, optopt := Int.ofNat '?'.toNat, optarg := none,
    optreset := false, place := [],
    nonopt_start := none, nonopt_end := none,
    argv := argv, flags := fun _ => 0, ptrace := [] }

/-- An argument vector from a list (null past the end, as in C). -/
def argvOf (l : List Str) : Nat → Option Str := fun k => l.get? k

example :
    (getopt_internal 2 "a:".toList false
      (initState (argvOf ["prog".toList, "-afoo".toList]))).1
      = Int.ofNat 'a'.toNat := by decide
example :
    (getopt_internal 2 "a:".toList false
      (initState (argvOf ["prog".toList, "-afoo".toList]))).2.optarg
      = some "foo".toList := by decide
example :
    (getopt_internal 3 "a:".toList false
      (initState (argvOf ["prog".toList, "-a".toList, "foo".toList]))).2.optarg
      = some "foo".toList := by decide
example :
    (getopt_internal 3 "a:".toList false
      (initState (argvOf ["prog".toList, "-a".toList, "foo".toList]))).2.optind
      = 3 := by decide
example :
    (getopt_internal 3 "a::".toList false
      (initState (argvOf ["prog".toList, "-a".toList, "foo".toList]))).2.optarg
      = none := by decide
example :
    (getopt_internal 3 "a::".toList false
      (initState (argvOf ["prog".toList, "-a".toList, "foo".toList]))).2.optind
      = 2 := by decide
example :
    (getopt_internal 2 "a:".toList false
      (initState (argvOf ["prog".toList, "-a".toList]))).1
      = BADCH := by decide
example :
    (getopt_internal 2 ":a:".toList false
      (initState (argvOf ["prog".toList, "-a".toList]))).1
      = Int.ofNat ':'.toNat := by decide
example :
    (getopt_internal 2 ":a:".toList false
      (initState (argvOf ["prog".toList, "-a".toList]))).2.optopt
      = Int.ofNat 'a'.toNat := by decide

example :
    (getopt_internal 5 "ab".toList false
      ((getopt_internal 5 "ab".toList false
        ((getopt_internal 5 "ab".toList false
          (initState (argvOf ["prog".toList, "x".toList, "-a".toList,
            "-b".toList, "y".toList]))).2)).2)).1 = -1 := by decide
example :
    ((getopt_internal 5 "ab".toList false
      ((getopt_internal 5 "ab".toList false
        ((getopt_internal 5 "ab".toList false
          (initState (argvOf ["prog".toList, "x".toList, "-a".toList,
            "-b".toList, "y".toList]))).2)).2)).2).optind = 3 := by decide
example :
    ((getopt_internal 5 "ab".toList false
      ((getopt_internal 5 "ab".toList false
        ((getopt_internal 5 "ab".toList false
          (initState (argvOf ["prog".toList, "x".toList, "-a".toList,
            "-b".toList, "y".toList]))).2)).2)).2).argv 1 = some "-a".toList := by
  decide
example :
    ((getopt_internal 5 "ab".toList false
      ((getopt_internal 5 "ab".toList false
        ((getopt_internal 5 "ab".toList false
          (initState (argvOf ["prog".toList, "x".toList, "-a".toList,
            "-b".toList, "y".toList]))).2)).2)).2).argv 3 = some "x".toList := by
  decide
example :
    ((getopt_internal 5 "ab".toList false
      ((getopt_internal 5 "ab".toList false
        ((getopt_internal 5 "ab".toList false
          (initState (argvOf ["prog".toList, "x".toList, "-a".toList,
            "-b".toList, "y".toList]))).2)).2)).2).ptrace = [(1, 2, 4)] := by
  decide

example :
    (getopt_long 2 [] false
      [⟨"verbose".toList, 0, none, 118⟩, ⟨"version".toList, 0, none, 86⟩]
      false (initState (argvOf ["prog".toList, "--verb".toList]))).1
      = 118 := by decide
example :
    (getopt_long 2 [] false
      [⟨"verbose".toList, 0, none, 118⟩, ⟨"version".toList, 0, none, 86⟩]
      false (initState (argvOf ["prog".toList, "--ver".toList]))).1
      = BADCH := by decide
example :
    ((getopt_long 2 [] false
      [⟨"verbose".toList, 0, none, 118⟩, ⟨"version".toList, 0, none, 86⟩]
      false (initState (argvOf ["prog".toList, "--ver".toList]))).2).1.optopt
      = 0 := by decide
example :
    (getopt_long 2 [] false
      [⟨"verbose".toList, 0, none, 118⟩, ⟨"version".toList, 0, none, 86⟩]
      false (initState (argvOf ["prog".toList, "--verbose=x".toList]))).1
      = BADCH := by decide
example :
    (getopt_long 2 [] false
      [⟨"verbose".toList, 0, none, 118⟩, ⟨"verbose".toList, 1, none, 119⟩]
      false (initState (argvOf ["prog".toList, "--verbose".toList]))).1
      = 118 := by decide
example :
    (getopt_long 2 [] false [⟨"x".toList, 0, some 5, 42⟩] true
      (initState (argvOf ["prog".toList, "--x".toList]))).1 = 0 := by decide
example :
    ((getopt_long 2 [] false [⟨"x".toList, 0, some 5, 42⟩] true
      (initState (argvOf ["prog".toList, "--x".toList]))).2).1.flags 5
      = 42 := by decide
example :
    ((getopt_long 2 [] false [⟨"x".toList, 0, some 5, 42⟩] true
      (initState (argvOf ["prog".toList, "--x".toList]))).2).2
      = some 0 := by decide
example :
    (getopt_long 3 [] false [⟨"arg".toList, 1, none, 65⟩] false
      (initState (argvOf ["prog".toList, "--arg".toList, "v".toList]))).1
      = 65 := by decide
example :
    ((getopt_long 3 [] false [⟨"arg".toList, 1, none, 65⟩] false
      (initState (argvOf ["prog".toList, "--arg".toList, "v".toList]))).2).1.optarg
      = some "v".toList := by decide
example :
    (getopt_long 2 [] false [⟨"arg".toList, 1, none, 65⟩] false
      (initState (argvOf ["prog".toList, "--arg".toList]))).1
      = BADCH := by decide
example :
    ((getopt_long 2 [] false [⟨"arg".toList, 1, none, 65⟩] false
      (initState (argvOf ["prog".toList, "--arg".toList]))).2).1.optind
      = 2 := by decide


theorem processChar_inline (nargc : Nat) (options : Str) (s : GState)
    (c : Char) (w : Str) (oli : Str)
    (hplace : s.place = c :: w) (hw : w.isEmpty = false)
    (hfind : strchr' (options.drop (if ignoreFirst options then 1 else 0)) c
      = some oli)
    (hc : c ≠ ':')
    (hWnot : ¬(c = 'W' ∧ oli.tail.head? = some ';'))
    (hcolon : oli.tail.head? = some ':') :
    processChar nargc options s
      = (Int.ofNat c.toNat,
         { s with optarg := some w, place := [], optind := s.optind + 1 }) := by
  simp only [processChar, hplace, List.head?_cons, Option.getD_some,
    List.tail_cons, hfind]
  rw [if_neg (by simp [hc])]
  rw [if_neg hWnot, if_neg (by simp [hcolon]), hw]
  simp

theorem processChar_noarg_mid (nargc : Nat) (options : Str) (s : GState)
    (c : Char) (w : Str) (oli : Str)
    (hplace : s.place = c :: w) (hw : w.isEmpty = false)
    (hfind : strchr' (options.drop (if ignoreFirst options then 1 else 0)) c
      = some oli)
    (hc : c ≠ ':')
    (hWnot : ¬(c = 'W' ∧ oli.tail.head? = some ';'))
    (hcolon : oli.tail.head? ≠ some ':') :
    processChar nargc options s = (Int.ofNat c.toNat, { s with place := w }) := by
  simp only [processChar, hplace, List.head?_cons, Option.getD_some,
    List.tail_cons, hfind]
  rw [if_neg (by simp [hc])]
  rw [if_neg hWnot, if_pos hcolon, hw]
  simp

theorem processChar_noarg_end (nargc : Nat) (options : Str) (s : GState)
    (c : Char) (oli : Str)
    (hplace : s.place = [c])
    (hfind : strchr' (options.drop (if ignoreFirst options then 1 else 0)) c
      = some oli)
    (hc : c ≠ ':')
    (hWnot : ¬(c = 'W' ∧ oli.tail.head? = some ';'))
    (hcolon : oli.tail.head? ≠ some ':') :
    processChar nargc options s
      = (Int.ofNat c.toNat, { s with place := [], optind := s.optind + 1 }) := by
  simp only [processChar, hplace, List.head?_cons, Option.getD_some,
    List.tail_cons, hfind]
  rw [if_neg (by simp [hc])]
  rw [if_neg hWnot, if_pos hcolon]
  simp

theorem processChar_unknown_end (nargc : Nat) (options : Str) (s : GState)
    (c : Char)
    (hplace : s.place = [c])
    (herr : c = ':'
      ∨ strchr' (options.drop (if ignoreFirst options then 1 else 0)) c = none) :
    processChar nargc options s
      = (BADCH, { s with place := [], optind := s.optind + 1,
                         optopt := Int.ofNat c.toNat }) := by
  simp only [processChar, hplace, List.head?_cons, Option.getD_some,
    List.tail_cons]
  rw [if_pos herr]
  simp

theorem processChar_unknown_mid (nargc : Nat) (options : Str) (s : GState)
    (c : Char) (w : Str)
    (hplace : s.place = c :: w) (hw : w.isEmpty = false)
    (herr : c = ':'
      ∨ strchr' (options.drop (if ignoreFirst options then 1 else 0)) c = none) :
    processChar nargc options s
      = (BADCH, { s with place := w, optopt := Int.ofNat c.toNat }) := by
  simp only [processChar, hplace, List.head?_cons, Option.getD_some,
    List.tail_cons]
  rw [if_pos herr, hw]
  simp

theorem processChar_required_consume (nargc : Nat) (options : Str) (s : GState)
    (c : Char) (oli : Str)
    (hplace : s.place = [c])
    (hfind : strchr' (options.drop (if ignoreFirst options then 1 else 0)) c
      = some oli)
    (hc : c ≠ ':')
    (hWnot : ¬(c = 'W' ∧ oli.tail.head? = some ';'))
    (hcolon : oli.tail.head? = some ':')
    (hsingle : oli.tail.tail.head? ≠ some ':')
    (hlt : s.optind + 1 < nargc) :
    processChar nargc options s
      = (Int.ofNat c.toNat,
         { s with optarg := s.argv (s.optind + 1), place := [],
                  optind := s.optind + 2 }) := by
  simp only [processChar, hplace, List.head?_cons, Option.getD_some,
    List.tail_cons, hfind]
  rw [if_neg (by simp [hc])]
  rw [if_neg hWnot, if_neg (by simp [hcolon])]
  rw [if_pos hsingle, if_neg (show ¬nargc ≤ s.optind + 1 from by omega)]
  simp

theorem processChar_required_missing (nargc : Nat) (options : Str) (s : GState)
    (c : Char) (oli : Str)
    (hplace : s.place = [c])
    (hfind : strchr' (options.drop (if ignoreFirst options then 1 else 0)) c
      = some oli)
    (hc : c ≠ ':')
    (hWnot : ¬(c = 'W' ∧ oli.tail.head? = some ';'))
    (hcolon : oli.tail.head? = some ':')
    (hsingle : oli.tail.tail.head? ≠ some ':')
    (hge : nargc ≤ s.optind + 1) :
    processChar nargc options s
      = (BADARGv options,
         { s with optarg := none, optind := s.optind + 1, place := [],
                  optopt := Int.ofNat c.toNat }) := by
  simp only [processChar, hplace, List.head?_cons, Option.getD_some,
    List.tail_cons, hfind]
  rw [if_neg (by simp [hc])]
  rw [if_neg hWnot, if_neg (by simp [hcolon])]
  rw [if_pos hsingle, if_pos hge]
  simp

theorem processChar_optional_none (nargc : Nat) (options : Str) (s : GState)
    (c : Char) (oli : Str)
    (hplace : s.place = [c])
    (hfind : strchr' (options.drop (if ignoreFirst options then 1 else 0)) c
      = some oli)
    (hc : c ≠ ':')
    (hWnot : ¬(c = 'W' ∧ oli.tail.head? = some ';'))
    (hcolon : oli.tail.head? = some ':')
    (hdouble : oli.tail.tail.head? = some ':') :
    processChar nargc options s
      = (Int.ofNat c.toNat,
         { s with optarg := none, place := [], optind := s.optind + 1 }) := by
  simp only [processChar, hplace, List.head?_cons, Option.getD_some,
    List.tail_cons, hfind]
  rw [if_neg (by simp [hc])]
  rw [if_neg hWnot, if_neg (by simp [hcolon])]
  rw [if_neg (show ¬(oli.tail.tail.head? ≠ some ':') from by simp [hdouble])]
  simp

theorem processChar_W_missing (nargc : Nat) (options : Str) (s : GState)
    (oli : Str)
    (hplace : s.place = ['W'])
    (hfind : strchr' (options.drop (if ignoreFirst options then 1 else 0)) 'W'
      = some oli)
    (hsemi : oli.tail.head? = some ';')
    (hge : nargc ≤ s.optind + 1) :
    processChar nargc options s
      = (BADARGv options,
         { s with optind := s.optind + 1, place := [],
                  optopt := Int.ofNat 'W'.toNat }) := by
  simp only [processChar, hplace, List.head?_cons, Option.getD_some,
    List.tail_cons, hfind]
  rw [if_neg (by simp)]
  rw [if_pos (show True ∧ oli.tail.head? = some ';' from ⟨trivial, hsemi⟩)]
  rw [if_pos hge]
  simp

theorem permute_not_inorder (options : Str) (posix : Bool)
    (h : permuteMode options posix = true) : inOrderMode options posix = false := by
  unfold permuteMode ignoreFirst at h
  unfold inOrderMode
  rcases hb : (options.head? == some '-') with _ | _
  · simp [hb]
  · simp [hb] at h

theorem scanFuel_mid (nargc : Nat) (options : Str) (posix : Bool) (f : Nat)
    (s : GState) (hreset : s.optreset = false) (hplace : s.place ≠ []) :
    scanFuel nargc options posix (f + 1) s = processChar nargc options s := by
  simp only [scanFuel]
  rw [if_neg (by simp [hreset, List.isEmpty_iff, hplace])]

theorem scanFuel_exhaust_nn (nargc : Nat) (options : Str) (posix : Bool)
    (f : Nat) (s : GState) (hreset : s.optreset = false)
    (hplace : s.place = []) (hge : nargc ≤ s.optind)
    (hns : s.nonopt_start = none) (hne : s.nonopt_end = none) :
    scanFuel nargc options posix (f + 1) s
      = (-1, { s with
               optreset := false, place := [],
               nonopt_start := none, nonopt_end := none }) := by
  simp only [scanFuel]
  rw [if_pos (Or.inr (by simp [hplace]))]
  simp only [hns, hne]
  rw [if_pos hge]

theorem scanFuel_exhaust_roll (nargc : Nat) (options : Str) (posix : Bool)
    (f : Nat) (s : GState) (a : Nat) (hreset : s.optreset = false)
    (hplace : s.place = []) (hge : nargc ≤ s.optind)
    (hns : s.nonopt_start = some a) (hne : s.nonopt_end = none) :
    scanFuel nargc options posix (f + 1) s
      = (-1, { s with
               optreset := false, place := [], optind := a,
               nonopt_start := none, nonopt_end := none }) := by
  simp only [scanFuel]
  rw [if_pos (Or.inr (by simp [hplace]))]
  simp only [hns, hne]
  rw [if_pos hge]

theorem scanFuel_exhaust_perm (nargc : Nat) (options : Str) (posix : Bool)
    (f : Nat) (s : GState) (a b : Nat) (hreset : s.optreset = false)
    (hplace : s.place = []) (hge : nargc ≤ s.optind)
    (hns : s.nonopt_start = some a) (hne : s.nonopt_end = some b) :
    scanFuel nargc options posix (f + 1) s
      = (-1, { s with
               optreset := false, place := [],
               argv := permute_args a b s.optind s.argv,
               ptrace := s.ptrace ++ [(a, b, s.optind)],
               optind := s.optind - (b - a),
               nonopt_start := none, nonopt_end := none }) := by
  simp only [scanFuel]
  rw [if_pos (Or.inr (by simp [hplace]))]
  simp only [hns, hne]
  rw [if_pos hge]
  simp [doPermute]

theorem scanFuel_opt (nargc : Nat) (options : Str) (posix : Bool) (f : Nat)
    (s : GState) (c : Char) (r : Str) (hreset : s.optreset = false)
    (hplace : s.place = []) (hlt : s.optind < nargc)
    (htok : s.argv s.optind = some ('-' :: c :: r)) (hc : c ≠ '-') :
    scanFuel nargc options posix (f + 1) s
      = processChar nargc options
          { s with
            optreset := false, place := c :: r,
            nonopt_end :=
              if s.nonopt_start ≠ none ∧ s.nonopt_end = none
              then some s.optind else s.nonopt_end } := by
  simp only [scanFuel]
  rw [if_pos (Or.inr (by simp [hplace]))]
  rw [if_neg (by omega)]
  simp only [htok, Option.getD_some]
  rw [if_neg (by simp [nonOptTok])]
  by_cases hcase : s.nonopt_start ≠ none ∧ s.nonopt_end = none
  · rw [if_pos hcase, if_pos hcase]
    rw [if_neg (by simp [hc])]
    simp
  · rw [if_neg hcase, if_neg hcase]
    rw [if_neg (by simp [hc])]
    simp

theorem scanFuel_ddash (nargc : Nat) (options : Str) (posix : Bool) (f : Nat)
    (s : GState) (r : Str) (hreset : s.optreset = false)
    (hplace : s.place = []) (hlt : s.optind < nargc)
    (htok : s.argv s.optind = some ('-' :: '-' :: r)) :
    scanFuel nargc options posix (f + 1) s
      = (-2, { s with
               optreset := false, place := r,
               nonopt_end :=
                 if s.nonopt_start ≠ none ∧ s.nonopt_end = none
                 then some s.optind else s.nonopt_end }) := by
  simp only [scanFuel]
  rw [if_pos (Or.inr (by simp [hplace]))]
  rw [if_neg (by omega)]
  simp only [htok, Option.getD_some]
  rw [if_neg (by simp [nonOptTok])]
  by_cases hcase : s.nonopt_start ≠ none ∧ s.nonopt_end = none
  · rw [if_pos hcase]
    simp [hcase]
  · rw [if_neg hcase]
    simp [hcase]

theorem scanFuel_nonopt_inorder (nargc : Nat) (options : Str) (posix : Bool)
    (f : Nat) (s : GState) (t : Str) (hreset : s.optreset = false)
    (hplace : s.place = []) (hlt : s.optind < nargc)
    (htok : s.argv s.optind = some t) (hnon : nonOptTok t = true)
    (hio : inOrderMode options posix = true) :
    scanFuel nargc options posix (f + 1) s
      = (1, { s with
              optreset := false, place := [],
              optarg := s.argv s.optind, optind := s.optind + 1 }) := by
  simp only [scanFuel]
  rw [if_pos (Or.inr (by simp [hplace]))]
  rw [if_neg (by omega)]
  simp only [htok, Option.getD_some]
  rw [if_pos hnon, if_pos hio]

theorem scanFuel_nonopt_stop (nargc : Nat) (options : Str) (posix : Bool)
    (f : Nat) (s : GState) (t : Str) (hreset : s.optreset = false)
    (hplace : s.place = []) (hlt : s.optind < nargc)
    (htok : s.argv s.optind = some t) (hnon : nonOptTok t = true)
    (hio : inOrderMode options posix = false)
    (hpm : permuteMode options posix = false) :
    scanFuel nargc options posix (f + 1) s
      = (-1, { s with optreset := false, place := [] }) := by
  simp only [scanFuel]
  rw [if_pos (Or.inr (by simp [hplace]))]
  rw [if_neg (by omega)]
  simp only [htok, Option.getD_some]
  rw [if_pos hnon, if_neg (by simp [hio]), if_pos (by simp [hpm])]

theorem scanFuel_walk_fresh (nargc : Nat) (options : Str) (posix : Bool)
    (f : Nat) (s : GState) (t : Str) (hreset : s.optreset = false)
    (hplace : s.place = []) (hlt : s.optind < nargc)
    (htok : s.argv s.optind = some t) (hnon : nonOptTok t = true)
    (hpm : permuteMode options posix = true)
    (hns : s.nonopt_start = none) :
    scanFuel nargc options posix (f + 1) s
      = scanFuel nargc options posix f
          { s with
            optreset := false, place := [],
            nonopt_start := some s.optind, optind := s.optind + 1 } := by
  simp only [scanFuel]
  rw [if_pos (Or.inr (by simp [hplace]))]
  rw [if_neg (by omega)]
  simp only [htok, Option.getD_some]
  rw [if_pos hnon, if_neg (by simp [permute_not_inorder options posix hpm]),
    if_neg (by simp [hpm])]
  rw [if_pos (by simp [hns])]

theorem scanFuel_walk_mid (nargc : Nat) (options : Str) (posix : Bool)
    (f : Nat) (s : GState) (t : Str) (a : Nat) (hreset : s.optreset = false)
    (hplace : s.place = []) (hlt : s.optind < nargc)
    (htok : s.argv s.optind = some t) (hnon : nonOptTok t = true)
    (hpm : permuteMode options posix = true)
    (hns : s.nonopt_start = some a) (hne : s.nonopt_end = none) :
    scanFuel nargc options posix (f + 1) s
      = scanFuel nargc options posix f
          { s with
            optreset := false, place := [], optind := s.optind + 1 } := by
  simp only [scanFuel]
  rw [if_pos (Or.inr (by simp [hplace]))]
  rw [if_neg (by omega)]
  simp only [htok, Option.getD_some]
  rw [if_pos hnon, if_neg (by simp [permute_not_inorder options posix hpm]),
    if_neg (by simp [hpm])]
  rw [if_neg (by simp [hns]), if_neg (by simp [hne])]

theorem scanFuel_walk_perm (nargc : Nat) (options : Str) (posix : Bool)
    (f : Nat) (s : GState) (t : Str) (a b : Nat) (hreset : s.optreset = false)
    (hplace : s.place = []) (hlt : s.optind < nargc)
    (htok : s.argv s.optind = some t) (hnon : nonOptTok t = true)
    (hpm : permuteMode options posix = true)
    (hns : s.nonopt_start = some a) (hne : s.nonopt_end = some b) :
    scanFuel nargc options posix (f + 1) s
      = scanFuel nargc options posix f
          { s with
            optreset := false, place := [],
            argv := permute_args a b s.optind s.argv,
            ptrace := s.ptrace ++ [(a, b, s.optind)],
            nonopt_start := some (s.optind - (b - a)),
            nonopt_end := none, optind := s.optind + 1 } := by
  simp only [scanFuel]
  rw [if_pos (Or.inr (by simp [hplace]))]
  rw [if_neg (by omega)]
  simp only [htok, Option.getD_some]
  rw [if_pos hnon, if_neg (by simp [permute_not_inorder options posix hpm]),
    if_neg (by simp [hpm])]
  rw [if_neg (by simp [hns]), if_pos (by simp [hne])]
  simp only [hns, hne, Option.getD_some, doPermute]

theorem getopt_internal_eq (nargc : Nat) (options : Str) (posix : Bool)
    (s : GState) (h0 : s.optind ≠ 0) (hreset : s.optreset = false) :
    getopt_internal nargc options posix s
      = scanFuel nargc options posix (nargc + 1) { s with optarg := none } := by
  have h0' : ¬(({ s with optarg := none } : GState).optind = 0) := h0
  have hr' : ¬(({ s with optarg := none } : GState).optreset = true) := by
    show ¬(s.optreset = true)
    simp [hreset]
  simp only [getopt_internal]
  rw [if_neg h0', if_neg hr']

/-- `BADARG` computes exactly the claim's rule: `:` if and only if the
option spec begins with `:` after any leading `-` or `+`. -/
theorem BADARGv_claim (options : Str) :
    BADARGv options
      = (if (options.drop (if ignoreFirst options then 1 else 0)).head?
            = some ':'
         then Int.ofNat ':'.toNat else Int.ofNat '?'.toNat) := by
  unfold BADARGv BADCH ignoreFirst
  cases options with
  | nil => simp
  | cons a t =>
    by_cases h1 : a = '-'
    · subst h1; simp
    · by_cases h2 : a = '+'
      · subst h2; simp
      · have : ¬(('-' : Char) = a) := fun h => h1 h.symm
        have : ¬(('+' : Char) = a) := fun h => h2 h.symm
        simp [List.head?_cons, h1, h2]

/-- End-to-end run: fresh token `-c⟨w⟩` with `c` taking a (required or
optional) argument and `w` non-empty: the inline text becomes the
argument. -/
theorem internal_run_inline (nargc : Nat) (options : Str) (posix : Bool)
    (c : Char) (w oli : Str) (s : GState)
    (hplace : s.place = []) (hreset : s.optreset = false)
    (h0 : s.optind ≠ 0) (hlt : s.optind < nargc)
    (htok : s.argv s.optind = some ('-' :: c :: w)) (hw : w.isEmpty = false)
    (hfind : strchr' (options.drop (if ignoreFirst options then 1 else 0)) c
      = some oli)
    (hc1 : c ≠ ':') (hc2 : c ≠ '-')
    (hWnot : ¬(c = 'W' ∧ oli.tail.head? = some ';'))
    (hcolon : oli.tail.head? = some ':') :
    getopt_internal nargc options posix s
      = (Int.ofNat c.toNat,
         { s with
           optarg := some w, place := [], optind := s.optind + 1,
           optreset := false,
           nonopt_end := if s.nonopt_start ≠ none ∧ s.nonopt_end = none
                         then some s.optind else s.nonopt_end }) := by
  rw [getopt_internal_eq nargc options posix s h0 hreset,
    scanFuel_opt nargc options posix nargc { s with optarg := none } c w
      hreset hplace hlt htok hc2]
  exact processChar_inline nargc options _ c w oli rfl hw hfind hc1 hWnot hcolon

/-- End-to-end run: fresh token `-c` alone with `c` requiring an argument
and a further token available: the next vector slot becomes the argument. -/
theorem internal_run_required_consume (nargc : Nat) (options : Str)
    (posix : Bool) (c : Char) (oli : Str) (s : GState)
    (hplace : s.place = []) (hreset : s.optreset = false)
    (h0 : s.optind ≠ 0) (hlt : s.optind + 1 < nargc)
    (htok : s.argv s.optind = some ['-', c])
    (hfind : strchr' (options.drop (if ignoreFirst options then 1 else 0)) c
      = some oli)
    (hc1 : c ≠ ':') (hc2 : c ≠ '-')
    (hWnot : ¬(c = 'W' ∧ oli.tail.head? = some ';'))
    (hcolon : oli.tail.head? = some ':')
    (hsingle : oli.tail.tail.head? ≠ some ':') :
    getopt_internal nargc options posix s
      = (Int.ofNat c.toNat,
         { s with
           optarg := s.argv (s.optind + 1), place := [],
           optind := s.optind + 2, optreset := false,
           nonopt_end := if s.nonopt_start ≠ none ∧ s.nonopt_end = none
                         then some s.optind else s.nonopt_end }) := by
  rw [getopt_internal_eq nargc options posix s h0 hreset,
    scanFuel_opt nargc options posix nargc { s with optarg := none } c []
      hreset hplace (Nat.lt_of_succ_lt hlt) htok hc2]
  exact processChar_required_consume nargc options _ c oli rfl hfind hc1
    hWnot hcolon hsingle hlt

/-- End-to-end run: fresh token `-c` alone, `c` requiring an argument, no
further token: the missing-argument error. -/
theorem internal_run_required_missing (nargc : Nat) (options : Str)
    (posix : Bool) (c : Char) (oli : Str) (s : GState)
    (hplace : s.place = []) (hreset : s.optreset = false)
    (h0 : s.optind ≠ 0) (hlt : s.optind < nargc) (hge : nargc ≤ s.optind + 1)
    (htok : s.argv s.optind = some ['-', c])
    (hfind : strchr' (options.drop (if ignoreFirst options then 1 else 0)) c
      = some oli)
    (hc1 : c ≠ ':') (hc2 : c ≠ '-')
    (hWnot : ¬(c = 'W' ∧ oli.tail.head? = some ';'))
    (hcolon : oli.tail.head? = some ':')
    (hsingle : oli.tail.tail.head? ≠ some ':') :
    getopt_internal nargc options posix s
      = (BADARGv options,
         { s with
           optarg := none, optind := s.optind + 1, place := [],
           optopt := Int.ofNat c.toNat, optreset := false,
           nonopt_end := if s.nonopt_start ≠ none ∧ s.nonopt_end = none
                         then some s.optind else s.nonopt_end }) := by
  rw [getopt_internal_eq nargc options posix s h0 hreset,
    scanFuel_opt nargc options posix nargc { s with optarg := none } c []
      hreset hplace hlt htok hc2]
  exact processChar_required_missing nargc options _ c oli rfl hfind hc1
    hWnot hcolon hsingle hge

/-- End-to-end run: fresh token `-c` alone with `c` taking an optional
argument (double colon): no argument is consumed, in particular the next
vector slot is left alone. -/
theorem internal_run_optional_none (nargc : Nat) (options : Str)
    (posix : Bool) (c : Char) (oli : Str) (s : GState)
    (hplace : s.place = []) (hreset : s.optreset = false)
    (h0 : s.optind ≠ 0) (hlt : s.optind < nargc)
    (htok : s.argv s.optind = some ['-', c])
    (hfind : strchr' (options.drop (if ignoreFirst options then 1 else 0)) c
      = some oli)
    (hc1 : c ≠ ':') (hc2 : c ≠ '-')
    (hWnot : ¬(c = 'W' ∧ oli.tail.head? = some ';'))
    (hcolon : oli.tail.head? = some ':')
    (hdouble : oli.tail.tail.head? = some ':') :
    getopt_internal nargc options posix s
      = (Int.ofNat c.toNat,
         { s with
           optarg := none, place := [], optind := s.optind + 1,
           optreset := false,
           nonopt_end := if s.nonopt_start ≠ none ∧ s.nonopt_end = none
                         then some s.optind else s.nonopt_end }) := by
  rw [getopt_internal_eq nargc options posix s h0 hreset,
    scanFuel_opt nargc options posix nargc { s with optarg := none } c []
      hreset hplace hlt htok hc2]
  exact processChar_optional_none nargc options _ c oli rfl hfind hc1
    hWnot hcolon hdouble

/-- End-to-end run: fresh token `-c` alone with `c` unknown (or `:`):
the unknown-option error with `optopt = c`. -/
theorem internal_run_unknown (nargc : Nat) (options : Str)
    (posix : Bool) (c : Char) (s : GState)
    (hplace : s.place = []) (hreset : s.optreset = false)
    (h0 : s.optind ≠ 0) (hlt : s.optind < nargc)
    (htok : s.argv s.optind = some ['-', c])
    (hc2 : c ≠ '-')
    (herr : c = ':'
      ∨ strchr' (options.drop (if ignoreFirst options then 1 else 0)) c
          = none) :
    getopt_internal nargc options posix s
      = (BADCH,
         { s with
           optarg := none, place := [], optind := s.optind + 1,
           optopt := Int.ofNat c.toNat, optreset := false,
           nonopt_end := if s.nonopt_start ≠ none ∧ s.nonopt_end = none
                         then some s.optind else s.nonopt_end }) := by
  rw [getopt_internal_eq nargc options posix s h0 hreset,
    scanFuel_opt nargc options posix nargc { s with optarg := none } c []
      hreset hplace hlt htok hc2]
  exact processChar_unknown_end nargc options _ c rfl herr

/-- C5: with a short option declared with one colon (required argument),
the attached form `-c⟨arg⟩` and the separated form `-c ⟨arg⟩` are
equivalent: both return the option character with `optarg` equal to the
argument text, both leave the cursor past all consumed tokens, and neither
touches the argument vector. -/
theorem C5_inline_separate_equiv (options : Str) (posix : Bool) (c : Char)
    (w rest : Str)
    (hfind : strchr' (options.drop (if ignoreFirst options then 1 else 0)) c
      = some (c :: ':' :: rest))
    (hrest : rest.head? ≠ some ':')
    (hc1 : c ≠ ':') (hc2 : c ≠ '-') (hw : w ≠ [])
    (nargc1 : Nat) (s1 : GState)
    (h1place : s1.place = []) (h1reset : s1.optreset = false)
    (h1p : s1.optind ≠ 0) (h1lt : s1.optind < nargc1)
    (h1tok : s1.argv s1.optind = some ('-' :: c :: w))
    (nargc2 : Nat) (s2 : GState)
    (h2place : s2.place = []) (h2reset : s2.optreset = false)
    (h2p : s2.optind ≠ 0) (h2lt : s2.optind + 1 < nargc2)
    (h2tok : s2.argv s2.optind = some ['-', c])
    (h2arg : s2.argv (s2.optind + 1) = some w) :
    ((getopt_internal nargc1 options posix s1).1 = Int.ofNat c.toNat ∧
     (getopt_internal nargc1 options posix s1).2.optarg = some w ∧
     (getopt_internal nargc1 options posix s1).2.optind = s1.optind + 1 ∧
     (getopt_internal nargc1 options posix s1).2.place = [] ∧
     (getopt_internal nargc1 options posix s1).2.argv = s1.argv) ∧
    ((getopt_internal nargc2 options posix s2).1 = Int.ofNat c.toNat ∧
     (getopt_internal nargc2 options posix s2).2.optarg = some w ∧
     (getopt_internal nargc2 options posix s2).2.optind = s2.optind + 2 ∧
     (getopt_internal nargc2 options posix s2).2.place = [] ∧
     (getopt_internal nargc2 options posix s2).2.argv = s2.argv) := by
  have hWnot : ¬(c = 'W' ∧ (List.tail (c :: ':' :: rest)).head? = some ';') := by
    simp
  have hwI : w.isEmpty = false := by
    cases w with
    | nil => exact absurd rfl hw
    | cons a t => rfl
  constructor
  · rw [internal_run_inline nargc1 options posix c w (c :: ':' :: rest) s1
      h1place h1reset h1p h1lt h1tok hwI hfind hc1 hc2 hWnot (by simp)]
    exact ⟨rfl, rfl, rfl, rfl, rfl⟩
  · rw [internal_run_required_consume nargc2 options posix c (c :: ':' :: rest)
      s2 h2place h2reset h2p h2lt h2tok hfind hc1 hc2 hWnot (by simp)
      (by simpa using hrest)]
    exact ⟨rfl, h2arg, rfl, rfl, rfl⟩

/-- Witness for C5: spec `"a:"`, vectors `[prog, -afoo]` and
`[prog, -a, foo]` from the initial state. -/
theorem C5_inline_separate_equiv_witness :
    ((getopt_internal 2 "a:".toList false
        (initState (argvOf ["prog".toList, "-afoo".toList]))).1
        = Int.ofNat 'a'.toNat ∧
     (getopt_internal 2 "a:".toList false
        (initState (argvOf ["prog".toList, "-afoo".toList]))).2.optarg
        = some "foo".toList ∧
     (getopt_internal 2 "a:".toList false
        (initState (argvOf ["prog".toList, "-afoo".toList]))).2.optind
        = (initState (argvOf ["prog".toList, "-afoo".toList])).optind + 1 ∧
     (getopt_internal 2 "a:".toList false
        (initState (argvOf ["prog".toList, "-afoo".toList]))).2.place = [] ∧
     (getopt_internal 2 "a:".toList false
        (initState (argvOf ["prog".toList, "-afoo".toList]))).2.argv
        = (initState (argvOf ["prog".toList, "-afoo".toList])).argv) ∧
    ((getopt_internal 3 "a:".toList false
        (initState (argvOf ["prog".toList, "-a".toList, "foo".toList]))).1
        = Int.ofNat 'a'.toNat ∧
     (getopt_internal 3 "a:".toList false
        (initState (argvOf ["prog".toList, "-a".toList, "foo".toList]))).2.optarg
        = some "foo".toList ∧
     (getopt_internal 3 "a:".toList false
        (initState (argvOf ["prog".toList, "-a".toList, "foo".toList]))).2.optind
        = (initState (argvOf ["prog".toList, "-a".toList, "foo".toList])).optind
            + 2 ∧
     (getopt_internal 3 "a:".toList false
        (initState (argvOf ["prog".toList, "-a".toList, "foo".toList]))).2.place
        = [] ∧
     (getopt_internal 3 "a:".toList false
        (initState (argvOf ["prog".toList, "-a".toList, "foo".toList]))).2.argv
        = (initState (argvOf ["prog".toList, "-a".toList, "foo".toList])).argv) :=
  C5_inline_separate_equiv "a:".toList false 'a' "foo".toList [] (by decide)
    (by decide) (by decide) (by decide) (by decide)
    2 (initState (argvOf ["prog".toList, "-afoo".toList]))
    rfl rfl (by decide) (by decide) (by decide)
    3 (initState (argvOf ["prog".toList, "-a".toList, "foo".toList]))
    rfl rfl (by decide) (by decide) (by decide) (by decide)

/-- C6: when a short option requiring an argument is the final character of
the last token (spec `"c:"`-style, vector ending with `-c`), the call
returns the missing-argument error with `optopt` set to the offending
character; the error code is `:` exactly when the option spec begins with
`:` after any leading `-` or `+`, and `?` otherwise. -/
theorem C6_missing_required_arg (nargc : Nat) (options : Str) (posix : Bool)
    (c : Char) (rest : Str) (s : GState)
    (hfind : strchr' (options.drop (if ignoreFirst options then 1 else 0)) c
      = some (c :: ':' :: rest))
    (hrest : rest.head? ≠ some ':')
    (hc1 : c ≠ ':') (hc2 : c ≠ '-')
    (hplace : s.place = []) (hreset : s.optreset = false)
    (h0 : s.optind ≠ 0) (hlast : s.optind + 1 = nargc)
    (htok : s.argv s.optind = some ['-', c]) :
    (getopt_internal nargc options posix s).1
        = (if (options.drop (if ignoreFirst options then 1 else 0)).head?
             = some ':'
           then Int.ofNat ':'.toNat else Int.ofNat '?'.toNat) ∧
    (getopt_internal nargc options posix s).2.optopt = Int.ofNat c.toNat ∧
    (getopt_internal nargc options posix s).2.optarg = none := by
  have hWnot : ¬(c = 'W' ∧ (List.tail (c :: ':' :: rest)).head? = some ';') := by
    simp
  rw [internal_run_required_missing nargc options posix c (c :: ':' :: rest) s
    hplace hreset h0 (by omega) (by omega) htok hfind hc1 hc2 hWnot (by simp)
    (by simpa using hrest)]
  exact ⟨BADARGv_claim options, rfl, rfl⟩

/-- Witness for C6: spec `"a:"` (and the suppressed-diagnostics spec
`":a:"` behaviour is covered by the `if` in the theorem), vector
`[prog, -a]`. -/
theorem C6_missing_required_arg_witness :
    ((getopt_internal 2 "a:".toList false
        (initState (argvOf ["prog".toList, "-a".toList]))).1
        = (if ("a:".toList.drop
                (if ignoreFirst "a:".toList then 1 else 0)).head? = some ':'
           then Int.ofNat ':'.toNat else Int.ofNat '?'.toNat) ∧
     (getopt_internal 2 "a:".toList false
        (initState (argvOf ["prog".toList, "-a".toList]))).2.optopt
        = Int.ofNat 'a'.toNat ∧
     (getopt_internal 2 "a:".toList false
        (initState (argvOf ["prog".toList, "-a".toList]))).2.optarg = none) :=
  C6_missing_required_arg 2 "a:".toList false 'a' []
    (initState (argvOf ["prog".toList, "-a".toList]))
    (by decide) (by decide) (by decide) (by decide) rfl rfl
    (by decide) (by decide) (by decide)

/-! ## Step lemmas for the long-option block -/

theorem parse_long_ambiguous (nargc : Nat) (options : Str)
    (long_options : List option_t) (hasIdx : Bool) (s : GState) (text : Str)
    (m : Option (Nat × option_t))
    (hplace : s.place = text) (htext : text ≠ [])
    (hmatch : matchLong long_options text (splitEq text).1 = (m, true)) :
    parse_long nargc options long_options hasIdx s
      = (BADCH, { s with optind := s.optind + 1, place := [], optopt := 0 },
         none) := by
  simp only [parse_long, hplace]
  rw [if_neg (by simp [htext])]
  simp only [hmatch]

theorem parse_long_unknown (nargc : Nat) (options : Str)
    (long_options : List option_t) (hasIdx : Bool) (s : GState) (text : Str)
    (hplace : s.place = text) (htext : text ≠ [])
    (hmatch : matchLong long_options text (splitEq text).1 = (none, false)) :
    parse_long nargc options long_options hasIdx s
      = (BADCH, { s with optind := s.optind + 1, place := [], optopt := 0 },
         none) := by
  simp only [parse_long, hplace]
  rw [if_neg (by simp [htext])]
  simp only [hmatch]

theorem parse_long_noarg_equal (nargc : Nat) (options : Str)
    (long_options : List option_t) (hasIdx : Bool) (s : GState) (text : Str)
    (mi : Nat) (e : option_t) (v : Str)
    (hplace : s.place = text) (htext : text ≠ [])
    (hmatch : matchLong long_options text (splitEq text).1
      = (some (mi, e), false))
    (harg : e.has_arg = no_argument) (heq : (splitEq text).2 = some v) :
    parse_long nargc options long_options hasIdx s
      = (BADARGv options,
         { s with optind := s.optind + 1, place := [],
                  optopt := if e.flag = none then e.val else 0 },
         none) := by
  simp only [parse_long, hplace]
  rw [if_neg (by simp [htext])]
  simp only [hmatch]
  rw [if_pos (by simp [harg, heq])]

theorem parse_long_success_equal (nargc : Nat) (options : Str)
    (long_options : List option_t) (hasIdx : Bool) (s : GState) (text : Str)
    (mi : Nat) (e : option_t) (v : Str)
    (hplace : s.place = text) (htext : text ≠ [])
    (hmatch : matchLong long_options text (splitEq text).1
      = (some (mi, e), false))
    (harg : e.has_arg = required_argument ∨ e.has_arg = optional_argument)
    (heq : (splitEq text).2 = some v) :
    parse_long nargc options long_options hasIdx s
      = ((match e.flag with | some _ => 0 | none => e.val),
         { s with
           optind := s.optind + 1, place := [], optarg := some v,
           flags := match e.flag with
                    | some fl => Function.update s.flags fl e.val
                    | none => s.flags },
         if hasIdx then some mi else none) := by
  have hno : ¬(e.has_arg = no_argument) := by
    rcases harg with h | h <;> rw [h] <;> simp [no_argument,
      required_argument, optional_argument]
  simp only [parse_long, hplace]
  rw [if_neg (by simp [htext])]
  simp only [hmatch]
  rw [if_neg (show ¬(e.has_arg = no_argument ∧ (splitEq text).2 ≠ none) from
      by simp [hno]),
    if_pos harg,
    if_pos (show (splitEq text).2 ≠ none from by simp [heq]), heq]
  cases hf : e.flag with
  | some fl => simp [hf]
  | none => simp [hf]

theorem parse_long_optional_noeq (nargc : Nat) (options : Str)
    (long_options : List option_t) (hasIdx : Bool) (s : GState) (text : Str)
    (mi : Nat) (e : option_t)
    (hplace : s.place = text) (htext : text ≠ [])
    (hmatch : matchLong long_options text (splitEq text).1
      = (some (mi, e), false))
    (harg : e.has_arg = optional_argument) (heq : (splitEq text).2 = none)
    (hoptarg : s.optarg = none) :
    parse_long nargc options long_options hasIdx s
      = ((match e.flag with | some _ => 0 | none => e.val),
         { s with
           optind := s.optind + 1, place := [], optarg := none,
           flags := match e.flag with
                    | some fl => Function.update s.flags fl e.val
                    | none => s.flags },
         if hasIdx then some mi else none) := by
  have hno : ¬(e.has_arg = no_argument) := by
    rw [harg]; simp [no_argument, optional_argument]
  have hreq : ¬(e.has_arg = required_argument) := by
    rw [harg]; simp [required_argument, optional_argument]
  simp only [parse_long, hplace]
  rw [if_neg (by simp [htext])]
  simp only [hmatch]
  rw [if_neg (show ¬(e.has_arg = no_argument ∧ (splitEq text).2 ≠ none) from
      by simp [hno]),
    if_pos (Or.inr harg),
    if_neg (show ¬((splitEq text).2 ≠ none) from by simp [heq]),
    if_neg hreq]
  cases hf : e.flag with
  | some fl => simp [hf, hreq, hoptarg]
  | none => simp [hf, hreq, hoptarg]

theorem parse_long_required_consume (nargc : Nat) (options : Str)
    (long_options : List option_t) (hasIdx : Bool) (s : GState) (text : Str)
    (mi : Nat) (e : option_t) (v : Str)
    (hplace : s.place = text) (htext : text ≠ [])
    (hmatch : matchLong long_options text (splitEq text).1
      = (some (mi, e), false))
    (harg : e.has_arg = required_argument) (heq : (splitEq text).2 = none)
    (hnext : s.argv (s.optind + 1) = some v) :
    parse_long nargc options long_options hasIdx s
      = ((match e.flag with | some _ => 0 | none => e.val),
         { s with
           optind := s.optind + 2, place := [], optarg := some v,
           flags := match e.flag with
                    | some fl => Function.update s.flags fl e.val
                    | none => s.flags },
         if hasIdx then some mi else none) := by
  have hno : ¬(e.has_arg = no_argument) := by
    rw [harg]; simp [no_argument, required_argument]
  simp only [parse_long, hplace]
  rw [if_neg (by simp [htext])]
  simp only [hmatch]
  rw [if_neg (show ¬(e.has_arg = no_argument ∧ (splitEq text).2 ≠ none) from
      by simp [hno]),
    if_pos (Or.inl harg),
    if_neg (show ¬((splitEq text).2 ≠ none) from by simp [heq]),
    if_pos harg]
  cases hf : e.flag with
  | some fl => simp [hf, hnext]
  | none => simp [hf, hnext]

theorem parse_long_required_missing (nargc : Nat) (options : Str)
    (long_options : List option_t) (hasIdx : Bool) (s : GState) (text : Str)
    (mi : Nat) (e : option_t)
    (hplace : s.place = text) (htext : text ≠ [])
    (hmatch : matchLong long_options text (splitEq text).1
      = (some (mi, e), false))
    (harg : e.has_arg = required_argument) (heq : (splitEq text).2 = none)
    (hnext : s.argv (s.optind + 1) = none) :
    parse_long nargc options long_options hasIdx s
      = (BADARGv options,
         { s with
           optind := s.optind + 1, place := [], optarg := none,
           optopt := if e.flag = none then e.val else 0 },
         none) := by
  have hno : ¬(e.has_arg = no_argument) := by
    rw [harg]; simp [no_argument, required_argument]
  simp only [parse_long, hplace]
  rw [if_neg (by simp [htext])]
  simp only [hmatch]
  rw [if_neg (show ¬(e.has_arg = no_argument ∧ (splitEq text).2 ≠ none) from
      by simp [hno]),
    if_pos (Or.inl harg),
    if_neg (show ¬((splitEq text).2 ≠ none) from by simp [heq]),
    if_pos harg]
  simp [hnext, harg]

/-! ## The long-option matcher: exact match, first partial, ambiguity -/

/-- Entry `i` of the table matches the first `len` characters of the token
(the `strncmp` test of line 452). -/
def longMatchAt (tbl : List option_t) (text : Str) (len i : Nat) : Prop :=
  ∃ e, tbl.get? i = some e ∧ (text.take len).isPrefixOf e.name

/-- Entry `i` matches exactly (lines 455-461). -/
def longExactAt (tbl : List option_t) (text : Str) (len i : Nat) : Prop :=
  ∃ e, tbl.get? i = some e ∧ (text.take len).isPrefixOf e.name
    ∧ e.name.length = len

theorem identOpt_refl (e : option_t) : identOpt e e := ⟨rfl, rfl, rfl⟩

theorem identOpt_symm {x y : option_t} (h : identOpt x y) : identOpt y x :=
  ⟨h.1.symm, h.2.1.symm, h.2.2.symm⟩

theorem identOpt_trans {x y z : option_t} (h1 : identOpt x y)
    (h2 : identOpt y z) : identOpt x z :=
  ⟨h1.1.trans h2.1, h1.2.1.trans h2.2.1, h1.2.2.trans h2.2.2⟩

theorem matchGo_cons_skip (text : Str) (len i : Nat) (e : option_t)
    (rest : List option_t) (m : Option (Nat × option_t)) (amb : Bool)
    (hpre : (text.take len).isPrefixOf e.name = false) :
    matchGo text len i (e :: rest) m amb = matchGo text len (i + 1) rest m amb := by
  simp [matchGo, hpre]

theorem matchGo_cons_exact (text : Str) (len i : Nat) (e : option_t)
    (rest : List option_t) (m : Option (Nat × option_t)) (amb : Bool)
    (hpre : (text.take len).isPrefixOf e.name = true)
    (hlen : e.name.length = len) :
    matchGo text len i (e :: rest) m amb = (some (i, e), false) := by
  simp [matchGo, hpre, hlen]

theorem matchGo_cons_first (text : Str) (len i : Nat) (e : option_t)
    (rest : List option_t) (amb : Bool)
    (hpre : (text.take len).isPrefixOf e.name = true)
    (hlen : ¬e.name.length = len) :
    matchGo text len i (e :: rest) none amb
      = matchGo text len (i + 1) rest (some (i, e)) amb := by
  simp [matchGo, hpre, hlen]

theorem matchGo_cons_ident (text : Str) (len i : Nat) (e : option_t)
    (rest : List option_t) (mi : Nat) (me : option_t) (amb : Bool)
    (hpre : (text.take len).isPrefixOf e.name = true)
    (hlen : ¬e.name.length = len) (hid : identOpt e me) :
    matchGo text len i (e :: rest) (some (mi, me)) amb
      = matchGo text len (i + 1) rest (some (mi, me)) amb := by
  simp [matchGo, hpre, hlen, hid]

theorem matchGo_cons_differ (text : Str) (len i : Nat) (e : option_t)
    (rest : List option_t) (mi : Nat) (me : option_t) (amb : Bool)
    (hpre : (text.take len).isPrefixOf e.name = true)
    (hlen : ¬e.name.length = len) (hid : ¬identOpt e me) :
    matchGo text len i (e :: rest) (some (mi, me)) amb
      = matchGo text len (i + 1) rest (some (mi, me)) true := by
  simp [matchGo, hpre, hlen, hid]

theorem matchGo_nil (text : Str) (len i : Nat)
    (m : Option (Nat × option_t)) (amb : Bool) :
    matchGo text len i [] m amb = (m, amb) := rfl

theorem matchGo_exact (text : Str) (len : Nat) :
    ∀ (rest : List option_t) (i0 : Nat) (m : Option (Nat × option_t))
      (amb : Bool),
      (∃ k e, rest.get? k = some e ∧ (text.take len).isPrefixOf e.name
        ∧ e.name.length = len) →
      ∃ k e, matchGo text len i0 rest m amb = (some (i0 + k, e), false)
        ∧ rest.get? k = some e ∧ (text.take len).isPrefixOf e.name
        ∧ e.name.length = len := by
  intro rest
  induction rest with
  | nil =>
    intro i0 m amb h
    obtain ⟨k, e, hk, _⟩ := h
    simp at hk
  | cons e rest ih =>
    intro i0 m amb h
    have shift : ∀ (m' : Option (Nat × option_t)) (amb' : Bool),
        (∃ k e2, matchGo text len (i0 + 1) rest m' amb'
            = (some (i0 + 1 + k, e2), false)
          ∧ rest.get? k = some e2 ∧ (text.take len).isPrefixOf e2.name
          ∧ e2.name.length = len) →
        (∃ k e2, matchGo text len (i0 + 1) rest m' amb'
            = (some (i0 + k, e2), false)
          ∧ (e :: rest).get? k = some e2
          ∧ (text.take len).isPrefixOf e2.name
          ∧ e2.name.length = len) := by
      intro m' amb' hh
      obtain ⟨k, e2, hgo, hk, hp2, hl2⟩ := hh
      refine ⟨k + 1, e2, ?_, by rw [List.get?_cons_succ]; exact hk, hp2, hl2⟩
      have hidx : i0 + (k + 1) = i0 + 1 + k := by omega
      rw [hidx]
      exact hgo
    by_cases hpre : ((text.take len).isPrefixOf e.name : Bool) = true
    · by_cases hlen : e.name.length = len
      · refine ⟨0, e, ?_, by simp, hpre, hlen⟩
        rw [matchGo_cons_exact text len i0 e rest m amb hpre hlen, Nat.add_zero]
      · have hrest : ∃ k e2, rest.get? k = some e2
            ∧ (text.take len).isPrefixOf e2.name ∧ e2.name.length = len := by
          obtain ⟨k, e2, hk, hp2, hl2⟩ := h
          match k, hk with
          | 0, hk =>
            rw [List.get?_cons_zero] at hk
            cases hk
            exact absurd hl2 hlen
          | k + 1, hk =>
            rw [List.get?_cons_succ] at hk
            exact ⟨k, e2, hk, hp2, hl2⟩
        rcases m with _ | ⟨mi, me⟩
        · rw [matchGo_cons_first text len i0 e rest amb hpre hlen]
          exact shift _ amb (ih (i0 + 1) _ amb hrest)
        · by_cases hid : identOpt e me
          · rw [matchGo_cons_ident text len i0 e rest mi me amb hpre hlen hid]
            exact shift _ amb (ih (i0 + 1) _ amb hrest)
          · rw [matchGo_cons_differ text len i0 e rest mi me amb hpre hlen hid]
            exact shift _ true (ih (i0 + 1) _ true hrest)
    · have hpre' : (text.take len).isPrefixOf e.name = false := by
        revert hpre
        cases ((text.take len).isPrefixOf e.name : Bool) <;> simp
      have hrest : ∃ k e2, rest.get? k = some e2
          ∧ (text.take len).isPrefixOf e2.name ∧ e2.name.length = len := by
        obtain ⟨k, e2, hk, hp2, hl2⟩ := h
        match k, hk with
        | 0, hk =>
          rw [List.get?_cons_zero] at hk
          cases hk
          rw [hp2] at hpre'
          cases hpre'
        | k + 1, hk =>
          rw [List.get?_cons_succ] at hk
          exact ⟨k, e2, hk, hp2, hl2⟩
      rw [matchGo_cons_skip text len i0 e rest m amb hpre']
      exact shift _ amb (ih (i0 + 1) _ amb hrest)

theorem exists_get_cons {α : Type} (e : α) (rest : List α) (Q : α → Prop) :
    (∃ k x, (e :: rest).get? k = some x ∧ Q x)
      ↔ (Q e ∨ ∃ k x, rest.get? k = some x ∧ Q x) := by
  constructor
  · rintro ⟨k, x, hk, hq⟩
    match k, hk with
    | 0, hk =>
      rw [List.get?_cons_zero] at hk
      cases hk
      exact Or.inl hq
    | k + 1, hk =>
      rw [List.get?_cons_succ] at hk
      exact Or.inr ⟨k, x, hk, hq⟩
  · rintro (hq | ⟨k, x, hk, hq⟩)
    · exact ⟨0, e, by simp, hq⟩
    · exact ⟨k + 1, x, by rw [List.get?_cons_succ]; exact hk, hq⟩

theorem matchGo_keep (text : Str) (len : Nat) :
    ∀ (rest : List option_t) (i0 mi : Nat) (me : option_t) (amb : Bool),
      (∀ k e, rest.get? k = some e →
        (text.take len).isPrefixOf e.name → e.name.length ≠ len) →
      (matchGo text len i0 rest (some (mi, me)) amb).1 = some (mi, me) ∧
      ((matchGo text len i0 rest (some (mi, me)) amb).2 = true ↔
        (amb = true ∨ ∃ k e, rest.get? k = some e
          ∧ (text.take len).isPrefixOf e.name ∧ ¬identOpt e me)) := by
  intro rest
  induction rest with
  | nil =>
    intro i0 mi me amb _
    rw [matchGo_nil]
    simp
  | cons e rest ih =>
    intro i0 mi me amb hnoex
    have hnoex' : ∀ k e2, rest.get? k = some e2 →
        (text.take len).isPrefixOf e2.name → e2.name.length ≠ len := by
      intro k e2 hk hp
      exact hnoex (k + 1) e2 (by rw [List.get?_cons_succ]; exact hk) hp
    have hiff : ∀ v : Option (Nat × option_t) × Bool,
        (v.2 = true ↔ (amb = true ∨ ∃ k e2, rest.get? k = some e2
          ∧ (text.take len).isPrefixOf e2.name ∧ ¬identOpt e2 me)) →
        ((text.take len).isPrefixOf e.name ∧ ¬identOpt e me → False) →
        (v.2 = true ↔ (amb = true ∨ ∃ k e2, (e :: rest).get? k = some e2
          ∧ (text.take len).isPrefixOf e2.name ∧ ¬identOpt e2 me)) := by
      intro v hv hnot
      rw [hv]
      constructor
      · rintro (h | ⟨k, e2, hk, hp, hd⟩)
        · exact Or.inl h
        · exact Or.inr ⟨k + 1, e2, by rw [List.get?_cons_succ]; exact hk, hp, hd⟩
      · rintro (h | h)
        · exact Or.inl h
        · rw [exists_get_cons e rest
            (fun x => (text.take len).isPrefixOf x.name ∧ ¬identOpt x me)] at h
          rcases h with h | h
          · exact absurd h hnot
          · exact Or.inr h
    by_cases hpre : ((text.take len).isPrefixOf e.name : Bool) = true
    · have hlen : ¬e.name.length = len := hnoex 0 e (by simp) hpre
      by_cases hid : identOpt e me
      · rw [matchGo_cons_ident text len i0 e rest mi me amb hpre hlen hid]
        obtain ⟨h1, h2⟩ := ih (i0 + 1) mi me amb hnoex'
        exact ⟨h1, hiff _ h2 (fun hh => hh.2 hid)⟩
      · rw [matchGo_cons_differ text len i0 e rest mi me amb hpre hlen hid]
        obtain ⟨h1, h2⟩ := ih (i0 + 1) mi me true hnoex'
        refine ⟨h1, ?_⟩
        rw [h2]
        constructor
        · intro _
          exact Or.inr ⟨0, e, by simp, hpre, hid⟩
        · intro _
          exact Or.inl rfl
    · have hpre' : (text.take len).isPrefixOf e.name = false := by
        revert hpre
        cases ((text.take len).isPrefixOf e.name : Bool) <;> simp
      rw [matchGo_cons_skip text len i0 e rest (some (mi, me)) amb hpre']
      obtain ⟨h1, h2⟩ := ih (i0 + 1) mi me amb hnoex'
      refine ⟨h1, hiff _ h2 (fun hh => ?_)⟩
      rw [hpre'] at hh
      exact Bool.false_ne_true hh.1

theorem matchGo_fresh_none (text : Str) (len : Nat) :
    ∀ (rest : List option_t) (i0 : Nat) (amb : Bool),
      (∀ k e, rest.get? k = some e →
        (text.take len).isPrefixOf e.name = false) →
      matchGo text len i0 rest none amb = (none, amb) := by
  intro rest
  induction rest with
  | nil => intro i0 amb _; rw [matchGo_nil]
  | cons e rest ih =>
    intro i0 amb hno
    rw [matchGo_cons_skip text len i0 e rest none amb (hno 0 e (by simp))]
    exact ih (i0 + 1) amb
      (fun k e2 hk => hno (k + 1) e2 (by rw [List.get?_cons_succ]; exact hk))

theorem matchGo_fresh_first (text : Str) (len : Nat) :
    ∀ (rest : List option_t) (i0 : Nat) (amb : Bool) (k0 : Nat) (e0 : option_t),
      (∀ k e, rest.get? k = some e →
        (text.take len).isPrefixOf e.name → e.name.length ≠ len) →
      rest.get? k0 = some e0 →
      (text.take len).isPrefixOf e0.name →
      (∀ k' e', k' < k0 → rest.get? k' = some e' →
        (text.take len).isPrefixOf e'.name = false) →
      (matchGo text len i0 rest none amb).1 = some (i0 + k0, e0) ∧
      ((matchGo text len i0 rest none amb).2 = true ↔
        (amb = true ∨ ∃ k e, rest.get? k = some e
          ∧ (text.take len).isPrefixOf e.name ∧ ¬identOpt e e0)) := by
  intro rest
  induction rest with
  | nil =>
    intro i0 amb k0 e0 _ hk0 _ _
    simp at hk0
  | cons e rest ih =>
    intro i0 amb k0 e0 hnoex hk0 hp0 hmin
    have hnoex' : ∀ k e2, rest.get? k = some e2 →
        (text.take len).isPrefixOf e2.name → e2.name.length ≠ len := by
      intro k e2 hk hp
      exact hnoex (k + 1) e2 (by rw [List.get?_cons_succ]; exact hk) hp
    match k0, hk0 with
    | 0, hk0 =>
      rw [List.get?_cons_zero] at hk0
      injection hk0 with hk0
      subst hk0
      have hlen : ¬e.name.length = len := hnoex 0 e (by simp) hp0
      rw [matchGo_cons_first text len i0 e rest amb hp0 hlen]
      obtain ⟨h1, h2⟩ := matchGo_keep text len rest (i0 + 1) i0 e amb hnoex'
      refine ⟨by rw [h1, Nat.add_zero], ?_⟩
      rw [h2]
      constructor
      · rintro (h | ⟨k, e2, hk, hp, hd⟩)
        · exact Or.inl h
        · exact Or.inr ⟨k + 1, e2, by rw [List.get?_cons_succ]; exact hk, hp, hd⟩
      · rintro (h | h)
        · exact Or.inl h
        · rw [exists_get_cons e rest
            (fun x => (text.take len).isPrefixOf x.name ∧ ¬identOpt x e)] at h
          rcases h with h | h
          · exact absurd (identOpt_refl e) h.2
          · exact Or.inr h
    | k0 + 1, hk0 =>
      rw [List.get?_cons_succ] at hk0
      have hpre' : (text.take len).isPrefixOf e.name = false :=
        hmin 0 e (by omega) (by simp)
      rw [matchGo_cons_skip text len i0 e rest none amb hpre']
      obtain ⟨h1, h2⟩ := ih (i0 + 1) amb k0 e0 hnoex' hk0 hp0
        (fun k' e' hlt hk' => hmin (k' + 1) e' (by omega)
          (by rw [List.get?_cons_succ]; exact hk'))
      refine ⟨by rw [h1]; congr 2; omega, ?_⟩
      rw [h2]
      constructor
      · rintro (h | ⟨k, e2, hk, hp, hd⟩)
        · exact Or.inl h
        · exact Or.inr ⟨k + 1, e2, by rw [List.get?_cons_succ]; exact hk, hp, hd⟩
      · rintro (h | h)
        · exact Or.inl h
        · rw [exists_get_cons e rest
            (fun x => (text.take len).isPrefixOf x.name ∧ ¬identOpt x e0)] at h
          rcases h with h | h
          · rw [hpre'] at h
            exact absurd h.1 Bool.false_ne_true
          · exact Or.inr h

theorem internal_run_ddash (nargc : Nat) (options : Str) (posix : Bool)
    (r : Str) (s : GState)
    (hplace : s.place = []) (hreset : s.optreset = false)
    (h0 : s.optind ≠ 0) (hlt : s.optind < nargc)
    (htok : s.argv s.optind = some ('-' :: '-' :: r)) :
    getopt_internal nargc options posix s
      = (-2, { s with
               optarg := none, optreset := false, place := r,
               nonopt_end := if s.nonopt_start ≠ none ∧ s.nonopt_end = none
                             then some s.optind else s.nonopt_end }) := by
  rw [getopt_internal_eq nargc options posix s h0 hreset]
  exact scanFuel_ddash nargc options posix nargc { s with optarg := none } r
    hreset hplace hlt htok

theorem getopt_long_run (nargc : Nat) (options : Str) (posix : Bool)
    (long_options : List option_t) (hasIdx : Bool) (s : GState) (text : Str)
    (hplace : s.place = []) (hreset : s.optreset = false)
    (h0 : s.optind ≠ 0) (hlt : s.optind < nargc)
    (htok : s.argv s.optind = some ('-' :: '-' :: text)) :
    getopt_long nargc options posix long_options hasIdx s
      = parse_long nargc options long_options hasIdx
          { s with
            optarg := none, optreset := false, place := text,
            nonopt_end := if s.nonopt_start ≠ none ∧ s.nonopt_end = none
                          then some s.optind else s.nonopt_end } := by
  simp only [getopt_long,
    internal_run_ddash nargc options posix text s hplace hreset h0 hlt htok]
  rw [if_pos trivial]

/-- C2: for every long-option table and `--text` / `--text=value` token,
the matcher selects an entry whose full name equals the name part whenever
one exists, even if other entries have it as a proper prefix; when only
proper-prefix matches exist, the ambiguous-option error is reported
(`getopt_long` returns `?` with `optopt = 0`) if and only if at least two
matching entries differ in arity, flag pointer or value; if all matching
entries are behaviorally identical the first one is used. -/
theorem C2_long_matcher (tbl : List option_t) (text : Str) :
    ((∃ i, longExactAt tbl text (splitEq text).1 i) →
      ∃ i e, matchLong tbl text (splitEq text).1 = (some (i, e), false)
        ∧ tbl.get? i = some e
        ∧ (text.take (splitEq text).1).isPrefixOf e.name
        ∧ e.name.length = (splitEq text).1) ∧
    ((¬∃ i, longExactAt tbl text (splitEq text).1 i) →
     (∃ i, longMatchAt tbl text (splitEq text).1 i) →
      (((matchLong tbl text (splitEq text).1).2 = true ↔
         ∃ i j ei ej, tbl.get? i = some ei ∧ tbl.get? j = some ej
           ∧ (text.take (splitEq text).1).isPrefixOf ei.name
           ∧ (text.take (splitEq text).1).isPrefixOf ej.name
           ∧ ¬identOpt ei ej) ∧
       ((matchLong tbl text (splitEq text).1).2 = false →
         ∃ i e, (matchLong tbl text (splitEq text).1).1 = some (i, e)
           ∧ tbl.get? i = some e
           ∧ (text.take (splitEq text).1).isPrefixOf e.name
           ∧ ∀ j, j < i → ¬longMatchAt tbl text (splitEq text).1 j))) ∧
    (∀ (nargc : Nat) (options : Str) (posix hasIdx : Bool) (s : GState)
       (m : Option (Nat × option_t)),
      s.place = [] → s.optreset = false → s.optind ≠ 0 → s.optind < nargc →
      s.argv s.optind = some ('-' :: '-' :: text) → text ≠ [] →
      matchLong tbl text (splitEq text).1 = (m, true) →
      (getopt_long nargc options posix tbl hasIdx s).1 = BADCH ∧
      ((getopt_long nargc options posix tbl hasIdx s).2).1.optopt = 0) := by
  refine ⟨?_, ?_, ?_⟩
  · intro hex
    obtain ⟨i, e, hi, hp, hl⟩ := hex
    obtain ⟨k, e2, hgo, hk, hp2, hl2⟩ := matchGo_exact text (splitEq text).1
      tbl 0 none false ⟨i, e, hi, hp, hl⟩
    rw [Nat.zero_add] at hgo
    exact ⟨k, e2, hgo, hk, hp2, hl2⟩
  · intro hnoex hpart
    classical
    have hnoex' : ∀ k e, tbl.get? k = some e →
        (text.take (splitEq text).1).isPrefixOf e.name →
        e.name.length ≠ (splitEq text).1 :=
      fun k e hk hp hl => hnoex ⟨k, e, hk, hp, hl⟩
    have hfind : ∃ k, longMatchAt tbl text (splitEq text).1 k := hpart
    obtain ⟨e0, he0, hp0⟩ := Nat.find_spec hfind
    have hmin : ∀ k', k' < Nat.find hfind →
        ¬longMatchAt tbl text (splitEq text).1 k' :=
      fun k' h => Nat.find_min hfind h
    have hminF : ∀ k' e', k' < Nat.find hfind → tbl.get? k' = some e' →
        (text.take (splitEq text).1).isPrefixOf e'.name = false := by
      intro k' e' hlt hk'
      by_contra hcon
      have : (text.take (splitEq text).1).isPrefixOf e'.name = true := by
        revert hcon
        cases ((text.take (splitEq text).1).isPrefixOf e'.name : Bool) <;> simp
      exact hmin k' hlt ⟨e', hk', this⟩
    obtain ⟨h1, h2⟩ := matchGo_fresh_first text (splitEq text).1 tbl 0 false
      (Nat.find hfind) e0 hnoex' he0 hp0 hminF
    rw [Nat.zero_add] at h1
    constructor
    · rw [show (matchLong tbl text (splitEq text).1).2
          = (matchGo text (splitEq text).1 0 tbl none false).2 from rfl, h2]
      constructor
      · rintro (h | ⟨k, e2, hk, hp, hd⟩)
        · exact absurd h (by simp)
        · exact ⟨Nat.find hfind, k, e0, e2, he0, hk, hp0, hp,
            fun h => hd (identOpt_symm h)⟩
      · rintro ⟨i, j, ei, ej, hki, hkj, hpi, hpj, hd⟩
        by_cases hidi : identOpt ei e0
        · refine Or.inr ⟨j, ej, hkj, hpj, fun hdj => ?_⟩
          exact hd (identOpt_trans hidi (identOpt_symm hdj))
        · exact Or.inr ⟨i, ei, hki, hpi, hidi⟩
    · intro _
      exact ⟨Nat.find hfind, e0, h1, he0, hp0, fun j hj => hmin j hj⟩
  · intro nargc options posix hasIdx s m hplace hreset h0 hlt htok htext hmatch
    rw [getopt_long_run nargc options posix tbl hasIdx s text hplace hreset
      h0 hlt htok]
    rw [parse_long_ambiguous nargc options tbl hasIdx _ text m rfl htext hmatch]
    exact ⟨rfl, rfl⟩

/-- Witness for C2: the table `verbose`/`version` and the ambiguous
abbreviation `ver`. -/
theorem C2_long_matcher_witness :
    ((∃ i, longExactAt
        [⟨"verbose".toList, 0, none, 118⟩, ⟨"version".toList, 0, none, 86⟩]
        "ver".toList (splitEq "ver".toList).1 i) →
      ∃ i e, matchLong
          [⟨"verbose".toList, 0, none, 118⟩, ⟨"version".toList, 0, none, 86⟩]
          "ver".toList (splitEq "ver".toList).1 = (some (i, e), false)
        ∧ [⟨"verbose".toList, 0, none, 118⟩,
            ⟨"version".toList, 0, none, 86⟩].get? i = some e
        ∧ ("ver".toList.take (splitEq "ver".toList).1).isPrefixOf e.name
        ∧ e.name.length = (splitEq "ver".toList).1) ∧
    ((¬∃ i, longExactAt
        [⟨"verbose".toList, 0, none, 118⟩, ⟨"version".toList, 0, none, 86⟩]
        "ver".toList (splitEq "ver".toList).1 i) →
     (∃ i, longMatchAt
        [⟨"verbose".toList, 0, none, 118⟩, ⟨"version".toList, 0, none, 86⟩]
        "ver".toList (splitEq "ver".toList).1 i) →
      (((matchLong
          [⟨"verbose".toList, 0, none, 118⟩, ⟨"version".toList, 0, none, 86⟩]
          "ver".toList (splitEq "ver".toList).1).2 = true ↔
         ∃ i j ei ej,
           [⟨"verbose".toList, 0, none, 118⟩,
             ⟨"version".toList, 0, none, 86⟩].get? i = some ei
           ∧ [⟨"verbose".toList, 0, none, 118⟩,
               ⟨"version".toList, 0, none, 86⟩].get? j = some ej
           ∧ ("ver".toList.take (splitEq "ver".toList).1).isPrefixOf ei.name
           ∧ ("ver".toList.take (splitEq "ver".toList).1).isPrefixOf ej.name
           ∧ ¬identOpt ei ej) ∧
       ((matchLong
          [⟨"verbose".toList, 0, none, 118⟩, ⟨"version".toList, 0, none, 86⟩]
          "ver".toList (splitEq "ver".toList).1).2 = false →
         ∃ i e, (matchLong
             [⟨"verbose".toList, 0, none, 118⟩,
               ⟨"version".toList, 0, none, 86⟩]
             "ver".toList (splitEq "ver".toList).1).1 = some (i, e)
           ∧ [⟨"verbose".toList, 0, none, 118⟩,
               ⟨"version".toList, 0, none, 86⟩].get? i = some e
           ∧ ("ver".toList.take (splitEq "ver".toList).1).isPrefixOf e.name
           ∧ ∀ j, j < i → ¬longMatchAt
               [⟨"verbose".toList, 0, none, 118⟩,
                 ⟨"version".toList, 0, none, 86⟩]
               "ver".toList (splitEq "ver".toList).1 j))) ∧
    (∀ (nargc : Nat) (options : Str) (posix hasIdx : Bool) (s : GState)
       (m : Option (Nat × option_t)),
      s.place = [] → s.optreset = false → s.optind ≠ 0 → s.optind < nargc →
      s.argv s.optind = some ('-' :: '-' :: "ver".toList) → "ver".toList ≠ [] →
      matchLong
          [⟨"verbose".toList, 0, none, 118⟩, ⟨"version".toList, 0, none, 86⟩]
          "ver".toList (splitEq "ver".toList).1 = (m, true) →
      (getopt_long nargc options posix
        [⟨"verbose".toList, 0, none, 118⟩, ⟨"version".toList, 0, none, 86⟩]
        hasIdx s).1 = BADCH ∧
      ((getopt_long nargc options posix
        [⟨"verbose".toList, 0, none, 118⟩, ⟨"version".toList, 0, none, 86⟩]
        hasIdx s).2).1.optopt = 0) :=
  C2_long_matcher
    [⟨"verbose".toList, 0, none, 118⟩, ⟨"version".toList, 0, none, 86⟩]
    "ver".toList

theorem parse_long_noarg_noeq (nargc : Nat) (options : Str)
    (long_options : List option_t) (hasIdx : Bool) (s : GState) (text : Str)
    (mi : Nat) (e : option_t)
    (hplace : s.place = text) (htext : text ≠ [])
    (hmatch : matchLong long_options text (splitEq text).1
      = (some (mi, e), false))
    (harg : e.has_arg = no_argument) (heq : (splitEq text).2 = none) :
    parse_long nargc options long_options hasIdx s
      = ((match e.flag with | some _ => 0 | none => e.val),
         { s with
           optind := s.optind + 1, place := [],
           flags := match e.flag with
                    | some fl => Function.update s.flags fl e.val
                    | none => s.flags },
         if hasIdx then some mi else none) := by
  have hro : ¬(e.has_arg = required_argument ∨ e.has_arg = optional_argument) := by
    rw [harg]
    simp [no_argument, required_argument, optional_argument]
  have hreq : ¬(e.has_arg = required_argument) := by
    rw [harg]; simp [no_argument, required_argument]
  simp only [parse_long, hplace]
  rw [if_neg (by simp [htext])]
  simp only [hmatch]
  rw [if_neg (show ¬(e.has_arg = no_argument ∧ (splitEq text).2 ≠ none) from
      by simp [heq]),
    if_neg hro]
  cases hf : e.flag with
  | some fl => simp [hf, hreq]
  | none => simp [hf, hreq]

/-- C3: an option with an optional argument takes its argument only from
inline text. Short options: with `-c⟨w⟩` the inline remainder supplies the
argument; with `-c` alone `optarg` stays null, the cursor moves exactly one
slot, and the vector is untouched, so the following token is never consumed.
Long options: `--name=value` supplies the value inline; `--name` with an
`optional_argument` entry leaves `optarg` null and advances exactly past the
option token. -/
theorem C3_optional_inline_only (options : Str) (posix : Bool) :
    (∀ (nargc : Nat) (c : Char) (w oli : Str) (s : GState),
      s.place = [] → s.optreset = false → s.optind ≠ 0 → s.optind < nargc →
      s.argv s.optind = some ('-' :: c :: w) → w.isEmpty = false →
      strchr' (options.drop (if ignoreFirst options then 1 else 0)) c
        = some oli →
      c ≠ ':' → c ≠ '-' → ¬(c = 'W' ∧ oli.tail.head? = some ';') →
      oli.tail.head? = some ':' → oli.tail.tail.head? = some ':' →
      (getopt_internal nargc options posix s).1 = Int.ofNat c.toNat ∧
      (getopt_internal nargc options posix s).2.optarg = some w ∧
      (getopt_internal nargc options posix s).2.optind = s.optind + 1 ∧
      (getopt_internal nargc options posix s).2.argv = s.argv) ∧
    (∀ (nargc : Nat) (c : Char) (oli : Str) (s : GState),
      s.place = [] → s.optreset = false → s.optind ≠ 0 → s.optind < nargc →
      s.argv s.optind = some ['-', c] →
      strchr' (options.drop (if ignoreFirst options then 1 else 0)) c
        = some oli →
      c ≠ ':' → c ≠ '-' → ¬(c = 'W' ∧ oli.tail.head? = some ';') →
      oli.tail.head? = some ':' → oli.tail.tail.head? = some ':' →
      (getopt_internal nargc options posix s).1 = Int.ofNat c.toNat ∧
      (getopt_internal nargc options posix s).2.optarg = none ∧
      (getopt_internal nargc options posix s).2.optind = s.optind + 1 ∧
      (getopt_internal nargc options posix s).2.argv = s.argv) ∧
    (∀ (nargc : Nat) (tbl : List option_t) (hasIdx : Bool) (s : GState)
       (text : Str) (mi : Nat) (e : option_t),
      s.place = [] → s.optreset = false → s.optind ≠ 0 → s.optind < nargc →
      s.argv s.optind = some ('-' :: '-' :: text) → text ≠ [] →
      matchLong tbl text (splitEq text).1 = (some (mi, e), false) →
      e.has_arg = optional_argument → (splitEq text).2 = none →
      ((getopt_long nargc options posix tbl hasIdx s).2).1.optarg = none ∧
      ((getopt_long nargc options posix tbl hasIdx s).2).1.optind
        = s.optind + 1 ∧
      ((getopt_long nargc options posix tbl hasIdx s).2).1.argv = s.argv) ∧
    (∀ (nargc : Nat) (tbl : List option_t) (hasIdx : Bool) (s : GState)
       (text v : Str) (mi : Nat) (e : option_t),
      s.place = [] → s.optreset = false → s.optind ≠ 0 → s.optind < nargc →
      s.argv s.optind = some ('-' :: '-' :: text) → text ≠ [] →
      matchLong tbl text (splitEq text).1 = (some (mi, e), false) →
      e.has_arg = optional_argument → (splitEq text).2 = some v →
      ((getopt_long nargc options posix tbl hasIdx s).2).1.optarg = some v ∧
      ((getopt_long nargc options posix tbl hasIdx s).2).1.optind
        = s.optind + 1 ∧
      ((getopt_long nargc options posix tbl hasIdx s).2).1.argv = s.argv) := by
  refine ⟨?_, ?_, ?_, ?_⟩
  · intro nargc c w oli s hplace hreset h0 hlt htok hw hfind hc1 hc2 hWnot
      hcolon _
    rw [internal_run_inline nargc options posix c w oli s hplace hreset h0
      hlt htok hw hfind hc1 hc2 hWnot hcolon]
    exact ⟨rfl, rfl, rfl, rfl⟩
  · intro nargc c oli s hplace hreset h0 hlt htok hfind hc1 hc2 hWnot hcolon
      hdouble
    rw [internal_run_optional_none nargc options posix c oli s hplace hreset
      h0 hlt htok hfind hc1 hc2 hWnot hcolon hdouble]
    exact ⟨rfl, rfl, rfl, rfl⟩
  · intro nargc tbl hasIdx s text mi e hplace hreset h0 hlt htok htext hmatch
      harg heq
    rw [getopt_long_run nargc options posix tbl hasIdx s text hplace hreset
      h0 hlt htok]
    rw [parse_long_optional_noeq nargc options tbl hasIdx _ text mi e rfl
      htext hmatch harg heq rfl]
    exact ⟨rfl, rfl, rfl⟩
  · intro nargc tbl hasIdx s text v mi e hplace hreset h0 hlt htok htext
      hmatch harg heq
    rw [getopt_long_run nargc options posix tbl hasIdx s text hplace hreset
      h0 hlt htok]
    rw [parse_long_success_equal nargc options tbl hasIdx _ text mi e v rfl
      htext hmatch (Or.inr harg) heq]
    exact ⟨rfl, rfl, rfl⟩

/-- Witness for C3: spec `"a::"`, input `-a foo`: the call returns `a` with
no argument, moves the cursor only past `-a`, and leaves the vector (hence
the separate operand `foo`) untouched. -/
theorem C3_optional_inline_only_witness :
    (getopt_internal 3 "a::".toList false
      (initState (argvOf ["prog".toList, "-a".toList, "foo".toList]))).1
      = Int.ofNat 'a'.toNat ∧
    (getopt_internal 3 "a::".toList false
      (initState (argvOf ["prog".toList, "-a".toList, "foo".toList]))).2.optarg
      = none ∧
    (getopt_internal 3 "a::".toList false
      (initState (argvOf ["prog".toList, "-a".toList, "foo".toList]))).2.optind
      = (initState (argvOf ["prog".toList, "-a".toList, "foo".toList])).optind
          + 1 ∧
    (getopt_internal 3 "a::".toList false
      (initState (argvOf ["prog".toList, "-a".toList, "foo".toList]))).2.argv
      = (initState (argvOf ["prog".toList, "-a".toList, "foo".toList])).argv :=
  (C3_optional_inline_only "a::".toList false).2.1 3 'a' "a::".toList
    (initState (argvOf ["prog".toList, "-a".toList, "foo".toList]))
    rfl rfl (by decide) (by decide) (by decide) (by decide) (by decide)
    (by decide) (by decide) (by decide) (by decide)

/-- C9: when `getopt_long` resolves a long option (any of the four
successful argument situations), a non-null flag pointer receives the
entry's `val` and the call returns `0`; a null flag makes the call return
`val` directly; in both cases a supplied `idx` slot receives the matched
table index. -/
theorem C9_long_flag_writeback (nargc : Nat) (options : Str) (posix : Bool)
    (tbl : List option_t) (hasIdx : Bool) (s : GState) (text : Str)
    (mi : Nat) (e : option_t)
    (hplace : s.place = []) (hreset : s.optreset = false)
    (h0 : s.optind ≠ 0) (hlt : s.optind < nargc)
    (htok : s.argv s.optind = some ('-' :: '-' :: text)) (htext : text ≠ [])
    (hmatch : matchLong tbl text (splitEq text).1 = (some (mi, e), false))
    (hres : (e.has_arg = no_argument ∧ (splitEq text).2 = none)
      ∨ ((e.has_arg = required_argument ∨ e.has_arg = optional_argument)
          ∧ (splitEq text).2 ≠ none)
      ∨ (e.has_arg = required_argument ∧ (splitEq text).2 = none
          ∧ (s.argv (s.optind + 1)).isSome)
      ∨ (e.has_arg = optional_argument ∧ (splitEq text).2 = none)) :
    (∀ fl, e.flag = some fl →
      (getopt_long nargc options posix tbl hasIdx s).1 = 0 ∧
      ((getopt_long nargc options posix tbl hasIdx s).2).1.flags fl
        = e.val) ∧
    (e.flag = none →
      (getopt_long nargc options posix tbl hasIdx s).1 = e.val) ∧
    (hasIdx = true →
      ((getopt_long nargc options posix tbl hasIdx s).2).2 = some mi) := by
  rw [getopt_long_run nargc options posix tbl hasIdx s text hplace hreset
    h0 hlt htok]
  rcases hres with ⟨harg, heq⟩ | ⟨harg, heq⟩ | ⟨harg, heq, hnext⟩ | ⟨harg, heq⟩
  · rw [parse_long_noarg_noeq nargc options tbl hasIdx _ text mi e rfl htext
      hmatch harg heq]
    refine ⟨?_, ?_, ?_⟩
    · intro fl hf
      rw [hf]
      exact ⟨by simp, by simp⟩
    · intro hf
      rw [hf]
    · intro hi
      rw [hi]
      rfl
  · obtain ⟨v, hv⟩ : ∃ v, (splitEq text).2 = some v := by
      cases hq : (splitEq text).2 with
      | none => exact absurd hq heq
      | some v => exact ⟨v, rfl⟩
    rw [parse_long_success_equal nargc options tbl hasIdx _ text mi e v rfl
      htext hmatch harg hv]
    refine ⟨?_, ?_, ?_⟩
    · intro fl hf
      rw [hf]
      exact ⟨by simp, by simp⟩
    · intro hf
      rw [hf]
    · intro hi
      rw [hi]
      rfl
  · obtain ⟨v, hv⟩ : ∃ v, s.argv (s.optind + 1) = some v := by
      cases hq : s.argv (s.optind + 1) with
      | none => rw [hq] at hnext; cases hnext
      | some v => exact ⟨v, rfl⟩
    rw [parse_long_required_consume nargc options tbl hasIdx
      { s with
        optarg := none, optreset := false, place := text,
        nonopt_end := if s.nonopt_start ≠ none ∧ s.nonopt_end = none
                      then some s.optind else s.nonopt_end }
      text mi e v rfl htext hmatch harg heq hv]
    refine ⟨?_, ?_, ?_⟩
    · intro fl hf
      rw [hf]
      exact ⟨by simp, by simp⟩
    · intro hf
      rw [hf]
    · intro hi
      rw [hi]
      rfl
  · rw [parse_long_optional_noeq nargc options tbl hasIdx _ text mi e rfl
      htext hmatch harg heq rfl]
    refine ⟨?_, ?_, ?_⟩
    · intro fl hf
      rw [hf]
      exact ⟨by simp, by simp⟩
    · intro hf
      rw [hf]
    · intro hi
      rw [hi]
      rfl

/-- Witness for C9: table entry `x` with flag address `5` and value `42`,
token `--x`, `idx` supplied. -/
theorem C9_long_flag_writeback_witness :
    ((∀ fl, (⟨"x".toList, 0, some 5, 42⟩ : option_t).flag = some fl →
      (getopt_long 2 [] false [⟨"x".toList, 0, some 5, 42⟩] true
        (initState (argvOf ["prog".toList, "--x".toList]))).1 = 0 ∧
      ((getopt_long 2 [] false [⟨"x".toList, 0, some 5, 42⟩] true
        (initState (argvOf ["prog".toList, "--x".toList]))).2).1.flags fl
        = (⟨"x".toList, 0, some 5, 42⟩ : option_t).val) ∧
    ((⟨"x".toList, 0, some 5, 42⟩ : option_t).flag = none →
      (getopt_long 2 [] false [⟨"x".toList, 0, some 5, 42⟩] true
        (initState (argvOf ["prog".toList, "--x".toList]))).1
        = (⟨"x".toList, 0, some 5, 42⟩ : option_t).val) ∧
    (true = true →
      ((getopt_long 2 [] false [⟨"x".toList, 0, some 5, 42⟩] true
        (initState (argvOf ["prog".toList, "--x".toList]))).2).2 = some 0)) :=
  C9_long_flag_writeback 2 [] false [⟨"x".toList, 0, some 5, 42⟩] true
    (initState (argvOf ["prog".toList, "--x".toList])) "x".toList 0
    ⟨"x".toList, 0, some 5, 42⟩ rfl rfl (by decide) (by decide) (by decide)
    (by decide) (by decide) (Or.inl ⟨rfl, by decide⟩)

/-- Counterexample to C8 as stated: on unknown-long-option error returns
the offending option name is not captured in `optopt` — two runs offending
with the different names `zz` and `yy` both leave `optopt = 0`, and `0`
encodes no character of either name. -/
theorem C8_errors_counterexample :
    (getopt_long 2 [] false [⟨"alpha".toList, 0, none, 97⟩] false
      (initState (argvOf ["prog".toList, "--zz".toList]))).1 = BADCH ∧
    ((getopt_long 2 [] false [⟨"alpha".toList, 0, none, 97⟩] false
      (initState (argvOf ["prog".toList, "--zz".toList]))).2).1.optopt = 0 ∧
    (getopt_long 2 [] false [⟨"alpha".toList, 0, none, 97⟩] false
      (initState (argvOf ["prog".toList, "--yy".toList]))).1 = BADCH ∧
    ((getopt_long 2 [] false [⟨"alpha".toList, 0, none, 97⟩] false
      (initState (argvOf ["prog".toList, "--yy".toList]))).2).1.optopt = 0 ∧
    (∀ ch ∈ "zz".toList, Int.ofNat ch.toNat ≠ 0) ∧
    (∀ ch ∈ "yy".toList, Int.ofNat ch.toNat ≠ 0) := by
  refine ⟨by decide, by decide, by decide, by decide, by decide, by decide⟩

/-- C8 amended: on every error return the character is captured for short
options (`optopt = c`); for long options `optopt` receives the matched
descriptor's `val` when its flag pointer is null (and `0` otherwise) for
the forbidden-argument and missing-argument errors, and `0` (not the
offending name) for unknown names and ambiguous abbreviations. -/
theorem C8_optopt_amended (options : Str) (posix : Bool) :
    (∀ (nargc : Nat) (c : Char) (s : GState),
      s.place = [] → s.optreset = false → s.optind ≠ 0 → s.optind < nargc →
      s.argv s.optind = some ['-', c] → c ≠ '-' →
      (c = ':'
        ∨ strchr' (options.drop (if ignoreFirst options then 1 else 0)) c
            = none) →
      (getopt_internal nargc options posix s).1 = BADCH ∧
      (getopt_internal nargc options posix s).2.optopt = Int.ofNat c.toNat) ∧
    (∀ (nargc : Nat) (c : Char) (oli : Str) (s : GState),
      s.place = [] → s.optreset = false → s.optind ≠ 0 → s.optind < nargc →
      nargc ≤ s.optind + 1 → s.argv s.optind = some ['-', c] →
      strchr' (options.drop (if ignoreFirst options then 1 else 0)) c
        = some oli →
      c ≠ ':' → c ≠ '-' → ¬(c = 'W' ∧ oli.tail.head? = some ';') →
      oli.tail.head? = some ':' → oli.tail.tail.head? ≠ some ':' →
      (getopt_internal nargc options posix s).1 = BADARGv options ∧
      (getopt_internal nargc options posix s).2.optopt = Int.ofNat c.toNat) ∧
    (∀ (nargc : Nat) (tbl : List option_t) (hasIdx : Bool) (s : GState)
       (text : Str),
      s.place = [] → s.optreset = false → s.optind ≠ 0 → s.optind < nargc →
      s.argv s.optind = some ('-' :: '-' :: text) → text ≠ [] →
      matchLong tbl text (splitEq text).1 = (none, false) →
      (getopt_long nargc options posix tbl hasIdx s).1 = BADCH ∧
      ((getopt_long nargc options posix tbl hasIdx s).2).1.optopt = 0) ∧
    (∀ (nargc : Nat) (tbl : List option_t) (hasIdx : Bool) (s : GState)
       (text : Str) (m : Option (Nat × option_t)),
      s.place = [] → s.optreset = false → s.optind ≠ 0 → s.optind < nargc →
      s.argv s.optind = some ('-' :: '-' :: text) → text ≠ [] →
      matchLong tbl text (splitEq text).1 = (m, true) →
      (getopt_long nargc options posix tbl hasIdx s).1 = BADCH ∧
      ((getopt_long nargc options posix tbl hasIdx s).2).1.optopt = 0) ∧
    (∀ (nargc : Nat) (tbl : List option_t) (hasIdx : Bool) (s : GState)
       (text v : Str) (mi : Nat) (e : option_t),
      s.place = [] → s.optreset = false → s.optind ≠ 0 → s.optind < nargc →
      s.argv s.optind = some ('-' :: '-' :: text) → text ≠ [] →
      matchLong tbl text (splitEq text).1 = (some (mi, e), false) →
      e.has_arg = no_argument → (splitEq text).2 = some v →
      (getopt_long nargc options posix tbl hasIdx s).1 = BADARGv options ∧
      ((getopt_long nargc options posix tbl hasIdx s).2).1.optopt
        = (if e.flag = none then e.val else 0)) ∧
    (∀ (nargc : Nat) (tbl : List option_t) (hasIdx : Bool) (s : GState)
       (text : Str) (mi : Nat) (e : option_t),
      s.place = [] → s.optreset = false → s.optind ≠ 0 → s.optind < nargc →
      s.argv s.optind = some ('-' :: '-' :: text) → text ≠ [] →
      matchLong tbl text (splitEq text).1 = (some (mi, e), false) →
      e.has_arg = required_argument → (splitEq text).2 = none →
      s.argv (s.optind + 1) = none →
      (getopt_long nargc options posix tbl hasIdx s).1 = BADARGv options ∧
      ((getopt_long nargc options posix tbl hasIdx s).2).1.optopt
        = (if e.flag = none then e.val else 0)) := by
  refine ⟨?_, ?_, ?_, ?_, ?_, ?_⟩
  · intro nargc c s hplace hreset h0 hlt htok hc2 herr
    rw [internal_run_unknown nargc options posix c s hplace hreset h0 hlt
      htok hc2 herr]
    exact ⟨rfl, rfl⟩
  · intro nargc c oli s hplace hreset h0 hlt hge htok hfind hc1 hc2 hWnot
      hcolon hsingle
    rw [internal_run_required_missing nargc options posix c oli s hplace
      hreset h0 hlt hge htok hfind hc1 hc2 hWnot hcolon hsingle]
    exact ⟨rfl, rfl⟩
  · intro nargc tbl hasIdx s text hplace hreset h0 hlt htok htext hmatch
    rw [getopt_long_run nargc options posix tbl hasIdx s text hplace hreset
      h0 hlt htok]
    rw [parse_long_unknown nargc options tbl hasIdx _ text rfl htext hmatch]
    exact ⟨rfl, rfl⟩
  · intro nargc tbl hasIdx s text m hplace hreset h0 hlt htok htext hmatch
    rw [getopt_long_run nargc options posix tbl hasIdx s text hplace hreset
      h0 hlt htok]
    rw [parse_long_ambiguous nargc options tbl hasIdx _ text m rfl htext
      hmatch]
    exact ⟨rfl, rfl⟩
  · intro nargc tbl hasIdx s text v mi e hplace hreset h0 hlt htok htext
      hmatch harg heq
    rw [getopt_long_run nargc options posix tbl hasIdx s text hplace hreset
      h0 hlt htok]
    rw [parse_long_noarg_equal nargc options tbl hasIdx _ text mi e v rfl
      htext hmatch harg heq]
    exact ⟨rfl, rfl⟩
  · intro nargc tbl hasIdx s text mi e hplace hreset h0 hlt htok htext
      hmatch harg heq hnone
    rw [getopt_long_run nargc options posix tbl hasIdx s text hplace hreset
      h0 hlt htok]
    rw [parse_long_required_missing nargc options tbl hasIdx
      { s with
        optarg := none, optreset := false, place := text,
        nonopt_end := if s.nonopt_start ≠ none ∧ s.nonopt_end = none
                      then some s.optind else s.nonopt_end }
      text mi e rfl htext hmatch harg heq hnone]
    exact ⟨rfl, rfl⟩

/-- Witness for the amended C8: unknown short option `-z` against spec
`"a"`. -/
theorem C8_optopt_amended_witness :
    (getopt_internal 2 "a".toList false
      (initState (argvOf ["prog".toList, "-z".toList]))).1 = BADCH ∧
    (getopt_internal 2 "a".toList false
      (initState (argvOf ["prog".toList, "-z".toList]))).2.optopt
      = Int.ofNat 'z'.toNat :=
  (C8_optopt_amended "a".toList false).1 2 'z'
    (initState (argvOf ["prog".toList, "-z".toList]))
    rfl rfl (by decide) (by decide) (by decide) (by decide)
    (Or.inr (by decide))
/-- The scanner's skipped-non-option window is well formed: whenever
`nonopt_end` is set, `nonopt_start` is set below it, and both lie at or
below `optind` (the C code encodes unset as `-1`). -/
def nsWF (s : GState) : Prop :=
  (∀ b, s.nonopt_end = some b → ∃ a, s.nonopt_start = some a ∧ a ≤ b) ∧
  (∀ a, s.nonopt_start = some a → a ≤ s.optind) ∧
  (∀ b, s.nonopt_end = some b → b ≤ s.optind)

/-- The lowest value the cursor may take when leaving state `s`: `optind`
itself, or `nonopt_start` when a skipped block is pending. -/
def nsBound (s : GState) : Nat :=
  match s.nonopt_start with
  | none => s.optind
  | some a => min a s.optind

theorem nsBound_le (s : GState) : nsBound s ≤ s.optind := by
  unfold nsBound
  rcases s.nonopt_start with _ | a
  · exact le_refl _
  · exact min_le_right a s.optind

theorem nsBound_none (s : GState) (h : s.nonopt_start = none) :
    nsBound s = s.optind := by
  unfold nsBound; rw [h]

theorem nsBound_some (s : GState) (a : Nat) (h : s.nonopt_start = some a) :
    nsBound s = min a s.optind := by
  unfold nsBound; rw [h]

theorem nsWF_of_le (s t : GState) (hns : t.nonopt_start = s.nonopt_start)
    (hne : t.nonopt_end = s.nonopt_end) (hle : s.optind ≤ t.optind)
    (h : nsWF s) : nsWF t := by
  refine ⟨?_, ?_, ?_⟩
  · intro b hb
    rw [hne] at hb
    obtain ⟨a, ha, hab⟩ := h.1 b hb
    exact ⟨a, by rw [hns, ha], hab⟩
  · intro a ha
    rw [hns] at ha
    exact le_trans (h.2.1 a ha) hle
  · intro b hb
    rw [hne] at hb
    exact le_trans (h.2.2 b hb) hle

theorem nsBound_of_le (s t : GState) (hns : t.nonopt_start = s.nonopt_start)
    (hle : s.optind ≤ t.optind) : nsBound s ≤ nsBound t := by
  unfold nsBound
  rw [hns]
  rcases s.nonopt_start with _ | a <;> dsimp only <;> omega

/-- `processChar` leaves the skipped-block bookkeeping alone and never
lowers the cursor. -/
theorem processChar_frame (nargc : Nat) (options : Str) (s : GState) :
    (processChar nargc options s).2.nonopt_start = s.nonopt_start ∧
    (processChar nargc options s).2.nonopt_end = s.nonopt_end ∧
    s.optind ≤ (processChar nargc options s).2.optind := by
  unfold processChar
  dsimp only
  split_ifs <;> simp <;> omega

theorem nsWF_clear (t : GState) (hns : t.nonopt_start = none)
    (hne : t.nonopt_end = none) : nsWF t := by
  refine ⟨fun b hb => ?_, fun a ha => ?_, fun b hb => ?_⟩
  · rw [hne] at hb; exact absurd hb (by simp)
  · rw [hns] at ha; exact absurd ha (by simp)
  · rw [hne] at hb; exact absurd hb (by simp)

/-- Marking the end of a skipped block (line 264) keeps the window well
formed. -/
theorem nsWF_mark (s : GState) (p : Str) (h : nsWF s) :
    nsWF { s with
           optreset := false, place := p,
           nonopt_end := if s.nonopt_start ≠ none ∧ s.nonopt_end = none
                         then some s.optind else s.nonopt_end } := by
  refine ⟨fun b hb => ?_, fun a' ha' => ?_, fun b hb => ?_⟩
  · have hb' : (if s.nonopt_start ≠ none ∧ s.nonopt_end = none
        then some s.optind else s.nonopt_end) = some b := hb
    by_cases hc : s.nonopt_start ≠ none ∧ s.nonopt_end = none
    · rw [if_pos hc] at hb'
      obtain ⟨a, hns⟩ := Option.ne_none_iff_exists'.mp hc.1
      refine ⟨a, hns, ?_⟩
      have h1 := h.2.1 a hns
      have h2 : s.optind = b := by injection hb'
      omega
    · rw [if_neg hc] at hb'
      obtain ⟨a, hns, hab⟩ := h.1 b hb'
      exact ⟨a, hns, hab⟩
  · exact h.2.1 a' ha'
  · have hb' : (if s.nonopt_start ≠ none ∧ s.nonopt_end = none
        then some s.optind else s.nonopt_end) = some b := hb
    show b ≤ s.optind
    by_cases hc : s.nonopt_start ≠ none ∧ s.nonopt_end = none
    · rw [if_pos hc] at hb'
      have h2 : s.optind = b := by injection hb'
      omega
    · rw [if_neg hc] at hb'
      exact h.2.2 b hb'

theorem scanFuel_nonopt_inorder2 (nargc : Nat) (options : Str) (posix : Bool)
    (f : Nat) (s : GState) (hplace : s.place = []) (hlt : s.optind < nargc)
    (hnon : nonOptTok ((s.argv s.optind).getD []) = true)
    (hio : inOrderMode options posix = true) :
    scanFuel nargc options posix (f + 1) s
      = (1, { s with
              optreset := false, place := [],
              optarg := s.argv s.optind, optind := s.optind + 1 }) := by
  simp only [scanFuel]
  rw [if_pos (Or.inr (by simp [hplace]))]
  rw [if_neg (by omega)]
  rw [if_pos hnon, if_pos hio]

theorem scanFuel_nonopt_stop2 (nargc : Nat) (options : Str) (posix : Bool)
    (f : Nat) (s : GState) (hplace : s.place = []) (hlt : s.optind < nargc)
    (hnon : nonOptTok ((s.argv s.optind).getD []) = true)
    (hio : inOrderMode options posix = false)
    (hpm : permuteMode options posix = false) :
    scanFuel nargc options posix (f + 1) s
      = (-1, { s with optreset := false, place := [] }) := by
  simp only [scanFuel]
  rw [if_pos (Or.inr (by simp [hplace]))]
  rw [if_neg (by omega)]
  rw [if_pos hnon, if_neg (by simp [hio]), if_pos (by simp [hpm])]

theorem scanFuel_walk_fresh2 (nargc : Nat) (options : Str) (posix : Bool)
    (f : Nat) (s : GState) (hplace : s.place = []) (hlt : s.optind < nargc)
    (hnon : nonOptTok ((s.argv s.optind).getD []) = true)
    (hpm : permuteMode options posix = true)
    (hns : s.nonopt_start = none) :
    scanFuel nargc options posix (f + 1) s
      = scanFuel nargc options posix f
          { s with
            optreset := false, place := [],
            nonopt_start := some s.optind, optind := s.optind + 1 } := by
  simp only [scanFuel]
  rw [if_pos (Or.inr (by simp [hplace]))]
  rw [if_neg (by omega)]
  rw [if_pos hnon, if_neg (by simp [permute_not_inorder options posix hpm]),
    if_neg (by simp [hpm])]
  rw [if_pos (by simp [hns])]

theorem scanFuel_walk_mid2 (nargc : Nat) (options : Str) (posix : Bool)
    (f : Nat) (s : GState) (a : Nat) (hplace : s.place = [])
    (hlt : s.optind < nargc)
    (hnon : nonOptTok ((s.argv s.optind).getD []) = true)
    (hpm : permuteMode options posix = true)
    (hns : s.nonopt_start = some a) (hne : s.nonopt_end = none) :
    scanFuel nargc options posix (f + 1) s
      = scanFuel nargc options posix f
          { s with
            optreset := false, place := [], optind := s.optind + 1 } := by
  simp only [scanFuel]
  rw [if_pos (Or.inr (by simp [hplace]))]
  rw [if_neg (by omega)]
  rw [if_pos hnon, if_neg (by simp [permute_not_inorder options posix hpm]),
    if_neg (by simp [hpm])]
  rw [if_neg (by simp [hns]), if_neg (by simp [hne])]

theorem scanFuel_walk_perm2 (nargc : Nat) (options : Str) (posix : Bool)
    (f : Nat) (s : GState) (a b : Nat) (hplace : s.place = [])
    (hlt : s.optind < nargc)
    (hnon : nonOptTok ((s.argv s.optind).getD []) = true)
    (hpm : permuteMode options posix = true)
    (hns : s.nonopt_start = some a) (hne : s.nonopt_end = some b) :
    scanFuel nargc options posix (f + 1) s
      = scanFuel nargc options posix f
          { s with
            optreset := false, place := [],
            argv := permute_args a b s.optind s.argv,
            ptrace := s.ptrace ++ [(a, b, s.optind)],
            nonopt_start := some (s.optind - (b - a)),
            nonopt_end := none, optind := s.optind + 1 } := by
  simp only [scanFuel]
  rw [if_pos (Or.inr (by simp [hplace]))]
  rw [if_neg (by omega)]
  rw [if_pos hnon, if_neg (by simp [permute_not_inorder options posix hpm]),
    if_neg (by simp [hpm])]
  rw [if_neg (by simp [hns]), if_pos (by simp [hne])]
  simp only [hns, hne, Option.getD_some, doPermute]

/-- The scanning loop preserves the window invariant and never lets the
cursor's lower bound drop: every path either keeps `optind`, advances it, or
compensates a permutation by exactly the skipped-block length, landing at or
above `nonopt_start`. -/
theorem scanFuel_inv (nargc : Nat) (options : Str) (posix : Bool) :
    ∀ (fuel : Nat) (s : GState), s.optreset = false → nsWF s →
      nsWF (scanFuel nargc options posix fuel s).2 ∧
      nsBound s ≤ nsBound (scanFuel nargc options posix fuel s).2 := by
  intro fuel
  induction fuel with
  | zero =>
    intro s hr h
    exact ⟨h, le_refl _⟩
  | succ f ih =>
    intro s hr h
    by_cases hpl : s.place = []
    case neg =>
      rw [scanFuel_mid nargc options posix f s hr hpl]
      obtain ⟨h1, h2, h3⟩ := processChar_frame nargc options s
      exact ⟨nsWF_of_le s _ h1 h2 h3 h, nsBound_of_le s _ h1 h3⟩
    case pos =>
      by_cases hge : nargc ≤ s.optind
      · rcases hne : s.nonopt_end with _ | b
        · rcases hns : s.nonopt_start with _ | a
          · rw [scanFuel_exhaust_nn nargc options posix f s hr hpl hge hns hne]
            refine ⟨nsWF_clear _ rfl rfl, ?_⟩
            rw [nsBound_none s hns, nsBound_none _ rfl]
          · rw [scanFuel_exhaust_roll nargc options posix f s a hr hpl hge
              hns hne]
            refine ⟨nsWF_clear _ rfl rfl, ?_⟩
            rw [nsBound_some s a hns, nsBound_none _ rfl]
            exact min_le_left a s.optind
        · obtain ⟨a, hns, hab⟩ := h.1 b hne
          rw [scanFuel_exhaust_perm nargc options posix f s a b hr hpl hge
            hns hne]
          refine ⟨nsWF_clear _ rfl rfl, ?_⟩
          rw [nsBound_some s a hns, nsBound_none _ rfl]
          have hbo := h.2.2 b hne
          show min a s.optind ≤ s.optind - (b - a)
          omega
      · have hlt : s.optind < nargc := by omega
        by_cases hnon : nonOptTok ((s.argv s.optind).getD []) = true
        · by_cases hio : inOrderMode options posix = true
          · rw [scanFuel_nonopt_inorder2 nargc options posix f s hpl hlt
              hnon hio]
            refine ⟨nsWF_of_le s _ rfl rfl (Nat.le_succ _) h,
              nsBound_of_le s _ rfl (Nat.le_succ _)⟩
          · by_cases hpm : permuteMode options posix = true
            · rcases hns : s.nonopt_start with _ | a
              · rw [scanFuel_walk_fresh2 nargc options posix f s hpl hlt
                  hnon hpm hns]
                have hWF : nsWF { s with
                    optreset := false, place := [],
                    nonopt_start := some s.optind, optind := s.optind + 1 } := by
                  refine ⟨fun b hb => ?_, fun a' ha' => ?_, fun b hb => ?_⟩
                  · obtain ⟨a, ha, _⟩ := h.1 b hb
                    have ha' : s.nonopt_start = some a := ha
                    rw [hns] at ha'
                    exact absurd ha' (by simp)
                  · have ha'' : some s.optind = some a' := ha'
                    have : s.optind = a' := by injection ha''
                    show a' ≤ s.optind + 1
                    omega
                  · obtain ⟨a, ha, _⟩ := h.1 b hb
                    have ha' : s.nonopt_start = some a := ha
                    rw [hns] at ha'
                    exact absurd ha' (by simp)
                refine ⟨(ih _ rfl hWF).1, le_trans ?_ (ih _ rfl hWF).2⟩
                rw [nsBound_none s hns, nsBound_some _ s.optind rfl]
                show s.optind ≤ min s.optind (s.optind + 1)
                omega
              · rcases hne : s.nonopt_end with _ | b
                · rw [scanFuel_walk_mid2 nargc options posix f s a hpl hlt
                    hnon hpm hns hne]
                  have hWF : nsWF { s with
                      optreset := false, place := [],
                      optind := s.optind + 1 } :=
                    nsWF_of_le s _ rfl rfl (Nat.le_succ _) h
                  exact ⟨(ih _ rfl hWF).1,
                    le_trans
                      (nsBound_of_le s
                        { s with
                          optreset := false, place := [],
                          optind := s.optind + 1 } rfl (Nat.le_succ _))
                      (ih _ rfl hWF).2⟩
                · rw [scanFuel_walk_perm2 nargc options posix f s a b hpl hlt
                    hnon hpm hns hne]
                  have h1 := h.2.1 a hns
                  have h2 := h.2.2 b hne
                  obtain ⟨a', ha', hab⟩ := h.1 b hne
                  have ha'2 : s.nonopt_start = some a' := ha'
                  rw [hns] at ha'2
                  have haa : a = a' := Option.some.inj ha'2
                  subst haa
                  have hWF : nsWF { s with
                      optreset := false, place := [],
                      argv := permute_args a b s.optind s.argv,
                      ptrace := s.ptrace ++ [(a, b, s.optind)],
                      nonopt_start := some (s.optind - (b - a)),
                      nonopt_end := none, optind := s.optind + 1 } := by
                    refine ⟨fun b' hb' => ?_, fun a' ha' => ?_,
                      fun b' hb' => ?_⟩
                    · have hb'' : (none : Option Nat) = some b' := hb'
                      exact absurd hb'' (by simp)
                    · have ha'' : some (s.optind - (b - a)) = some a' := ha'
                      have : s.optind - (b - a) = a' := by injection ha''
                      show a' ≤ s.optind + 1
                      omega
                    · have hb'' : (none : Option Nat) = some b' := hb'
                      exact absurd hb'' (by simp)
                  refine ⟨(ih _ rfl hWF).1, le_trans ?_ (ih _ rfl hWF).2⟩
                  rw [nsBound_some s a hns, nsBound_some _ _ rfl]
                  show min a s.optind ≤ min (s.optind - (b - a)) (s.optind + 1)
                  omega
            · rw [scanFuel_nonopt_stop2 nargc options posix f s hpl hlt hnon
                (by rcases hx : inOrderMode options posix with _ | _
                    · rfl
                    · exact absurd hx hio)
                (by rcases hx : permuteMode options posix with _ | _
                    · rfl
                    · exact absurd hx hpm)]
              exact ⟨nsWF_of_le s _ rfl rfl (le_refl _) h,
                nsBound_of_le s _ rfl (le_refl _)⟩
        · rcases harg : s.argv s.optind with _ | tok
          · rw [harg] at hnon
            exact absurd rfl hnon
          · rcases tok with _ | ⟨c0, rest⟩
            · rw [harg] at hnon
              exact absurd rfl hnon
            · have hc0 : c0 = '-' := by
                by_contra hc0
                apply hnon
                rw [harg]
                simp [nonOptTok]
                exact Or.inl hc0
              subst hc0
              rcases rest with _ | ⟨c, r⟩
              · rw [harg] at hnon
                exact absurd rfl hnon
              · by_cases hc : c = '-'
                · subst hc
                  rw [scanFuel_ddash nargc options posix f s r hr hpl hlt harg]
                  exact ⟨nsWF_mark s r h, nsBound_of_le s _ rfl (le_refl _)⟩
                · rw [scanFuel_opt nargc options posix f s c r hr hpl hlt
                    harg hc]
                  obtain ⟨h1, h2, h3⟩ := processChar_frame nargc options
                    { s with
                      optreset := false, place := c :: r,
                      nonopt_end :=
                        if s.nonopt_start ≠ none ∧ s.nonopt_end = none
                        then some s.optind else s.nonopt_end }
                  refine ⟨nsWF_of_le _ _ h1 h2 h3 (nsWF_mark s (c :: r) h), ?_⟩
                  refine le_trans (nsBound_of_le s _ rfl (le_refl _))
                    (nsBound_of_le _ _ h1 h3)

/-- `parse_long` (the `retval == -2` block of `getopt_long`) never moves the
cursor below the pending `nonopt_start`: its only subtraction compensates the
`--` permutation, and the missing-argument rollback only undoes its own
increment. -/
theorem parse_long_optind (nargc : Nat) (options : Str)
    (long_options : List option_t) (hasIdx : Bool) (s : GState)
    (h : nsWF s) :
    nsBound s ≤ ((parse_long nargc options long_options hasIdx s).2).1.optind := by
  have hb := nsBound_le s
  unfold parse_long
  dsimp only
  by_cases hemp : s.place.isEmpty
  · rw [if_pos hemp]
    rcases hne : s.nonopt_end with _ | b
    · dsimp only
      omega
    · rcases hns : s.nonopt_start with _ | a
      · obtain ⟨a, ha, _⟩ := h.1 b hne
        rw [hns] at ha
        exact absurd ha (by simp)
      · dsimp only [doPermute]
        simp only [Option.getD_some]
        have h1 := h.2.1 a hns
        have h2 := h.2.2 b hne
        have h3 : nsBound s = min a s.optind := nsBound_some s a hns
        omega
  · rw [if_neg hemp]
    rcases hm : matchLong long_options s.place (splitEq s.place).1 with ⟨m, amb⟩
    rcases m with _ | ⟨mi, e⟩ <;> rcases amb with _ | _
    · dsimp only
      omega
    · dsimp only
      omega
    · dsimp only
      split_ifs <;> (rcases e.flag with _ | fl <;> dsimp only <;> omega)
    · dsimp only
      omega

/-- C7: across a scanner call the cursor `optind` never decreases except by
the permutation engine's compensation — `getopt_internal` and `getopt_long`
always leave `optind` at or above `min nonopt_start optind` (`nsBound`), so
when no skipped-non-option block is pending (`nonopt_start` unset) `optind`
never decreases at all, and when one is pending the only drop allowed is
down to `nonopt_start` (the post-permute subtraction and the
exhaustion-time restore). -/
theorem C7_optind_monotone (nargc : Nat) (options : Str) (posix : Bool)
    (long_options : List option_t) (hasIdx : Bool) (s : GState)
    (h0 : s.optind ≠ 0) (hr : s.optreset = false) (h : nsWF s) :
    (nsBound s ≤ (getopt_internal nargc options posix s).2.optind
      ∧ (s.nonopt_start = none →
          s.optind ≤ (getopt_internal nargc options posix s).2.optind))
    ∧ (nsBound s ≤
        ((getopt_long nargc options posix long_options hasIdx s).2).1.optind
      ∧ (s.nonopt_start = none →
          s.optind ≤
            ((getopt_long nargc options posix long_options
                hasIdx s).2).1.optind)) := by
  have hkey : nsWF (getopt_internal nargc options posix s).2 ∧
      nsBound s ≤ nsBound (getopt_internal nargc options posix s).2 := by
    rw [getopt_internal_eq nargc options posix s h0 hr]
    have h' : nsWF { s with optarg := none } := h
    have hres := scanFuel_inv nargc options posix (nargc + 1)
      { s with optarg := none } hr h'
    exact ⟨hres.1, hres.2⟩
  have hint1 : nsBound s ≤ (getopt_internal nargc options posix s).2.optind :=
    le_trans hkey.2 (nsBound_le _)
  have hlong : nsBound s ≤
      ((getopt_long nargc options posix long_options hasIdx s).2).1.optind := by
    unfold getopt_long
    dsimp only
    by_cases h2 : (getopt_internal nargc options posix s).1 = -2
    · rw [if_pos h2]
      exact le_trans hkey.2
        (parse_long_optind nargc options long_options hasIdx _ hkey.1)
    · rw [if_neg h2]
      exact hint1
  exact ⟨⟨hint1, fun hnone => nsBound_none s hnone ▸ hint1⟩,
    ⟨hlong, fun hnone => nsBound_none s hnone ▸ hlong⟩⟩

/-- Witness for C7 at the vector `prog -a b` with spec `"a"`. -/
theorem C7_optind_monotone_witness :
    (nsBound (initState (argvOf ["prog".toList, "-a".toList, "b".toList]))
        ≤ (getopt_internal 3 "a".toList false
            (initState
              (argvOf ["prog".toList, "-a".toList, "b".toList]))).2.optind
      ∧ ((initState
            (argvOf ["prog".toList, "-a".toList, "b".toList])).nonopt_start
              = none →
          (initState
            (argvOf ["prog".toList, "-a".toList, "b".toList])).optind
            ≤ (getopt_internal 3 "a".toList false
                (initState
                  (argvOf ["prog".toList, "-a".toList,
                    "b".toList]))).2.optind))
    ∧ (nsBound (initState (argvOf ["prog".toList, "-a".toList, "b".toList]))
        ≤ ((getopt_long 3 "a".toList false [] false
            (initState
              (argvOf ["prog".toList, "-a".toList,
                "b".toList]))).2).1.optind
      ∧ ((initState
            (argvOf ["prog".toList, "-a".toList, "b".toList])).nonopt_start
              = none →
          (initState
            (argvOf ["prog".toList, "-a".toList, "b".toList])).optind
            ≤ ((getopt_long 3 "a".toList false [] false
                (initState
                  (argvOf ["prog".toList, "-a".toList,
                    "b".toList]))).2).1.optind)) :=
  C7_optind_monotone 3 "a".toList false [] false
    (initState (argvOf ["prog".toList, "-a".toList, "b".toList]))
    (by decide) rfl
    ⟨fun b hb => by simp [initState] at hb,
     fun a ha => by simp [initState] at ha,
     fun b hb => by simp [initState] at hb⟩

/-- Safety of the C `gcd`'s recursion (lines 128-141) on `(a, b)`: the fuel
never runs out and the divisor of every `%` taken is nonzero. -/
def gcdSafeGo : Nat → Nat → Nat → Prop
  | 0, _, _ => False
  | fuel + 1, _, 0 => False
  | fuel + 1, a, b + 1 => a % (b + 1) = 0 ∨ gcdSafeGo fuel (b + 1) (a % (b + 1))

/-- The C `gcd(a, b)` terminates without ever dividing by zero. -/
def gcdSafe (a b : Nat) : Prop := gcdSafeGo (b + 1) a b

theorem gcdSafeGo_of_pos : ∀ (f a b : Nat), 0 < b → b ≤ f → gcdSafeGo f a b := by
  intro f
  induction f with
  | zero =>
    intro a b hb hf
    omega
  | succ g ih =>
    intro a b hb hf
    rcases b with _ | b0
    · omega
    · show a % (b0 + 1) = 0 ∨ gcdSafeGo g (b0 + 1) (a % (b0 + 1))
      by_cases hc : a % (b0 + 1) = 0
      · exact Or.inl hc
      · refine Or.inr (ih (b0 + 1) (a % (b0 + 1)) (by omega) ?_)
        have := Nat.mod_lt a (show 0 < b0 + 1 by omega)
        omega

theorem gcdSafe_of_pos (a b : Nat) (hb : 0 < b) : gcdSafe a b :=
  gcdSafeGo_of_pos (b + 1) a b hb (Nat.le_succ b)

/-- Every `permute_args` call recorded in the ghost trace is well formed:
`panonopt_start < panonopt_end < opt_end`. -/
def traceOK (l : List (Nat × Nat × Nat)) : Prop :=
  ∀ r ∈ l, r.1 < r.2.1 ∧ r.2.1 < r.2.2

/-- The strengthened window invariant for permutation safety: a pending
`nonopt_start` lies strictly below the cursor, and a pending `nonopt_end`
lies strictly above `nonopt_start`, at or below the cursor, below `nargc`,
and still indexes the option token that closed the skipped block. -/
def permWF (nargc : Nat) (s : GState) : Prop :=
  (∀ a, s.nonopt_start = some a → a < s.optind) ∧
  (∀ b, s.nonopt_end = some b →
    (∃ a, s.nonopt_start = some a ∧ a < b) ∧ b ≤ s.optind ∧ b < nargc ∧
    ∃ t, s.argv b = some t ∧ nonOptTok t = false)

theorem processChar_frame2 (nargc : Nat) (options : Str) (s : GState) :
    (processChar nargc options s).2.argv = s.argv ∧
    (processChar nargc options s).2.ptrace = s.ptrace := by
  unfold processChar
  dsimp only
  split_ifs <;> simp

theorem permWF_of_eq (nargc : Nat) (s t : GState)
    (hns : t.nonopt_start = s.nonopt_start)
    (hne : t.nonopt_end = s.nonopt_end) (hargv : t.argv = s.argv)
    (hle : s.optind ≤ t.optind) (h : permWF nargc s) : permWF nargc t := by
  refine ⟨fun a ha => ?_, fun b hb => ?_⟩
  · rw [hns] at ha
    have := h.1 a ha
    omega
  · rw [hne] at hb
    obtain ⟨⟨a, ha, hab⟩, hbo, hbn, t0, ht, hnt⟩ := h.2 b hb
    exact ⟨⟨a, by rw [hns, ha], hab⟩, by omega, hbn, t0, by rw [hargv, ht], hnt⟩

/-- Marking the end of a skipped block keeps the permutation invariant:
the current token is an option token at the cursor. -/
theorem permWF_mark (nargc : Nat) (s : GState) (c0 : Char) (rest p : Str)
    (h : permWF nargc s) (hlt : s.optind < nargc)
    (harg : s.argv s.optind = some ('-' :: c0 :: rest)) :
    permWF nargc { s with
                   optreset := false, place := p,
                   nonopt_end :=
                     if s.nonopt_start ≠ none ∧ s.nonopt_end = none
                     then some s.optind else s.nonopt_end } := by
  refine ⟨fun a ha => ?_, fun b hb => ?_⟩
  · have ha' : s.nonopt_start = some a := ha
    exact h.1 a ha'
  · have hb' : (if s.nonopt_start ≠ none ∧ s.nonopt_end = none
        then some s.optind else s.nonopt_end) = some b := hb
    by_cases hc : s.nonopt_start ≠ none ∧ s.nonopt_end = none
    · rw [if_pos hc] at hb'
      have hob : s.optind = b := by injection hb'
      obtain ⟨a, hns⟩ := Option.ne_none_iff_exists'.mp hc.1
      refine ⟨⟨a, hns, ?_⟩, (show b ≤ s.optind by omega), by omega, '-' :: c0 :: rest, ?_, ?_⟩
      · have := h.1 a hns
        omega
      · rw [← hob]; exact harg
      · simp [nonOptTok]
    · rw [if_neg hc] at hb'
      obtain ⟨⟨a, ha, hab⟩, hbo, hbn, t0, ht, hnt⟩ := h.2 b hb'
      exact ⟨⟨a, ha, hab⟩, hbo, hbn, t0, ht, hnt⟩

/-- The scanning loop preserves `permWF` and only ever invokes
`permute_args` with `nonopt_start < nonopt_end < opt_end`: every record the
call appends to the ghost trace is well formed. -/
theorem scanFuel_ptrace (nargc : Nat) (options : Str) (posix : Bool) :
    ∀ (fuel : Nat) (s : GState), s.optreset = false → permWF nargc s →
      permWF nargc (scanFuel nargc options posix fuel s).2 ∧
      ∃ l, (scanFuel nargc options posix fuel s).2.ptrace = s.ptrace ++ l ∧
        traceOK l := by
  intro fuel
  induction fuel with
  | zero =>
    intro s hr h
    exact ⟨h, [], by simp [scanFuel], fun r hr => nomatch hr⟩
  | succ f ih =>
    intro s hr h
    by_cases hpl : s.place = []
    case neg =>
      rw [scanFuel_mid nargc options posix f s hr hpl]
      obtain ⟨h1, h2, h3⟩ := processChar_frame nargc options s
      obtain ⟨h4, h5⟩ := processChar_frame2 nargc options s
      exact ⟨permWF_of_eq nargc s _ h1 h2 h4 h3 h,
        [], by simp [h5], fun r hr => nomatch hr⟩
    case pos =>
      by_cases hge : nargc ≤ s.optind
      · rcases hne : s.nonopt_end with _ | b
        · rcases hns : s.nonopt_start with _ | a
          · rw [scanFuel_exhaust_nn nargc options posix f s hr hpl hge hns hne]
            refine ⟨⟨fun a ha => ?_, fun b hb => ?_⟩,
              [], by simp, fun r hr => nomatch hr⟩
            · exact absurd (show (none : Option Nat) = some a from ha)
                (by simp)
            · exact absurd (show (none : Option Nat) = some b from hb)
                (by simp)
          · rw [scanFuel_exhaust_roll nargc options posix f s a hr hpl hge
              hns hne]
            refine ⟨⟨fun a' ha' => ?_, fun b hb => ?_⟩,
              [], by simp, fun r hr => nomatch hr⟩
            · exact absurd (show (none : Option Nat) = some a' from ha')
                (by simp)
            · exact absurd (show (none : Option Nat) = some b from hb)
                (by simp)
        · obtain ⟨⟨a, hns, hab⟩, hbo, hbn, t0, ht, hnt⟩ := h.2 b hne
          rw [scanFuel_exhaust_perm nargc options posix f s a b hr hpl hge
            hns hne]
          refine ⟨⟨fun a' ha' => ?_, fun b' hb' => ?_⟩,
            [(a, b, s.optind)], by simp, ?_⟩
          · exact absurd (show (none : Option Nat) = some a' from ha')
              (by simp)
          · exact absurd (show (none : Option Nat) = some b' from hb')
              (by simp)
          · intro r hrm
            simp only [List.mem_singleton] at hrm
            subst hrm
            exact ⟨hab, show b < s.optind by omega⟩
      · have hlt : s.optind < nargc := by omega
        by_cases hnon : nonOptTok ((s.argv s.optind).getD []) = true
        · by_cases hio : inOrderMode options posix = true
          · rw [scanFuel_nonopt_inorder2 nargc options posix f s hpl hlt
              hnon hio]
            exact ⟨permWF_of_eq nargc s _ rfl rfl rfl (Nat.le_succ _) h,
              [], by simp, fun r hr => nomatch hr⟩
          · by_cases hpm : permuteMode options posix = true
            · rcases hns : s.nonopt_start with _ | a
              · rw [scanFuel_walk_fresh2 nargc options posix f s hpl hlt
                  hnon hpm hns]
                have hWF : permWF nargc { s with
                    optreset := false, place := [],
                    nonopt_start := some s.optind, optind := s.optind + 1 } := by
                  refine ⟨fun a' ha' => ?_, fun b hb => ?_⟩
                  · have ha'' : some s.optind = some a' := ha'
                    have : s.optind = a' := by injection ha''
                    show a' < s.optind + 1
                    omega
                  · obtain ⟨⟨a, ha, _⟩, _⟩ := h.2 b hb
                    rw [hns] at ha
                    exact absurd ha (by simp)
                obtain ⟨hW, l, hl, hok⟩ := ih _ rfl hWF
                exact ⟨hW, l, by simpa using hl, hok⟩
              · rcases hne : s.nonopt_end with _ | b
                · rw [scanFuel_walk_mid2 nargc options posix f s a hpl hlt
                    hnon hpm hns hne]
                  have hWF : permWF nargc { s with
                      optreset := false, place := [],
                      optind := s.optind + 1 } :=
                    permWF_of_eq nargc s _ rfl rfl rfl (Nat.le_succ _) h
                  obtain ⟨hW, l, hl, hok⟩ := ih _ rfl hWF
                  exact ⟨hW, l, by simpa using hl, hok⟩
                · rw [scanFuel_walk_perm2 nargc options posix f s a b hpl hlt
                    hnon hpm hns hne]
                  obtain ⟨⟨a', ha', hab⟩, hbo, hbn, t0, ht, hnt⟩ := h.2 b hne
                  have haa : a = a' := by
                    have ha'2 : s.nonopt_start = some a' := ha'
                    rw [hns] at ha'2
                    exact Option.some.inj ha'2
                  subst haa
                  have hblt : b < s.optind := by
                    rcases Nat.lt_or_ge b s.optind with hq | hq
                    · exact hq
                    · exfalso
                      have hbe : b = s.optind := by omega
                      subst hbe
                      rw [ht] at hnon
                      simp at hnon
                      rw [hnon] at hnt
                      exact absurd hnt (by simp)
                  have hWF : permWF nargc { s with
                      optreset := false, place := [],
                      argv := permute_args a b s.optind s.argv,
                      ptrace := s.ptrace ++ [(a, b, s.optind)],
                      nonopt_start := some (s.optind - (b - a)),
                      nonopt_end := none, optind := s.optind + 1 } := by
                    refine ⟨fun a' ha' => ?_, fun b' hb' => ?_⟩
                    · have ha'' : some (s.optind - (b - a)) = some a' := ha'
                      have : s.optind - (b - a) = a' := by injection ha''
                      show a' < s.optind + 1
                      omega
                    · exact absurd (show (none : Option Nat) = some b' from hb')
                        (by simp)
                  obtain ⟨hW, l, hl, hok⟩ := ih _ rfl hWF
                  refine ⟨hW, (a, b, s.optind) :: l, ?_, ?_⟩
                  · rw [show s.ptrace ++ (a, b, s.optind) :: l
                        = (s.ptrace ++ [(a, b, s.optind)]) ++ l by simp]
                    exact hl
                  · intro r hrm
                    simp only [List.mem_cons] at hrm
                    rcases hrm with hq | hq
                    · subst hq
                      exact ⟨hab, hblt⟩
                    · exact hok r hq
            · rw [scanFuel_nonopt_stop2 nargc options posix f s hpl hlt hnon
                (by rcases hx : inOrderMode options posix with _ | _
                    · rfl
                    · exact absurd hx hio)
                (by rcases hx : permuteMode options posix with _ | _
                    · rfl
                    · exact absurd hx hpm)]
              exact ⟨permWF_of_eq nargc s _ rfl rfl rfl (le_refl _) h,
                [], by simp, fun r hr => nomatch hr⟩
        · rcases harg : s.argv s.optind with _ | tok
          · rw [harg] at hnon
            exact absurd rfl hnon
          · rcases tok with _ | ⟨c0, rest⟩
            · rw [harg] at hnon
              exact absurd rfl hnon
            · have hc0 : c0 = '-' := by
                by_contra hc0
                apply hnon
                rw [harg]
                simp [nonOptTok]
                exact Or.inl hc0
              subst hc0
              rcases rest with _ | ⟨c, r⟩
              · rw [harg] at hnon
                exact absurd rfl hnon
              · by_cases hc : c = '-'
                · subst hc
                  rw [scanFuel_ddash nargc options posix f s r hr hpl hlt harg]
                  exact ⟨permWF_mark nargc s '-' r r h hlt harg,
                    [], by simp, fun r hr => nomatch hr⟩
                · rw [scanFuel_opt nargc options posix f s c r hr hpl hlt
                    harg hc]
                  obtain ⟨h1, h2, h3⟩ := processChar_frame nargc options
                    { s with
                      optreset := false, place := c :: r,
                      nonopt_end :=
                        if s.nonopt_start ≠ none ∧ s.nonopt_end = none
                        then some s.optind else s.nonopt_end }
                  obtain ⟨h4, h5⟩ := processChar_frame2 nargc options
                    { s with
                      optreset := false, place := c :: r,
                      nonopt_end :=
                        if s.nonopt_start ≠ none ∧ s.nonopt_end = none
                        then some s.optind else s.nonopt_end }
                  refine ⟨permWF_of_eq nargc _ _ h1 h2 h4 h3
                    (permWF_mark nargc s c (r) (c :: r) h hlt harg),
                    [], by simp [h5], fun r hr => nomatch hr⟩

theorem getopt_internal_ptrace (nargc : Nat) (options : Str) (posix : Bool)
    (s : GState) (h0 : s.optind ≠ 0) (hr : s.optreset = false)
    (h : permWF nargc s) :
    permWF nargc (getopt_internal nargc options posix s).2 ∧
    ∃ l, (getopt_internal nargc options posix s).2.ptrace = s.ptrace ++ l ∧
      traceOK l := by
  rw [getopt_internal_eq nargc options posix s h0 hr]
  have h' : permWF nargc { s with optarg := none } := h
  exact scanFuel_ptrace nargc options posix (nargc + 1)
    { s with optarg := none } hr h'

/-- The `retval == -2` block of `getopt_long` permutes only in the `--`
branch, and there with `nonopt_start < nonopt_end < optind`. -/
theorem parse_long_ptrace (nargc : Nat) (options : Str)
    (long_options : List option_t) (hasIdx : Bool) (s : GState)
    (h : permWF nargc s) :
    ∃ l, ((parse_long nargc options long_options hasIdx s).2).1.ptrace
        = s.ptrace ++ l ∧ traceOK l := by
  unfold parse_long
  dsimp only
  by_cases hemp : s.place.isEmpty
  · rw [if_pos hemp]
    rcases hne : s.nonopt_end with _ | b
    · dsimp only
      exact ⟨[], by simp, fun r hr => nomatch hr⟩
    · rcases hns : s.nonopt_start with _ | a
      · obtain ⟨⟨a, ha, _⟩, _⟩ := h.2 b hne
        rw [hns] at ha
        exact absurd ha (by simp)
      · obtain ⟨⟨a', ha', hab⟩, hbo, hbn, t0, ht, hnt⟩ := h.2 b hne
        have haa : a = a' := by
          have h2 : s.nonopt_start = some a' := ha'
          rw [hns] at h2
          exact Option.some.inj h2
        subst haa
        dsimp only [doPermute]
        simp only [Option.getD_some]
        refine ⟨[(a, b, s.optind + 1)], by simp, ?_⟩
        intro r hrm
        simp only [List.mem_singleton] at hrm
        subst hrm
        exact ⟨hab, show b < s.optind + 1 by omega⟩
  · rw [if_neg hemp]
    rcases hm : matchLong long_options s.place (splitEq s.place).1 with ⟨m, amb⟩
    rcases m with _ | ⟨mi, e⟩ <;> rcases amb with _ | _
    · dsimp only
      exact ⟨[], by simp, fun r hr => nomatch hr⟩
    · dsimp only
      exact ⟨[], by simp, fun r hr => nomatch hr⟩
    · dsimp only
      split_ifs <;>
        (rcases e.flag with _ | fl <;> dsimp only <;>
          exact ⟨[], by simp, fun r hr => nomatch hr⟩)
    · dsimp only
      exact ⟨[], by simp, fun r hr => nomatch hr⟩

/-- C10: every `permute_args` invocation reached from `getopt_internal` or
`getopt_long` — recorded in the ghost trace — satisfies
`nonopt_start < nonopt_end < opt_end`; hence both block lengths handed to
`gcd` are at least 1, the C `gcd` terminates with no modulus by zero
(`gcdSafe`), and it computes the mathematical gcd. -/
theorem C10_permute_safety (nargc : Nat) (options : Str) (posix : Bool)
    (long_options : List option_t) (hasIdx : Bool) (s : GState)
    (h0 : s.optind ≠ 0) (hr : s.optreset = false) (h : permWF nargc s) :
    (∃ l, (getopt_internal nargc options posix s).2.ptrace = s.ptrace ++ l ∧
      ∀ r ∈ l, r.1 < r.2.1 ∧ r.2.1 < r.2.2 ∧
        gcdSafe (r.2.1 - r.1) (r.2.2 - r.2.1) ∧
        gcd_c (r.2.1 - r.1) (r.2.2 - r.2.1)
          = Nat.gcd (r.2.1 - r.1) (r.2.2 - r.2.1)) ∧
    (∃ l, ((getopt_long nargc options posix long_options
          hasIdx s).2).1.ptrace = s.ptrace ++ l ∧
      ∀ r ∈ l, r.1 < r.2.1 ∧ r.2.1 < r.2.2 ∧
        gcdSafe (r.2.1 - r.1) (r.2.2 - r.2.1) ∧
        gcd_c (r.2.1 - r.1) (r.2.2 - r.2.1)
          = Nat.gcd (r.2.1 - r.1) (r.2.2 - r.2.1)) := by
  obtain ⟨hW, l1, hl1, hok1⟩ := getopt_internal_ptrace nargc options posix s
    h0 hr h
  constructor
  · refine ⟨l1, hl1, ?_⟩
    intro r hrm
    obtain ⟨hab, hbc⟩ := hok1 r hrm
    exact ⟨hab, hbc, gcdSafe_of_pos _ _ (by omega),
      gcd_c_eq _ _ (by omega)⟩
  · unfold getopt_long
    dsimp only
    by_cases h2 : (getopt_internal nargc options posix s).1 = -2
    · rw [if_pos h2]
      obtain ⟨l2, hl2, hok2⟩ := parse_long_ptrace nargc options long_options
        hasIdx _ hW
      refine ⟨l1 ++ l2, ?_, ?_⟩
      · rw [hl2, hl1, List.append_assoc]
      · intro r hrm
        rcases List.mem_append.mp hrm with hq | hq
        · obtain ⟨hab, hbc⟩ := hok1 r hq
          exact ⟨hab, hbc, gcdSafe_of_pos _ _ (by omega),
            gcd_c_eq _ _ (by omega)⟩
        · obtain ⟨hab, hbc⟩ := hok2 r hq
          exact ⟨hab, hbc, gcdSafe_of_pos _ _ (by omega),
            gcd_c_eq _ _ (by omega)⟩
    · rw [if_neg h2]
      refine ⟨l1, hl1, ?_⟩
      intro r hrm
      obtain ⟨hab, hbc⟩ := hok1 r hrm
      exact ⟨hab, hbc, gcdSafe_of_pos _ _ (by omega),
        gcd_c_eq _ _ (by omega)⟩

/-- Witness for C10 at the vector `prog b --` with spec `"a"`: the call
permutes once. -/
theorem C10_permute_safety_witness :
    (∃ l, (getopt_internal 3 "a".toList false
        (initState
          (argvOf ["prog".toList, "b".toList, "--".toList]))).2.ptrace
        = (initState
            (argvOf ["prog".toList, "b".toList, "--".toList])).ptrace ++ l ∧
      ∀ r ∈ l, r.1 < r.2.1 ∧ r.2.1 < r.2.2 ∧
        gcdSafe (r.2.1 - r.1) (r.2.2 - r.2.1) ∧
        gcd_c (r.2.1 - r.1) (r.2.2 - r.2.1)
          = Nat.gcd (r.2.1 - r.1) (r.2.2 - r.2.1)) ∧
    (∃ l, ((getopt_long 3 "a".toList false [] false
        (initState
          (argvOf ["prog".toList, "b".toList, "--".toList]))).2).1.ptrace
        = (initState
            (argvOf ["prog".toList, "b".toList, "--".toList])).ptrace ++ l ∧
      ∀ r ∈ l, r.1 < r.2.1 ∧ r.2.1 < r.2.2 ∧
        gcdSafe (r.2.1 - r.1) (r.2.2 - r.2.1) ∧
        gcd_c (r.2.1 - r.1) (r.2.2 - r.2.1)
          = Nat.gcd (r.2.1 - r.1) (r.2.2 - r.2.1)) :=
  C10_permute_safety 3 "a".toList false [] false
    (initState (argvOf ["prog".toList, "b".toList, "--".toList]))
    (by decide) rfl
    ⟨fun a ha => by simp [initState] at ha,
     fun b hb => by simp [initState] at hb⟩

/-- A scanner state that has reported "no more options": the cursor either
sits at the end of the vector, or (with `-1` possible before the end only
when permuting or stopping at the first operand) on a non-option token with
every remaining token a non-option in permute mode. -/
def exhausted (nargc : Nat) (options : Str) (posix : Bool) (s : GState) : Prop :=
  s.place = [] ∧ s.optreset = false ∧ 1 ≤ s.optind ∧
  s.nonopt_start = none ∧ s.nonopt_end = none ∧
  (nargc ≤ s.optind ∨
    (s.optind < nargc ∧ inOrderMode options posix = false ∧
      (∃ t, s.argv s.optind = some t ∧ nonOptTok t = true) ∧
      (permuteMode options posix = true →
        ∀ k, s.optind ≤ k → k < nargc →
          ∃ t, s.argv k = some t ∧ nonOptTok t = true)))

/-- The reachable-state invariant used for exhaustion idempotence: cursor in
range, argument vector non-null below `nargc`, and the skipped-block window
bookkeeping sound, with the skipped block holding only non-option tokens. -/
def C4WF (nargc : Nat) (options : Str) (posix : Bool) (s : GState) : Prop :=
  1 ≤ s.optind ∧ s.optind ≤ nargc ∧
  (∀ k, 1 ≤ k → k < nargc → ∃ t, s.argv k = some t) ∧
  (∀ a, s.nonopt_start = some a →
    1 ≤ a ∧ a < s.optind ∧ permuteMode options posix = true) ∧
  (∀ b, s.nonopt_end = some b →
    ∃ a, s.nonopt_start = some a ∧ a < b ∧ b ≤ s.optind ∧ b < nargc ∧
      ∃ t, s.argv b = some t ∧ nonOptTok t = false) ∧
  (∀ a, s.nonopt_start = some a → ∀ k, a ≤ k →
    k < (match s.nonopt_end with | some b => b | none => s.optind) →
    ∃ t, s.argv k = some t ∧ nonOptTok t = true)

theorem processChar_ne_m1 (nargc : Nat) (options : Str) (s : GState) :
    (processChar nargc options s).1 ≠ -1 := by
  have hB : BADCH ≠ -1 := by decide
  have hA : BADARGv options ≠ -1 := by
    unfold BADARGv
    split_ifs <;> decide
  unfold processChar
  dsimp only
  split_ifs <;> simp [hB, hA] <;> omega

/-- Walking over a tail of non-option tokens in permute mode ends the call
with `-1` and the cursor restored to the start of the skipped block. -/
theorem scanFuel_walk_all (nargc : Nat) (options : Str) (posix : Bool) :
    ∀ (fuel : Nat) (s : GState) (a : Nat), s.optreset = false →
      s.place = [] → s.nonopt_start = some a → s.nonopt_end = none →
      s.optind ≤ nargc → nargc < fuel + s.optind →
      (∀ k, s.optind ≤ k → k < nargc →
        ∃ t, s.argv k = some t ∧ nonOptTok t = true) →
      permuteMode options posix = true →
      scanFuel nargc options posix fuel s
        = (-1, { s with
                 optreset := false, place := [], optind := a,
                 nonopt_start := none, nonopt_end := none }) := by
  intro fuel
  induction fuel with
  | zero =>
    intro s a hr hpl hns hne hle hfuel htoks hpm
    exact absurd hle (by omega)
  | succ f ih =>
    intro s a hr hpl hns hne hle hfuel htoks hpm
    by_cases hge : nargc ≤ s.optind
    · exact scanFuel_exhaust_roll nargc options posix f s a hr hpl hge hns hne
    · have hlt : s.optind < nargc := by omega
      obtain ⟨t, ht, hnt⟩ := htoks s.optind (le_refl _) hlt
      have hnon : nonOptTok ((s.argv s.optind).getD []) = true := by
        rw [ht]
        simpa using hnt
      rw [scanFuel_walk_mid2 nargc options posix f s a hpl hlt hnon hpm
        hns hne]
      exact ih
        { s with
          optreset := false, place := [], optind := s.optind + 1 } a rfl rfl
        hns hne (show s.optind + 1 ≤ nargc by omega)
        (show nargc < f + (s.optind + 1) by omega)
        (fun k hk1 hk2 => htoks k (le_trans (Nat.le_succ _) hk1) hk2) hpm

/-- An exhausted state is a fixed point of the scanner: the next call
returns `-1` again and leaves `optind`, the argument vector and the window
unchanged. -/
theorem exhausted_fixed (nargc : Nat) (options : Str) (posix : Bool)
    (s : GState) (hex : exhausted nargc options posix s) :
    (getopt_internal nargc options posix s).1 = -1 ∧
    (getopt_internal nargc options posix s).2.optind = s.optind ∧
    (getopt_internal nargc options posix s).2.argv = s.argv ∧
    (getopt_internal nargc options posix s).2.nonopt_start = s.nonopt_start ∧
    (getopt_internal nargc options posix s).2.nonopt_end = s.nonopt_end ∧
    exhausted nargc options posix (getopt_internal nargc options posix s).2 := by
  obtain ⟨hpl, hr, h1, hns, hne, hcase⟩ := hex
  rw [getopt_internal_eq nargc options posix s (by omega) hr]
  rcases hcase with hge | ⟨hlt, hio, ⟨t, ht, hnt⟩, hperm⟩
  · rw [scanFuel_exhaust_nn nargc options posix nargc
      { s with optarg := none } hr hpl hge hns hne]
    refine ⟨rfl, rfl, rfl, ?_, ?_, rfl, rfl, h1, rfl, rfl, Or.inl hge⟩
    · rw [hns]
    · rw [hne]
  · have hnon : nonOptTok ((({ s with optarg := none } : GState).argv
        s.optind).getD []) = true := by
      show nonOptTok ((s.argv s.optind).getD []) = true
      rw [ht]
      simpa using hnt
    by_cases hpm : permuteMode options posix = true
    · have heq := (scanFuel_walk_fresh2 nargc options posix nargc
          { s with optarg := none } hpl hlt hnon hpm hns).trans
        (scanFuel_walk_all nargc options posix nargc
          { s with
            optarg := none, optreset := false, place := [],
            nonopt_start := some s.optind, optind := s.optind + 1 }
          s.optind rfl rfl rfl hne (show s.optind + 1 ≤ nargc by omega)
          (show nargc < nargc + (s.optind + 1) by omega)
          (fun k hk1 hk2 => hperm hpm k (le_trans (Nat.le_succ _) hk1) hk2)
          hpm)
      rw [heq]
      refine ⟨rfl, rfl, rfl, ?_, ?_, rfl, rfl, h1, rfl, rfl,
        Or.inr ⟨hlt, hio, ⟨t, ht, hnt⟩, hperm⟩⟩
      · rw [hns]
      · rw [hne]
    · have hpm' : permuteMode options posix = false := by simpa using hpm
      rw [scanFuel_nonopt_stop2 nargc options posix nargc
        { s with optarg := none } hpl hlt hnon hio hpm']
      refine ⟨rfl, rfl, rfl, rfl, rfl, rfl, rfl, h1, ?_, ?_,
        Or.inr ⟨hlt, hio, ⟨t, ht, hnt⟩, hperm⟩⟩
      · exact hns
      · exact hne

theorem permute_args_window {α : Type} (ps pe oe x : Nat) (h1 : ps < pe)
    (h2 : pe < oe) (a : Nat → α) (hx1 : ps ≤ x) (hx2 : x < oe) :
    ps ≤ rotBack ps pe oe x ∧ rotBack ps pe oe x < oe ∧
    permute_args ps pe oe a x = a (rotBack ps pe oe x) ∧
    (ps + (oe - pe) ≤ x → rotBack ps pe oe x < pe) := by
  have heq := (permute_args_spec ps pe oe h1 h2 a).1 x hx1 hx2
  refine ⟨?_, ?_, heq, fun hx3 => ?_⟩ <;>
    (unfold rotBack; split_ifs <;> omega)

/-- Any `-1` return of the scanning loop from a well-formed state lands in
an `exhausted` state. -/
theorem scanFuel_exhausts (nargc : Nat) (options : Str) (posix : Bool) :
    ∀ (fuel : Nat) (s : GState), s.optreset = false →
      C4WF nargc options posix s → nargc < fuel + s.optind →
      (scanFuel nargc options posix fuel s).1 = -1 →
      exhausted nargc options posix (scanFuel nargc options posix fuel s).2 := by
  intro fuel
  induction fuel with
  | zero =>
    intro s hr h hfuel hret
    exact absurd h.2.1 (by omega)
  | succ f ih =>
    intro s hr h hfuel hret
    obtain ⟨h1, h2, h4, h5, h6, h7⟩ := h
    by_cases hpl : s.place = []
    case neg =>
      rw [scanFuel_mid nargc options posix f s hr hpl] at hret
      exact absurd hret (processChar_ne_m1 nargc options s)
    case pos =>
      by_cases hge : nargc ≤ s.optind
      · rcases hne : s.nonopt_end with _ | b
        · rcases hns : s.nonopt_start with _ | a
          · rw [scanFuel_exhaust_nn nargc options posix f s hr hpl hge
              hns hne]
            exact ⟨rfl, rfl, h1, rfl, rfl, Or.inl hge⟩
          · rw [scanFuel_exhaust_roll nargc options posix f s a hr hpl hge
              hns hne]
            obtain ⟨ha1, ha2, hpm⟩ := h5 a hns
            refine ⟨rfl, rfl, ha1, rfl, rfl, Or.inr
              ⟨show a < nargc by omega,
               permute_not_inorder options posix hpm, ?_, fun _ k hk1 hk2 =>
                 h7 a hns k hk1 (by rw [hne]; show k < s.optind; omega)⟩⟩
            exact h7 a hns a (le_refl _) (by rw [hne]; exact ha2)
        · obtain ⟨a, hns, hab, hbo, hbn, tb, htb, hntb⟩ := h6 b hne
          obtain ⟨ha1, ha2, hpm⟩ := h5 a hns
          rw [scanFuel_exhaust_perm nargc options posix f s a b hr hpl hge
            hns hne]
          have hblock : ∀ k, a ≤ k → k < b →
              ∃ t, s.argv k = some t ∧ nonOptTok t = true := by
            intro k hk1 hk2
            exact h7 a hns k hk1 (by rw [hne]; exact hk2)
          have hALL : ∀ k, s.optind - (b - a) ≤ k → k < s.optind →
              ∃ t, permute_args a b s.optind s.argv k = some t ∧
                nonOptTok t = true := by
            intro k hk1 hk2
            obtain ⟨hy1, hy2, heq, hy3⟩ := permute_args_window a b s.optind k
              hab (by omega) s.argv (by omega) hk2
            have hy4 := hy3 (by omega)
            obtain ⟨t, ht, hnt⟩ := hblock _ hy1 hy4
            exact ⟨t, by rw [heq, ht], hnt⟩
          refine ⟨rfl, rfl, show 1 ≤ s.optind - (b - a) by omega, rfl, rfl,
            Or.inr ⟨show s.optind - (b - a) < nargc by omega,
              permute_not_inorder options posix hpm, ?_, fun _ k hk1 hk2 =>
                hALL k hk1 (by omega)⟩⟩
          exact hALL (s.optind - (b - a)) (le_refl _) (by omega)
      · have hlt : s.optind < nargc := by omega
        by_cases hnon : nonOptTok ((s.argv s.optind).getD []) = true
        · obtain ⟨t0, ht0⟩ := h4 s.optind h1 hlt
          have hnt0 : nonOptTok t0 = true := by
            rw [ht0] at hnon
            simpa using hnon
          by_cases hio : inOrderMode options posix = true
          · rw [scanFuel_nonopt_inorder2 nargc options posix f s hpl hlt
              hnon hio] at hret
            exact absurd (show (1 : Int) = -1 from hret) (by decide)
          · by_cases hpm : permuteMode options posix = true
            · rcases hns : s.nonopt_start with _ | a
              · have hne0 : s.nonopt_end = none := by
                  rcases hq : s.nonopt_end with _ | b
                  · rfl
                  · obtain ⟨a0, hns0, _⟩ := h6 b hq
                    rw [hns] at hns0
                    exact absurd hns0 (by simp)
                rw [scanFuel_walk_fresh2 nargc options posix f s hpl hlt
                  hnon hpm hns] at hret ⊢
                refine ih _ rfl ⟨?_, ?_, ?_, ?_, ?_, ?_⟩ ?_ hret
                · show 1 ≤ s.optind + 1
                  omega
                · show s.optind + 1 ≤ nargc
                  omega
                · exact fun k hk1 hk2 => h4 k hk1 hk2
                · intro a' ha'
                  have : s.optind = a' := by injection ha'
                  subst this
                  exact ⟨h1, Nat.lt_succ_self _, hpm⟩
                · intro b hb
                  have hb' : s.nonopt_end = some b := hb
                  rw [hne0] at hb'
                  exact absurd hb' (by simp)
                · intro a' ha' k hk1 hk2
                  have haa : s.optind = a' := by injection ha'
                  subst haa
                  have hk2' : k < (match s.nonopt_end with
                      | some b => b
                      | none => s.optind + 1) := hk2
                  rw [hne0] at hk2'
                  have hk3 : k < s.optind + 1 := hk2'
                  have hkk : k = s.optind := by omega
                  subst hkk
                  exact ⟨t0, ht0, hnt0⟩
                · show nargc < f + (s.optind + 1)
                  omega
              · rcases hne2 : s.nonopt_end with _ | b
                · obtain ⟨ha1, ha2, _⟩ := h5 a hns
                  rw [scanFuel_walk_mid2 nargc options posix f s a hpl hlt
                    hnon hpm hns hne2] at hret ⊢
                  refine ih _ rfl ⟨?_, ?_, ?_, ?_, ?_, ?_⟩ ?_ hret
                  · show 1 ≤ s.optind + 1
                    omega
                  · show s.optind + 1 ≤ nargc
                    omega
                  · exact fun k hk1 hk2 => h4 k hk1 hk2
                  · intro a' ha'
                    have ha'' : s.nonopt_start = some a' := ha'
                    obtain ⟨hb1, hb2, hb3⟩ := h5 a' ha''
                    exact ⟨hb1, show a' < s.optind + 1 by omega, hb3⟩
                  · intro b' hb'
                    have hb'' : s.nonopt_end = some b' := hb'
                    rw [hne2] at hb''
                    exact absurd hb'' (by simp)
                  · intro a' ha' k hk1 hk2
                    have ha'' : s.nonopt_start = some a' := ha'
                    have hk2' : k < (match s.nonopt_end with
                        | some b => b
                        | none => s.optind + 1) := hk2
                    rw [hne2] at hk2'
                    have hk3 : k < s.optind + 1 := hk2'
                    rcases Nat.lt_or_ge k s.optind with hko | hko
                    · exact h7 a' ha'' k hk1 (by rw [hne2]; exact hko)
                    · have hkk : k = s.optind := by omega
                      subst hkk
                      exact ⟨t0, ht0, hnt0⟩
                  · show nargc < f + (s.optind + 1)
                    omega
                · obtain ⟨a0, hns0, hab, hbo, hbn, tb, htb, hntb⟩ := h6 b hne2
                  have haa : a = a0 := by
                    rw [hns] at hns0
                    exact Option.some.inj hns0
                  subst haa
                  obtain ⟨ha1, ha2, _⟩ := h5 a hns
                  have hblock : ∀ k, a ≤ k → k < b →
                      ∃ t, s.argv k = some t ∧ nonOptTok t = true := by
                    intro k hk1 hk2
                    exact h7 a hns k hk1 (by rw [hne2]; exact hk2)
                  have hblt : b < s.optind := by
                    rcases Nat.lt_or_ge b s.optind with hq | hq
                    · exact hq
                    · exfalso
                      have hbe : b = s.optind := by omega
                      subst hbe
                      rw [htb] at ht0
                      have : tb = t0 := Option.some.inj ht0
                      subst this
                      rw [hnt0] at hntb
                      exact absurd hntb (by simp)
                  rw [scanFuel_walk_perm2 nargc options posix f s a b hpl hlt
                    hnon hpm hns hne2] at hret ⊢
                  refine ih _ rfl ⟨?_, ?_, ?_, ?_, ?_, ?_⟩ ?_ hret
                  · show 1 ≤ s.optind + 1
                    omega
                  · show s.optind + 1 ≤ nargc
                    omega
                  · intro k hk1 hk2
                    show ∃ t, permute_args a b s.optind s.argv k = some t
                    rcases Nat.lt_or_ge k a with hka | hka
                    · obtain ⟨t, ht⟩ := h4 k hk1 hk2
                      exact ⟨t, by
                        rw [(permute_args_spec a b s.optind hab
                          (by omega) s.argv).2 k (Or.inl hka), ht]⟩
                    · rcases Nat.lt_or_ge k s.optind with hko | hko
                      · obtain ⟨hy1, hy2, heq, _⟩ := permute_args_window a b
                          s.optind k hab (by omega) s.argv hka hko
                        obtain ⟨t, ht⟩ := h4 (rotBack a b s.optind k)
                          (by omega) (by omega)
                        exact ⟨t, by rw [heq, ht]⟩
                      · obtain ⟨t, ht⟩ := h4 k hk1 hk2
                        exact ⟨t, by
                          rw [(permute_args_spec a b s.optind hab
                            (by omega) s.argv).2 k (Or.inr hko), ht]⟩
                  · intro a' ha'
                    have : s.optind - (b - a) = a' := by injection ha'
                    subst this
                    exact ⟨show 1 ≤ s.optind - (b - a) by omega,
                      show s.optind - (b - a) < s.optind + 1 by omega, hpm⟩
                  · intro b' hb'
                    exact absurd (show (none : Option Nat) = some b' from hb')
                      (by simp)
                  · intro a' ha' k hk1 hk2
                    have : s.optind - (b - a) = a' := by injection ha'
                    subst this
                    have hk2' : k < (match (none : Option Nat) with
                        | some b => b
                        | none => s.optind + 1) := hk2
                    have hk3 : k < s.optind + 1 := hk2'
                    have hk1' : s.optind - (b - a) ≤ k := hk1
                    show ∃ t, permute_args a b s.optind s.argv k = some t ∧
                      nonOptTok t = true
                    rcases Nat.lt_or_ge k s.optind with hko | hko
                    · obtain ⟨hy1, hy2, heq, hy3⟩ := permute_args_window a b
                        s.optind k hab (by omega) s.argv (by omega) hko
                      have hy4 := hy3 (by omega)
                      obtain ⟨t, ht, hnt⟩ := hblock _ hy1 hy4
                      exact ⟨t, by rw [heq, ht], hnt⟩
                    · have hkk : k = s.optind := by omega
                      subst hkk
                      refine ⟨t0, ?_, hnt0⟩
                      rw [(permute_args_spec a b s.optind hab
                        (by omega) s.argv).2 _ (Or.inr (le_refl _)), ht0]
                  · show nargc < f + (s.optind + 1)
                    omega
            · have hpm' : permuteMode options posix = false := by
                simpa using hpm
              have hio' : inOrderMode options posix = false := by
                simpa using hio
              rw [scanFuel_nonopt_stop2 nargc options posix f s hpl hlt hnon
                hio' hpm']
              have hns0 : s.nonopt_start = none := by
                rcases hq : s.nonopt_start with _ | a
                · rfl
                · obtain ⟨_, _, hx⟩ := h5 a hq
                  rw [hx] at hpm'
                  exact absurd hpm' (by simp)
              have hne0 : s.nonopt_end = none := by
                rcases hq : s.nonopt_end with _ | b
                · rfl
                · obtain ⟨a0, hns1, _⟩ := h6 b hq
                  rw [hns0] at hns1
                  exact absurd hns1 (by simp)
              exact ⟨rfl, rfl, h1, hns0, hne0, Or.inr ⟨hlt, hio',
                ⟨t0, ht0, hnt0⟩, fun hc => absurd hc (by simp [hpm'])⟩⟩
        · rcases harg : s.argv s.optind with _ | tok
          · rw [harg] at hnon
            exact absurd rfl hnon
          · rcases tok with _ | ⟨c0, rest⟩
            · rw [harg] at hnon
              exact absurd rfl hnon
            · have hc0 : c0 = '-' := by
                by_contra hc0
                apply hnon
                rw [harg]
                simp [nonOptTok]
                exact Or.inl hc0
              subst hc0
              rcases rest with _ | ⟨c, r⟩
              · rw [harg] at hnon
                exact absurd rfl hnon
              · by_cases hc : c = '-'
                · subst hc
                  rw [scanFuel_ddash nargc options posix f s r hr hpl hlt
                    harg] at hret
                  exact absurd (show (-2 : Int) = -1 from hret) (by decide)
                · rw [scanFuel_opt nargc options posix f s c r hr hpl hlt
                    harg hc] at hret
                  exact absurd hret (processChar_ne_m1 nargc options _)

/-- C4: once the scanner reports `-1` the state is `exhausted`, and an
exhausted state is a fixed point — every further call with the same
argument vector and option spec, without the caller resetting `optreset`
or `optind`, returns `-1` again and leaves `optind`, the argument vector,
`nonopt_start` and `nonopt_end` unchanged. -/
theorem C4_exhaustion_idempotent (nargc : Nat) (options : Str) (posix : Bool)
    (s : GState) (hr : s.optreset = false) (h : C4WF nargc options posix s)
    (hret : (getopt_internal nargc options posix s).1 = -1) :
    exhausted nargc options posix (getopt_internal nargc options posix s).2 ∧
    ∀ s', exhausted nargc options posix s' →
      (getopt_internal nargc options posix s').1 = -1 ∧
      (getopt_internal nargc options posix s').2.optind = s'.optind ∧
      (getopt_internal nargc options posix s').2.argv = s'.argv ∧
      (getopt_internal nargc options posix s').2.nonopt_start
        = s'.nonopt_start ∧
      (getopt_internal nargc options posix s').2.nonopt_end
        = s'.nonopt_end ∧
      exhausted nargc options posix
        (getopt_internal nargc options posix s').2 := by
  constructor
  · have h0 : s.optind ≠ 0 := by
      have := h.1
      omega
    rw [getopt_internal_eq nargc options posix s h0 hr] at hret ⊢
    have h' : C4WF nargc options posix { s with optarg := none } := h
    exact scanFuel_exhausts nargc options posix (nargc + 1)
      { s with optarg := none } hr h'
      (by have := h.1; omega) hret
  · exact fun s' hex => exhausted_fixed nargc options posix s' hex

/-- Witness for C4 at the vector `prog b` with spec `"a"`: the first call
permute-walks over the operand and reports `-1` with the cursor back at 1. -/
theorem C4_exhaustion_idempotent_witness :
    (exhausted 2 "a".toList false
      (getopt_internal 2 "a".toList false
        (initState (argvOf ["prog".toList, "b".toList]))).2 ∧
    ∀ s', exhausted 2 "a".toList false s' →
      (getopt_internal 2 "a".toList false s').1 = -1 ∧
      (getopt_internal 2 "a".toList false s').2.optind = s'.optind ∧
      (getopt_internal 2 "a".toList false s').2.argv = s'.argv ∧
      (getopt_internal 2 "a".toList false s').2.nonopt_start
        = s'.nonopt_start ∧
      (getopt_internal 2 "a".toList false s').2.nonopt_end
        = s'.nonopt_end ∧
      exhausted 2 "a".toList false
        (getopt_internal 2 "a".toList false s').2) :=
  C4_exhaustion_idempotent 2 "a".toList false
    (initState (argvOf ["prog".toList, "b".toList])) rfl
    ⟨Nat.le_refl 1, by decide,
     fun k hk1 hk2 => by
       have hk : k = 1 := by omega
       subst hk
       exact ⟨"b".toList, rfl⟩,
     fun a ha => by simp [initState] at ha,
     fun b hb => by simp [initState] at hb,
     fun a ha => by simp [initState] at ha⟩
    (by decide)
